import Mathlib

/-!
# Assignment2: animals, containers and the command loop

A shallow embedding of `src/Assignment2.cpp`.

* `int` values are integers kept in the 32-bit range by `wrapInt` after every
  arithmetic operation of the source (`+ 1`, `* 2`): signed overflow, which
  ISO C++ leaves undefined, is taken as the two's complement wrap-around of the
  usual targets; `/ 2` is the truncating division of C++ (`Int.tdiv`).
* An object is a record of its dynamic class, its name and its days; a
  `shared_ptr<Animal>` that may be null is an `Option Animal`.
* A container is the list held in its `animals` vector, together with the class
  `T` of its template argument where a cast to `T` is made.
* `std::sort` is rendered in the command loop by an insertion sort under the
  comparator of `Container::reorder`; the library only fixes the result up to
  the order of entities that the comparator does not separate, and the claims
  on the command loop conclude of a sorted vector only what every such sort
  gives, a sorted permutation. For the claim on the rebuild of `periodUpdate`,
  which is about that order, the sort is a parameter under `SortContract`, and
  `StdSort` embeds the `std::sort` of libstdc++. Names are compared as
  sequences of characters, as `std::string::operator<` does.
* A command line is the record of the values that the `iss >> ...` extractions
  deliver for it; `cout` is the list of the lines printed.
-/

namespace Assignment2

/-! ## Machine integers -/

/-- Smallest value of `int`. -/
def INT_MIN : Int := -2147483648

/-- Largest value of `int`. -/
def INT_MAX : Int := 2147483647

/-- Reduction of an integer result to the 32-bit two's complement range. -/
def wrapInt (x : Int) : Int := (x + 2147483648) % 4294967296 - 2147483648

/-! ## Animals -/

/-- The seven concrete animal classes. -/
inductive Kind
  | Fish | BetterFish | Bird | BetterBird | Mouse | BetterMouse | Monster
  deriving DecidableEq, Repr

/-- The classes a container can be instantiated with: the abstract base
`Animal` and the concrete classes. -/
inductive Cls
  | Animal | Fish | BetterFish | Bird | BetterBird | Mouse | BetterMouse | Monster
  deriving DecidableEq, Repr

/-- Whether `dynamic_pointer_cast<T>` succeeds on an object of dynamic class
`k`: `BetterX` derives from `X`, `Monster` derives from the three `BetterX`,
and every class derives from `Animal`. -/
def Kind.castsTo : Kind → Cls → Bool
  | _, .Animal => true
  | .Fish, .Fish => true
  | .BetterFish, .Fish => true
  | .BetterFish, .BetterFish => true
  | .Bird, .Bird => true
  | .BetterBird, .Bird => true
  | .BetterBird, .BetterBird => true
  | .Mouse, .Mouse => true
  | .BetterMouse, .Mouse => true
  | .BetterMouse, .BetterMouse => true
  | .Monster, _ => true
  | _, _ => false

/-- An animal object: dynamic class, `name` and `daysLived`. -/
structure Animal where
  kind : Kind
  name : String
  daysLived : Int
  deriving DecidableEq, Repr

namespace Animal

/-- The override of `getType` of each class. -/
def getType (a : Animal) : String :=
  match a.kind with
  | .Fish => "F"
  | .BetterFish => "BF"
  | .Bird => "B"
  | .BetterBird => "BB"
  | .Mouse => "M"
  | .BetterMouse => "BM"
  | .Monster => "MON"

/-- Member `setDaysLived`. -/
def setDaysLived (a : Animal) (newValue : Int) : Animal :=
  { a with daysLived := newValue }

/-- Member `operator<`: by `daysLived`, then by `name`. -/
def lt (a other : Animal) : Bool :=
  if a.daysLived ≠ other.daysLived then decide (a.daysLived < other.daysLived)
  else decide (a.name.toList < other.name.toList)

/-- The line printed by `talk`. -/
def talk (a : Animal) : String :=
  "My name is " ++ a.name ++ ", days lived: " ++ toString a.daysLived

/-- The line printed by the override of `attack` of each class. -/
def attackLine (a : Animal) : String :=
  match a.kind with
  | .Fish => "Fish is attacking"
  | .BetterFish => "BetterFish is attacking"
  | .Bird => "Bird is attacking"
  | .BetterBird => "BetterBird is attacking"
  | .Mouse => "Mouse is attacking"
  | .BetterMouse => "BetterMouse is attacking"
  | .Monster => "Monster is attacking"

/-- Member `attack`: the line printed and the target after the call. -/
def attack (a other : Animal) : String × Animal :=
  (a.attackLine, other.setDaysLived 11)

end Animal

/-- Conversion constructor `BetterFish(const Fish&)`. -/
def BetterFish.ofFish (fish : Animal) : Animal :=
  ⟨.BetterFish, fish.name, (wrapInt (fish.daysLived + 1)).tdiv 2⟩

/-- Conversion constructor `BetterBird(const Bird&)`. -/
def BetterBird.ofBird (bird : Animal) : Animal :=
  ⟨.BetterBird, bird.name, (wrapInt (bird.daysLived + 1)).tdiv 2⟩

/-- Conversion constructor `BetterMouse(const Mouse&)`. -/
def BetterMouse.ofMouse (mouse : Animal) : Animal :=
  ⟨.BetterMouse, mouse.name, (wrapInt (mouse.daysLived + 1)).tdiv 2⟩

/-- Conversion constructor `Monster(const Animal&)`. -/
def Monster.ofAnimal (animal : Animal) : Animal :=
  ⟨.Monster, animal.name, 1⟩

/-! ## Containers -/

/-- The exceptions thrown by the containers. -/
inductive Exn
  | invalid_argument
  | out_of_range
  deriving DecidableEq, Repr

namespace Container

/-- The comparator handed to `sort` in `reorder`. -/
def comp (a b : Animal) : Bool :=
  if a.daysLived ≠ b.daysLived then decide (a.daysLived < b.daysLived)
  else decide (a.name.toList < b.name.toList)

/-- Relation "`b` does not come strictly before `a`" of the comparator. -/
def notAfter (a b : Animal) : Prop := comp b a = false

instance : DecidableRel notAfter := fun a b => by
  unfold notAfter
  exact inferInstance

/-- Member `reorder`. -/
def reorder (animals : List Animal) : List Animal :=
  animals.insertionSort notAfter

/-- Member `add` of `Cage<T>`, `Aquarium<T>` and `Freedom<A>`, which are the
same: `push_back`, then `reorder`. -/
def add (animals : List Animal) (animal : Animal) : List Animal :=
  reorder (animals ++ [animal])

/-- Member `addAnimal` of `Container<T>`. -/
def addAnimal (T : Cls) (animals : List Animal) (animal : Option Animal) :
    Except Exn (List Animal) :=
  match animal with
  | none => .error .invalid_argument
  | some a =>
    if a.kind.castsTo T then .ok (add animals a) else .error .invalid_argument

/-- Member `getAnimal` (and `getAnimalAt`). -/
def getAnimal (animals : List Animal) (pos : Int) : Except Exn Animal :=
  if h : pos < 0 ∨ pos ≥ animals.length then .error .out_of_range
  else .ok (animals.get ⟨pos.toNat, by omega⟩)

/-- Member `removeAt` (and `removeAtIndex`): the animal returned and the
vector left. -/
def removeAt (animals : List Animal) (pos : Int) :
    Except Exn (Animal × List Animal) :=
  if h : pos < 0 ∨ pos ≥ animals.length then .error .out_of_range
  else .ok (animals.get ⟨pos.toNat, by omega⟩, animals.eraseIdx pos.toNat)

/-- Member `clear`. -/
def clear (_animals : List Animal) : List Animal := []

/-- Member `size`. -/
def size (animals : List Animal) : Nat := animals.length

/-- The first loop of `periodUpdate`, entered with index `i` and the lines
`out` printed so far. The source tests `getType() == "MON"` and then
`newDays > 0` in a nested `if` ending in `continue`; the two tests are joined
here. The write `animal->setDaysLived(newDays)` goes to the object stored at
index `i`. -/
def agingLoop (cont : List Animal) (i : Nat) (out : List String) :
    Except Exn (List Animal × List String) :=
  if _h : i < cont.length then
    match getAnimal cont i with
    | .error e => .error e
    | .ok animal =>
      let newDays := wrapInt (animal.daysLived + 1)
      let cont1 := cont.set i (animal.setDaysLived newDays)
      if animal.getType = "MON" ∧ newDays > 0 then
        match _hr : removeAt cont1 i with
        | .error e => .error e
        | .ok (_, cont2) =>
          agingLoop cont2 i (out ++ [animal.name ++ " has died of old days"])
      else if newDays > 10 then
        match _hr : removeAt cont1 i with
        | .error e => .error e
        | .ok (_, cont2) =>
          agingLoop cont2 i (out ++ [animal.name ++ " has died of old days"])
      else
        agingLoop cont1 (i + 1) out
  else .ok (cont, out)
termination_by cont.length - i
decreasing_by
  · have h2 : cont1.length = cont.length := List.length_set _ _ _
    unfold removeAt at _hr
    split at _hr
    · cases _hr
    · injection _hr with h3
      injection h3 with _ h3
      subst h3
      rw [List.length_eraseIdx]
      split <;> omega
  · have h2 : cont1.length = cont.length := List.length_set _ _ _
    unfold removeAt at _hr
    split at _hr
    · cases _hr
    · injection _hr with h3
      injection h3 with _ h3
      subst h3
      rw [List.length_eraseIdx]
      split <;> omega
  · simp only [List.length_set]
    omega

/-- The second loop of `periodUpdate`: every animal is taken out at index 0
and pushed to the back of `temp`. -/
def drainLoop (cont temp : List Animal) : Except Exn (List Animal × List Animal) :=
  if _h : cont.length > 0 then
    match _hr : removeAt cont 0 with
    | .error e => .error e
    | .ok (a, cont1) => drainLoop cont1 (temp ++ [a])
  else .ok (cont, temp)
termination_by cont.length
decreasing_by
  unfold removeAt at _hr
  split at _hr
  · cases _hr
  · injection _hr with h3
    injection h3 with _ h3
    subst h3
    rw [List.length_eraseIdx]
    split <;> omega

/-- The last loop of `periodUpdate`: `cont.addAnimal(a)` for each `a` of
`temp`. -/
def readdLoop (T : Cls) (cont : List Animal) : List Animal → Except Exn (List Animal)
  | [] => .ok cont
  | a :: temp =>
    match addAnimal T cont (some a) with
    | .error e => .error e
    | .ok cont1 => readdLoop T cont1 temp

/-- Function `periodUpdate` on a container of element class `T`: the vector
left and the lines printed. -/
def periodUpdate (T : Cls) (cont : List Animal) :
    Except Exn (List Animal × List String) :=
  match agingLoop cont 0 [] with
  | .error e => .error e
  | .ok (cont1, out) =>
    match drainLoop cont1 [] with
    | .error e => .error e
    | .ok (cont2, temp) =>
      match readdLoop T cont2 temp with
      | .error e => .error e
      | .ok cont3 => .ok (cont3, out)

end Container

/-! ## Global containers -/

/-- The nine global containers. -/
inductive Slot
  | cageBird | cageBetterBird | cageMouse | cageBetterMouse
  | aquariumFish | aquariumBetterFish | aquariumMouse | aquariumBetterMouse
  | freedom
  deriving DecidableEq, Repr, Fintype

/-- The template argument of each global container. -/
def Slot.cls : Slot → Cls
  | .cageBird => .Bird
  | .cageBetterBird => .BetterBird
  | .cageMouse => .Mouse
  | .cageBetterMouse => .BetterMouse
  | .aquariumFish => .Fish
  | .aquariumBetterFish => .BetterFish
  | .aquariumMouse => .Mouse
  | .aquariumBetterMouse => .BetterMouse
  | .freedom => .Animal

/-- The global variables: the map `allAnimals` and the vectors of the nine
containers. -/
structure State where
  allAnimals : List (String × Animal)
  cageBird : List Animal
  cageBetterBird : List Animal
  cageMouse : List Animal
  cageBetterMouse : List Animal
  aquariumFish : List Animal
  aquariumBetterFish : List Animal
  aquariumMouse : List Animal
  aquariumBetterMouse : List Animal
  freedom : List Animal
  deriving DecidableEq, Repr

/-- The globals at program start. -/
def State.init : State := ⟨[], [], [], [], [], [], [], [], [], []⟩

/-- The vector of a container. -/
def State.get (s : State) : Slot → List Animal
  | .cageBird => s.cageBird
  | .cageBetterBird => s.cageBetterBird
  | .cageMouse => s.cageMouse
  | .cageBetterMouse => s.cageBetterMouse
  | .aquariumFish => s.aquariumFish
  | .aquariumBetterFish => s.aquariumBetterFish
  | .aquariumMouse => s.aquariumMouse
  | .aquariumBetterMouse => s.aquariumBetterMouse
  | .freedom => s.freedom

/-- The globals after the vector of container `c` has become `l`. -/
def State.set (s : State) (c : Slot) (l : List Animal) : State :=
  match c with
  | .cageBird => { s with cageBird := l }
  | .cageBetterBird => { s with cageBetterBird := l }
  | .cageMouse => { s with cageMouse := l }
  | .cageBetterMouse => { s with cageBetterMouse := l }
  | .aquariumFish => { s with aquariumFish := l }
  | .aquariumBetterFish => { s with aquariumBetterFish := l }
  | .aquariumMouse => { s with aquariumMouse := l }
  | .aquariumBetterMouse => { s with aquariumBetterMouse := l }
  | .freedom => { s with freedom := l }

/-- What a statement acts on: the globals and the lines written to `cout`. -/
structure World where
  state : State
  cout : List String
  deriving DecidableEq, Repr

/-- How a statement ends: normally with a value, or by an exception in
flight; either way the globals and the output are those reached so far. -/
inductive Res (α : Type)
  | ok (a : α) (w : World)
  | throw (e : Exn) (w : World)

/-- Statements. -/
def M (α : Type) : Type := World → Res α

/-- Sequencing: an exception in flight skips the rest. -/
def M.bind {α β : Type} (m : M α) (f : α → M β) : M β := fun w =>
  match m w with
  | .ok a w1 => f a w1
  | .throw e w1 => .throw e w1

/-- A statement that only yields a value. -/
def M.pure {α : Type} (a : α) : M α := fun w => .ok a w

instance : Monad M where
  pure := M.pure
  bind := M.bind

/-- Handler `try { body } catch(const out_of_range &e) { handler }`. -/
def tryCatchOutOfRange (body handler : M Unit) : M Unit := fun w =>
  match body w with
  | .ok a w1 => .ok a w1
  | .throw .out_of_range w1 => handler w1
  | .throw .invalid_argument w1 => .throw .invalid_argument w1

/-- Statement `cout << line << endl`. -/
def print (line : String) : M Unit := fun w =>
  .ok () { w with cout := w.cout ++ [line] }

/-- Call `c.getAnimalAt(pos)`. -/
def getAnimalAt (c : Slot) (pos : Int) : M Animal := fun w =>
  match Container.getAnimal (w.state.get c) pos with
  | .ok a => .ok a w
  | .error e => .throw e w

/-- Call `c.removeAtIndex(pos)`. -/
def removeAtIndex (c : Slot) (pos : Int) : M Animal := fun w =>
  match Container.removeAt (w.state.get c) pos with
  | .ok (a, l) => .ok a { w with state := w.state.set c l }
  | .error e => .throw e w

/-- Call `c.addAnimal(animal)`. -/
def addAnimal (c : Slot) (animal : Option Animal) : M Unit := fun w =>
  match Container.addAnimal c.cls (w.state.get c) animal with
  | .ok l => .ok () { w with state := w.state.set c l }
  | .error e => .throw e w

/-- Call `c.size()`. -/
def size (c : Slot) : M Nat := fun w =>
  .ok (Container.size (w.state.get c)) w

/-- A write through a pointer obtained from `c.getAnimalAt(pos)`: the object
stored at `pos` in `c` becomes `a`. -/
def store (c : Slot) (pos : Int) (a : Animal) : M Unit := fun w =>
  .ok () { w with state := w.state.set c ((w.state.get c).set pos.toNat a) }

/-- Loop `while(c.size() > 0){ auto a = c.removeAtIndex(0); }`. -/
def drain (c : Slot) : M Unit := fun w =>
  if _h : Container.size (w.state.get c) > 0 then
    match _hr : removeAtIndex c 0 w with
    | .ok _ w1 => drain c w1
    | .throw e w1 => .throw e w1
  else .ok () w
termination_by w => (w.state.get c).length
decreasing_by
  have h1 : ∀ (s : State) (l : List Animal), (s.set c l).get c = l := by
    intro s l
    cases c <;> rfl
  unfold removeAtIndex Container.removeAt at _hr
  split at _hr
  · rename_i h2
    split at h2
    · cases h2
    · injection h2 with h2
      injection h2 with _ h2
      injection _hr with _ h3
      subst h3
      subst h2
      simp only [h1]
      rw [List.length_eraseIdx]
      unfold Container.size at _h
      split <;> omega
  · cases _hr

/-- Call `periodUpdate(c)`. An exception leaving `periodUpdate` is caught
nowhere, so the globals at the throw are not observed. -/
def periodUpdate (c : Slot) : M Unit := fun w =>
  match Container.periodUpdate c.cls (w.state.get c) with
  | .ok (l, out) => .ok () { state := w.state.set c l, cout := w.cout ++ out }
  | .error e => .throw e w

/-! ## The command loop -/

/-- A command line, as the values that the extractions `iss >> ...` of its
branch deliver. `other` is a line whose first token is none of the six
commands. Where the container is `Freedom` the source does not extract a type
code, and `typeCode` is not looked at. -/
inductive Command
  | CREATE (typeCode name inToken containerType : String) (days : Int)
  | APPLY_SUBSTANCE (containerType typeCode : String) (pos : Int)
  | REMOVE_SUBSTANCE (containerType typeCode : String) (pos : Int)
  | ATTACK (containerType typeCode : String) (pos1 pos2 : Int)
  | TALK (containerType typeCode : String) (pos : Int)
  | PERIOD
  | other (cmd : String)
  deriving DecidableEq, Repr

/-- The object made in the `CREATE` branch, null for an unknown type code. -/
def createAnimal (typeCode name : String) (days : Int) : Option Animal :=
  if typeCode = "M" then some ⟨.Mouse, name, days⟩
  else if typeCode = "F" then some ⟨.Fish, name, days⟩
  else if typeCode = "B" then some ⟨.Bird, name, days⟩
  else if typeCode = "BM" then some ⟨.BetterMouse, name, days⟩
  else if typeCode = "BF" then some ⟨.BetterFish, name, days⟩
  else if typeCode = "BB" then some ⟨.BetterBird, name, days⟩
  else none

/-- The routing part of the `CREATE` branch: the calls of `addAnimal`, and
the value left in `flag`. -/
def createRoute (typeCode containerType : String) (animal : Option Animal) : M Bool :=
  if containerType = "Cage" then
    if typeCode = "M" then do
      addAnimal .cageMouse animal
      pure true
    else if typeCode = "BM" then do
      addAnimal .cageBetterMouse animal
      pure true
    else if typeCode = "B" then do
      addAnimal .cageBird animal
      pure true
    else if typeCode = "BB" then do
      addAnimal .cageBetterBird animal
      pure true
    else pure false
  else if containerType = "Aquarium" then
    if typeCode = "F" then do
      addAnimal .aquariumFish animal
      pure true
    else if typeCode = "BF" then do
      addAnimal .aquariumBetterFish animal
      pure true
    else if typeCode = "M" then do
      addAnimal .aquariumMouse animal
      pure true
    else if typeCode = "BM" then do
      addAnimal .aquariumBetterMouse animal
      pure true
    else pure false
  else if containerType = "Freedom" then do
    addAnimal .freedom animal
    pure true
  else pure false

/-- The last statement of the `CREATE` branch, `if(flag) animal->talk()`. It
is reached with a null pointer in no case, since `addAnimal` has thrown for
it. -/
def createTalk (flag : Bool) (animal : Option Animal) : M Unit :=
  if flag then
    match animal with
    | some a => print a.talk
    | none => pure ()
  else pure ()

/-- The `CREATE` branch. -/
def create (typeCode name containerType : String) (days : Int) : M Unit :=
  createRoute typeCode containerType (createAnimal typeCode name days) >>=
    fun flag => createTalk flag (createAnimal typeCode name days)

/-- The block of `APPLY_SUBSTANCE` for a base type code: `src` is the
container named by the command, `dst` the container of the better class,
`baseCode` and `betterCode` the two type codes tested and `better` the
conversion constructor used. -/
def applyBase (src dst : Slot) (baseCode betterCode : String)
    (better : Animal → Animal) (pos : Int) : M Unit := do
  let animal ← getAnimalAt src pos
  let curType := animal.getType
  if curType = baseCode then do
    let b := better animal
    let _ ← removeAtIndex src pos
    addAnimal dst (some b)
  else if curType = betterCode then do
    let monster := Monster.ofAnimal animal
    let _ ← removeAtIndex dst pos
    drain dst
    addAnimal .freedom (some monster)
  else pure ()

/-- The block of `APPLY_SUBSTANCE` for a better type code. -/
def applyBetter (c : Slot) (betterCode : String) (pos : Int) : M Unit := do
  let animal ← getAnimalAt c pos
  let curType := animal.getType
  if curType = betterCode then do
    let monster := Monster.ofAnimal animal
    let _ ← removeAtIndex c pos
    drain c
    addAnimal .freedom (some monster)
  else pure ()

/-- The `APPLY_SUBSTANCE` branch. -/
def applySubstance (containerType typeCode : String) (pos : Int) : M Unit :=
  if containerType = "Freedom" then
    print "Substance cannot be applied in freedom"
  else
    tryCatchOutOfRange
      (if containerType = "Cage" then
        if typeCode = "M" then
          applyBase .cageMouse .cageBetterMouse "M" "BM" BetterMouse.ofMouse pos
        else if typeCode = "B" then
          applyBase .cageBird .cageBetterBird "B" "BB" BetterBird.ofBird pos
        else if typeCode = "BM" then
          applyBetter .cageBetterMouse "BM" pos
        else if typeCode = "BB" then
          applyBetter .cageBetterBird "BB" pos
        else pure ()
      else if containerType = "Aquarium" then
        if typeCode = "F" then
          applyBase .aquariumFish .aquariumBetterFish "F" "BF" BetterFish.ofFish pos
        else if typeCode = "M" then
          applyBase .aquariumMouse .aquariumBetterMouse "M" "BM" BetterMouse.ofMouse pos
        else if typeCode = "BF" then
          applyBetter .aquariumBetterFish "BF" pos
        else if typeCode = "BM" then
          applyBetter .aquariumBetterMouse "BM" pos
        else pure ()
      else pure ())
      (print "Animal not found")

/-- The block of `REMOVE_SUBSTANCE` for a better type code: `normal` is an
object of class `k` made by `make_shared<K>(name, newDays)`. -/
def removeBetter (src dst : Slot) (k : Kind) (pos : Int) : M Unit := do
  let animal ← getAnimalAt src pos
  let newDays := wrapInt (animal.daysLived * 2)
  let normal : Animal := ⟨k, animal.name, newDays⟩
  let _ ← removeAtIndex src pos
  addAnimal dst (some normal)

/-- The `REMOVE_SUBSTANCE` branch. -/
def removeSubstance (containerType typeCode : String) (pos : Int) : M Unit :=
  if containerType = "Freedom" then
    print "Substance cannot be removed in freedom"
  else
    tryCatchOutOfRange
      (if containerType = "Cage" then
        if typeCode = "BM" then
          removeBetter .cageBetterMouse .cageMouse .Mouse pos
        else if typeCode = "BB" then
          removeBetter .cageBetterBird .cageBird .Bird pos
        else print "Invalid substance removal"
      else if containerType = "Aquarium" then
        if typeCode = "BF" then
          removeBetter .aquariumBetterFish .aquariumFish .Fish pos
        else if typeCode = "BM" then
          removeBetter .aquariumBetterMouse .aquariumMouse .Mouse pos
        else print "Invalid substance removal"
      else pure ())
      (print "Animal not found")

/-- The block of `ATTACK` for container `c`. The call
`attacker->attack(*defender)` prints its line and writes 11 to the days of the
object stored at `pos2`. -/
def attackIn (c : Slot) (pos1 pos2 : Int) : M Unit := do
  let attacker ← getAnimalAt c pos1
  let defender ← getAnimalAt c pos2
  let r := attacker.attack defender
  print r.1
  let defender := r.2
  store c pos2 defender
  if defender.daysLived = 11 then do
    let _ ← removeAtIndex c pos2
    pure ()
  else pure ()

/-- The `ATTACK` branch. -/
def attack (containerType typeCode : String) (pos1 pos2 : Int) : M Unit :=
  if containerType = "Freedom" then
    print "Animals cannot attack in Freedom"
  else if pos1 = pos2 then pure ()
  else
    tryCatchOutOfRange
      (if containerType = "Cage" then
        if typeCode = "M" then attackIn .cageMouse pos1 pos2
        else if typeCode = "B" then attackIn .cageBird pos1 pos2
        else if typeCode = "BM" then attackIn .cageBetterMouse pos1 pos2
        else if typeCode = "BB" then attackIn .cageBetterBird pos1 pos2
        else pure ()
      else if containerType = "Aquarium" then
        if typeCode = "F" then attackIn .aquariumFish pos1 pos2
        else if typeCode = "BF" then attackIn .aquariumBetterFish pos1 pos2
        else if typeCode = "M" then attackIn .aquariumMouse pos1 pos2
        else if typeCode = "BM" then attackIn .aquariumBetterMouse pos1 pos2
        else pure ()
      else pure ())
      (print "Animal not found")

/-- The block of `TALK` for container `c`. -/
def talkIn (c : Slot) (pos : Int) : M Unit := do
  let animal ← getAnimalAt c pos
  print animal.talk

/-- The `TALK` branch. -/
def talk (containerType typeCode : String) (pos : Int) : M Unit :=
  if containerType = "Freedom" then
    tryCatchOutOfRange (talkIn .freedom pos) (print "Animal not found")
  else
    tryCatchOutOfRange
      (if containerType = "Cage" then
        if typeCode = "M" then talkIn .cageMouse pos
        else if typeCode = "BM" then talkIn .cageBetterMouse pos
        else if typeCode = "B" then talkIn .cageBird pos
        else if typeCode = "BB" then talkIn .cageBetterBird pos
        else pure ()
      else if containerType = "Aquarium" then
        if typeCode = "F" then talkIn .aquariumFish pos
        else if typeCode = "BF" then talkIn .aquariumBetterFish pos
        else if typeCode = "M" then talkIn .aquariumMouse pos
        else if typeCode = "BM" then talkIn .aquariumBetterMouse pos
        else pure ()
      else pure ())
      (print "Animal not found")

/-- The `PERIOD` branch. -/
def period : M Unit := do
  periodUpdate .cageBird
  periodUpdate .cageBetterBird
  periodUpdate .cageMouse
  periodUpdate .cageBetterMouse
  periodUpdate .aquariumFish
  periodUpdate .aquariumBetterFish
  periodUpdate .aquariumMouse
  periodUpdate .aquariumBetterMouse
  periodUpdate .freedom

/-- The body of the command loop of `main` for one line. -/
def exec : Command → M Unit
  | .CREATE typeCode name _inToken containerType days =>
    create typeCode name containerType days
  | .APPLY_SUBSTANCE containerType typeCode pos =>
    applySubstance containerType typeCode pos
  | .REMOVE_SUBSTANCE containerType typeCode pos =>
    removeSubstance containerType typeCode pos
  | .ATTACK containerType typeCode pos1 pos2 =>
    attack containerType typeCode pos1 pos2
  | .TALK containerType typeCode pos => talk containerType typeCode pos
  | .PERIOD => period
  | .other _ => pure ()

/-- One command on the globals `s`: the globals after it and the lines it
printed, or the exception that leaves `main` and ends the program. -/
def step (s : State) (cmd : Command) : Except Exn (State × List String) :=
  match exec cmd ⟨s, []⟩ with
  | .ok _ w => .ok (w.state, w.cout)
  | .throw e _ => .error e

/-- The command loop on a list of lines: the globals at the end and
everything printed. -/
def run (s : State) : List Command → Except Exn (State × List String)
  | [] => .ok (s, [])
  | cmd :: rest =>
    match step s cmd with
    | .error e => .error e
    | .ok (s1, out1) =>
      match run s1 rest with
      | .error e => .error e
      | .ok (s2, out2) => .ok (s2, out1 ++ out2)

/-- The globals that the command loop can reach from program start. -/
inductive Reachable : State → Prop
  | init : Reachable State.init
  | step {s s1 : State} {out : List String} (cmd : Command) :
      Reachable s → step s cmd = .ok (s1, out) → Reachable s1

/-! ## The canonical ordering -/

/-- The canonical ordering of the specification: age ascending, then name
lexicographically ascending. -/
def canonLE (a b : Animal) : Prop :=
  a.daysLived < b.daysLived ∨
    (a.daysLived = b.daysLived ∧ a.name.toList ≤ b.name.toList)

instance : DecidableRel canonLE := fun a b => by
  unfold canonLE
  exact inferInstance

/-- A sequence is non-decreasing under the canonical ordering. -/
def IsSorted (l : List Animal) : Prop := List.Pairwise canonLE l

instance : DecidablePred IsSorted := fun l => by
  unfold IsSorted
  exact inferInstance

/-! ## Closed forms used in the statements -/

/-- The object after `setDaysLived(getDaysLived() + 1)`. -/
def Animal.aged (a : Animal) : Animal :=
  a.setDaysLived (wrapInt (a.daysLived + 1))

/-- Whether one pass of the first loop of `periodUpdate` removes the object:
the test of the Monster branch or the test `newDays > 10`. -/
def Animal.expires (a : Animal) : Bool :=
  decide ((a.getType = "MON" ∧ wrapInt (a.daysLived + 1) > 0) ∨
    wrapInt (a.daysLived + 1) > 10)

/-- The death notice of `periodUpdate`. -/
def deathLine (a : Animal) : String := a.name ++ " has died of old days"

/-- Every object of the vector casts to the element class `T`, as the type
`vector<shared_ptr<T>>` has it. -/
def WellTyped (T : Cls) (l : List Animal) : Prop :=
  ∀ a ∈ l, a.kind.castsTo T = true

instance (T : Cls) : DecidablePred (WellTyped T) := fun l => by
  unfold WellTyped
  exact inferInstance

/-- The classes of the objects that the command loop puts into each
container: the template argument itself for the eight typed containers, any
class for `freedom`. -/
def Slot.holds : Slot → Kind → Bool
  | .cageBird, .Bird => true
  | .cageBetterBird, .BetterBird => true
  | .cageMouse, .Mouse => true
  | .cageBetterMouse, .BetterMouse => true
  | .aquariumFish, .Fish => true
  | .aquariumBetterFish, .BetterFish => true
  | .aquariumMouse, .Mouse => true
  | .aquariumBetterMouse, .BetterMouse => true
  | .freedom, _ => true
  | _, _ => false

/-- The condition on one object of container `c` that the command loop
maintains: it has a class that `c` holds, and a Monster has lived one day. -/
def ElemOK (c : Slot) (a : Animal) : Prop :=
  c.holds a.kind = true ∧ (a.kind = .Monster → a.daysLived = 1)

/-- The condition on the globals that the command loop maintains: every
container is sorted and all its objects satisfy `ElemOK`. -/
def Inv (s : State) : Prop :=
  ∀ c : Slot, IsSorted (s.get c) ∧ ∀ a ∈ s.get c, ElemOK c a

/-- The globals and output with which a statement ends. -/
def Res.world {α : Type} : Res α → World
  | .ok _ w => w
  | .throw _ w => w

/-- A statement maintains `Inv`, however it ends. -/
def Keeps {α : Type} (m : M α) : Prop :=
  ∀ w : World, Inv w.state → Inv (m w).world.state

/-- Closed form of `periodUpdate` on one container: the objects that the
first loop keeps, each one day older, added one by one to the emptied
container, and the death notices in the order of the container. -/
def periodClosed (l : List Animal) : List Animal × List String :=
  (((l.filter (fun a => !a.expires)).map Animal.aged).foldl Container.add [],
    (l.filter Animal.expires).map deathLine)

/-- Closed form of the globals after the `PERIOD` branch. -/
def periodState (s : State) : State :=
  { allAnimals := s.allAnimals
    cageBird := (periodClosed s.cageBird).1
    cageBetterBird := (periodClosed s.cageBetterBird).1
    cageMouse := (periodClosed s.cageMouse).1
    cageBetterMouse := (periodClosed s.cageBetterMouse).1
    aquariumFish := (periodClosed s.aquariumFish).1
    aquariumBetterFish := (periodClosed s.aquariumBetterFish).1
    aquariumMouse := (periodClosed s.aquariumMouse).1
    aquariumBetterMouse := (periodClosed s.aquariumBetterMouse).1
    freedom := (periodClosed s.freedom).1 }

/-- Closed form of the lines printed by the `PERIOD` branch, in the order in
which `periodUpdate` is called on the nine containers. -/
def periodOut (s : State) : List String :=
  (periodClosed s.cageBird).2 ++ (periodClosed s.cageBetterBird).2 ++
    (periodClosed s.cageMouse).2 ++ (periodClosed s.cageBetterMouse).2 ++
    (periodClosed s.aquariumFish).2 ++ (periodClosed s.aquariumBetterFish).2 ++
    (periodClosed s.aquariumMouse).2 ++ (periodClosed s.aquariumBetterMouse).2 ++
    (periodClosed s.freedom).2

/-- The base variants that `APPLY_SUBSTANCE` addresses: container kind, type
code, the base container, the upgraded container of the same family and
policy, and the upgraded class. -/
def baseVariants : List (String × String × Slot × Slot × Kind) :=
  [("Cage", "M", .cageMouse, .cageBetterMouse, .BetterMouse),
   ("Cage", "B", .cageBird, .cageBetterBird, .BetterBird),
   ("Aquarium", "F", .aquariumFish, .aquariumBetterFish, .BetterFish),
   ("Aquarium", "M", .aquariumMouse, .aquariumBetterMouse, .BetterMouse)]

/-- The upgraded variants that `APPLY_SUBSTANCE` and `REMOVE_SUBSTANCE`
address: container kind, type code, the upgraded container, the base container
of the same policy, and the base class. -/
def betterVariants : List (String × String × Slot × Slot × Kind) :=
  [("Cage", "BM", .cageBetterMouse, .cageMouse, .Mouse),
   ("Cage", "BB", .cageBetterBird, .cageBird, .Bird),
   ("Aquarium", "BF", .aquariumBetterFish, .aquariumFish, .Fish),
   ("Aquarium", "BM", .aquariumBetterMouse, .aquariumMouse, .Mouse)]

/-- The Cage and Aquarium containers with the container kind and the type
code that address them. -/
def typedContainers : List (String × String × Slot) :=
  [("Cage", "M", .cageMouse), ("Cage", "B", .cageBird),
   ("Cage", "BM", .cageBetterMouse), ("Cage", "BB", .cageBetterBird),
   ("Aquarium", "F", .aquariumFish), ("Aquarium", "BF", .aquariumBetterFish),
   ("Aquarium", "M", .aquariumMouse), ("Aquarium", "BM", .aquariumBetterMouse)]

/-- The death notices of one container in a `PERIOD`, in the order of the
container: one line `<name> has died of old days` for every entity that is a
Monster or whose incremented age exceeds 10. -/
def deathNotices (l : List Animal) : List String :=
  (l.filter (fun a => a.kind = .Monster ∨ wrapInt (a.daysLived + 1) > 10)).map
    (fun a => a.name ++ " has died of old days")

/-- The four Cage containers. -/
def cageSlots : List Slot :=
  [.cageBird, .cageBetterBird, .cageMouse, .cageBetterMouse]

/-- The four Aquarium containers. -/
def aquariumSlots : List Slot :=
  [.aquariumFish, .aquariumBetterFish, .aquariumMouse, .aquariumBetterMouse]

/-- The valid pairs of `CREATE`: container kind, type code, the container
selected by them and the class of the object made. -/
def createVariants : List (String × String × Slot × Kind) :=
  [("Cage", "M", .cageMouse, .Mouse), ("Cage", "BM", .cageBetterMouse, .BetterMouse),
   ("Cage", "B", .cageBird, .Bird), ("Cage", "BB", .cageBetterBird, .BetterBird),
   ("Aquarium", "F", .aquariumFish, .Fish),
   ("Aquarium", "BF", .aquariumBetterFish, .BetterFish),
   ("Aquarium", "M", .aquariumMouse, .Mouse),
   ("Aquarium", "BM", .aquariumBetterMouse, .BetterMouse),
   ("Freedom", "F", .freedom, .Fish), ("Freedom", "BF", .freedom, .BetterFish),
   ("Freedom", "B", .freedom, .Bird), ("Freedom", "BB", .freedom, .BetterBird),
   ("Freedom", "M", .freedom, .Mouse), ("Freedom", "BM", .freedom, .BetterMouse)]

/-- The invalid pairs of `CREATE` with a recognized type code: container kind
and type code. -/
def invalidCreates : List (String × String) :=
  [("Cage", "F"), ("Cage", "BF"), ("Aquarium", "B"), ("Aquarium", "BB")]

/-- A statement ends normally on all globals that satisfy `Inv`. -/
def Completes (m : M Unit) : Prop :=
  ∀ w : World, Inv w.state → ∃ w1, m w = .ok () w1

/-- A statement ends normally or by `out_of_range` on all globals that
satisfy `Inv`. -/
def Recoverable (m : M Unit) : Prop :=
  ∀ w : World, Inv w.state →
    (∃ w1, m w = .ok () w1) ∨ (∃ w1, m w = .throw .out_of_range w1)

/-- The type codes that the `CREATE` branch recognizes. -/
def typeCodes : List String := ["M", "F", "B", "BM", "BF", "BB"]

/-- The six first tokens that the command loop recognizes. -/
def commandNames : List String :=
  ["CREATE", "APPLY_SUBSTANCE", "REMOVE_SUBSTANCE", "ATTACK", "TALK", "PERIOD"]

/-- The first token of a command line. -/
def Command.firstToken : Command → String
  | .CREATE _ _ _ _ _ => "CREATE"
  | .APPLY_SUBSTANCE _ _ _ => "APPLY_SUBSTANCE"
  | .REMOVE_SUBSTANCE _ _ _ => "REMOVE_SUBSTANCE"
  | .ATTACK _ _ _ _ => "ATTACK"
  | .TALK _ _ _ => "TALK"
  | .PERIOD => "PERIOD"
  | .other cmd => cmd

/-- The Cage and Aquarium containers with the container kind and the type
code that address them and the class name of their variant. -/
def variantNames : List (String × String × Slot × String) :=
  [("Cage", "M", .cageMouse, "Mouse"), ("Cage", "B", .cageBird, "Bird"),
   ("Cage", "BM", .cageBetterMouse, "BetterMouse"),
   ("Cage", "BB", .cageBetterBird, "BetterBird"),
   ("Aquarium", "F", .aquariumFish, "Fish"),
   ("Aquarium", "BF", .aquariumBetterFish, "BetterFish"),
   ("Aquarium", "M", .aquariumMouse, "Mouse"),
   ("Aquarium", "BM", .aquariumBetterMouse, "BetterMouse")]

/-- The block of `APPLY_SUBSTANCE` for a base type code with its fuse branch
(the `else if` on the better type code) taken out. -/
def upgradeOnly (src dst : Slot) (baseCode : String) (better : Animal → Animal)
    (pos : Int) : M Unit := do
  let animal ← getAnimalAt src pos
  let curType := animal.getType
  if curType = baseCode then do
    let b := better animal
    let _ ← removeAtIndex src pos
    addAnimal dst (some b)
  else pure ()

/-- A statement leaves the map `allAnimals` as it is, however it ends. -/
def Frames {α : Type} (m : M α) : Prop :=
  ∀ w : World, (m w).world.state.allAnimals = w.state.allAnimals

/-- The four places of `APPLY_SUBSTANCE` that carry a fuse branch under a base
type code: the container read, the upgraded container, the base type code and
the better type code that the `else if` compares with. -/
def fuseSites : List (Slot × Slot × String × String) :=
  [(.cageMouse, .cageBetterMouse, "M", "BM"), (.cageBird, .cageBetterBird, "B", "BB"),
   (.aquariumFish, .aquariumBetterFish, "F", "BF"),
   (.aquariumMouse, .aquariumBetterMouse, "M", "BM")]

/-- One pass through the body of the first loop of `periodUpdate`, entered
with `i < cont.size()`: the container, the index and the lines printed after
the pass. -/
def Container.agingStep (cont : List Animal) (i : Nat) (out : List String) :
    Except Exn (List Animal × Nat × List String) :=
  match Container.getAnimal cont i with
  | .error e => .error e
  | .ok animal =>
    let newDays := wrapInt (animal.daysLived + 1)
    let cont1 := cont.set i (animal.setDaysLived newDays)
    if animal.getType = "MON" ∧ newDays > 0 then
      match Container.removeAt cont1 i with
      | .error e => .error e
      | .ok (_, cont2) => .ok (cont2, i, out ++ [animal.name ++ " has died of old days"])
    else if newDays > 10 then
      match Container.removeAt cont1 i with
      | .error e => .error e
      | .ok (_, cont2) => .ok (cont2, i, out ++ [animal.name ++ " has died of old days"])
    else
      .ok (cont1, i + 1, out)

/-- The first `k` passes through the body of the first loop of
`periodUpdate`, from the container `cont`, the index `i` and the lines
`out`. -/
def Container.agingIter : Nat → List Animal → Nat → List String →
    Except Exn (List Animal × Nat × List String)
  | 0, cont, i, out => .ok (cont, i, out)
  | k + 1, cont, i, out =>
    match Container.agingStep cont i out with
    | .error e => .error e
    | .ok (cont1, i1, out1) => Container.agingIter k cont1 i1 out1

/-- The first loop of `periodUpdate` written over `agingStep`: while
`i < cont.size()`, one pass through the body. -/
def Container.agingWhile (cont : List Animal) (i : Nat) (out : List String) :
    Except Exn (List Animal × List String) :=
  if i < cont.length then
    match Container.agingStep cont i out with
    | .error e => .error e
    | .ok (cont1, i1, out1) => Container.agingLoop cont1 i1 out1
  else .ok (cont, out)

/-- The pair that the comparator of `reorder` looks at: age and name. -/
def Animal.sortKey (a : Animal) : Int × String := (a.daysLived, a.name)

/-- Whether the container holds an upgraded class (`BetterBird`,
`BetterMouse` or `BetterFish`). -/
def Slot.upgraded : Slot → Bool
  | .cageBetterBird => true
  | .cageBetterMouse => true
  | .aquariumBetterFish => true
  | .aquariumBetterMouse => true
  | _ => false

/-- The condition on the age of one object of container `c` that the command
loop maintains when no `CREATE` brings an age outside it: the age is
non-negative and below `INT_MAX`, and in an upgraded container twice the age
is below `INT_MAX` too. -/
def AgeOK (c : Slot) (a : Animal) : Prop :=
  0 ≤ a.daysLived ∧ a.daysLived < INT_MAX ∧ (c.upgraded = true → a.daysLived ≤ 1073741823)

/-- Every object of every container satisfies `AgeOK`. -/
def AgeInv (s : State) : Prop := ∀ c : Slot, ∀ a ∈ s.get c, AgeOK c a

/-- The condition on the days of a `CREATE` line: non-negative and below
`INT_MAX`, and at most 1073741823 for an upgraded type code created in a Cage
or an Aquarium. Every other command satisfies it. -/
def Command.daysOK : Command → Prop
  | .CREATE typeCode _ _ containerType days =>
    0 ≤ days ∧ days < INT_MAX ∧
      (containerType ≠ "Freedom" → typeCode ∈ ["BM", "BF", "BB"] → days ≤ 1073741823)
  | _ => True

/-- The globals that the command loop can reach from program start by
commands that satisfy `P`. -/
inductive ReachableWith (P : Command → Prop) : State → Prop
  | init : ReachableWith P State.init
  | step {s s1 : State} {out : List String} (cmd : Command) :
      ReachableWith P s → P cmd → step s cmd = .ok (s1, out) → ReachableWith P s1

/-- A statement maintains `AgeInv`, however it ends, and a value it returns
satisfies `Q`. -/
def Tri {α : Type} (m : M α) (Q : α → Prop) : Prop :=
  ∀ w : World, AgeInv w.state →
    AgeInv (m w).world.state ∧ ∀ a w1, m w = .ok a w1 → Q a

/-! ## The sort of the C++ library

`Container::reorder` calls `std::sort`, for which ISO C++ promises a sorted
permutation and leaves the order of elements that the comparator does not
separate open. For the claim on the rebuild of `periodUpdate`, which is about
that order, the sort is a parameter `sort` under `SortContract`, and `StdSort`
embeds the `std::sort` of libstdc++ (GCC 12, `bits/stl_algo.h` and
`bits/stl_heap.h`), against which the program is built. A range `[first, last)`
is a pair of positions in the vector; a loop of the library that has no bound
of its own is run on a numeral that exceeds its passes. -/

namespace StdSort

/-- The comparator applied to the elements at two positions of the vector. -/
def comp_at {α : Type} (comp : α → α → Bool) (v : List α) (i j : Nat) : Bool :=
  match v[i]?, v[j]? with
  | some a, some b => comp a b
  | _, _ => false

/-- Function `std::iter_swap` on two positions of the vector. -/
def iter_swap {α : Type} (v : List α) (i j : Nat) : List α :=
  match v[i]?, v[j]? with
  | some a, some b => (v.set i b).set j a
  | _, _ => v

/-- Function `std::__move_median_to_first`. -/
def move_median_to_first {α : Type} (comp : α → α → Bool) (v : List α)
    (result a b c : Nat) : List α :=
  if comp_at comp v a b then
    if comp_at comp v b c then iter_swap v result b
    else if comp_at comp v a c then iter_swap v result c
    else iter_swap v result a
  else if comp_at comp v a c then iter_swap v result a
  else if comp_at comp v b c then iter_swap v result c
  else iter_swap v result b

/-- The loop of `std::__unguarded_linear_insert`, entered with `__last` as
the numeral and `__next` one below it. -/
def unguarded_linear_insert_loop {α : Type} (comp : α → α → Bool) (val : α) :
    Nat → List α → List α
  | 0, v => v.set 0 val
  | next + 1, v =>
    match v[next]? with
    | some x =>
      if comp val x then unguarded_linear_insert_loop comp val next (v.set (next + 1) x)
      else v.set (next + 1) val
    | none => v.set (next + 1) val

/-- Function `std::__unguarded_linear_insert`. -/
def unguarded_linear_insert {α : Type} (comp : α → α → Bool) (v : List α) (last : Nat) :
    List α :=
  match v[last]? with
  | some val => unguarded_linear_insert_loop comp val last v
  | none => v

/-- The body of the loop of `std::__insertion_sort` for the position `i`:
where the element goes before `*__first`, `move_backward` shifts the range
`[first, i)` up by one and the element is written at `first`. -/
def insertion_sort_step {α : Type} (comp : α → α → Bool) (first : Nat) (v : List α)
    (i : Nat) : List α :=
  if comp_at comp v i first then
    match v[i]? with
    | some val => (v.take first) ++ val :: ((v.eraseIdx i).drop first)
    | none => v
  else unguarded_linear_insert comp v i

/-- Function `std::__insertion_sort` on the range `[first, last)`. -/
def insertion_sort {α : Type} (comp : α → α → Bool) (v : List α) (first last : Nat) :
    List α :=
  if first = last then v
  else (List.range' (first + 1) (last - (first + 1))).foldl (insertion_sort_step comp first) v

/-- Function `std::__unguarded_insertion_sort` on the range `[first, last)`. -/
def unguarded_insertion_sort {α : Type} (comp : α → α → Bool) (v : List α)
    (first last : Nat) : List α :=
  (List.range' first (last - first)).foldl (unguarded_linear_insert comp) v

/-- Constant `_S_threshold`. -/
def S_threshold : Nat := 16

/-- Function `std::__final_insertion_sort`. -/
def final_insertion_sort {α : Type} (comp : α → α → Bool) (v : List α) (first last : Nat) :
    List α :=
  if last - first > S_threshold then
    unguarded_insertion_sort comp (insertion_sort comp v first (first + S_threshold))
      (first + S_threshold) last
  else insertion_sort comp v first last

/-- Loop `while (__comp(__first, __pivot)) ++__first` of
`std::__unguarded_partition`, run for at most `fuel` passes. -/
def scan_up {α : Type} (comp : α → α → Bool) (v : List α) (pivot : Nat) : Nat → Nat → Nat
  | 0, first => first
  | fuel + 1, first =>
    if comp_at comp v first pivot then scan_up comp v pivot fuel (first + 1) else first

/-- Loop `while (__comp(__pivot, __last)) --__last` of
`std::__unguarded_partition`. -/
def scan_down {α : Type} (comp : α → α → Bool) (v : List α) (pivot : Nat) : Nat → Nat
  | 0 => 0
  | last + 1 =>
    if comp_at comp v pivot (last + 1) then scan_down comp v pivot last else last + 1

/-- Function `std::__unguarded_partition`: the vector and the position
returned. The outer loop is run for at most `fuel` passes; each pass moves
`__first` up, so the length of the vector is enough. -/
def unguarded_partition {α : Type} (comp : α → α → Bool) (pivot : Nat) :
    Nat → List α → Nat → Nat → List α × Nat
  | 0, v, first, _ => (v, first)
  | fuel + 1, v, first, last =>
    let first1 := scan_up comp v pivot v.length first
    let last1 := scan_down comp v pivot (last - 1)
    if ¬ first1 < last1 then (v, first1)
    else unguarded_partition comp pivot fuel (iter_swap v first1 last1) (first1 + 1) last1

/-- Function `std::__unguarded_partition_pivot`. -/
def unguarded_partition_pivot {α : Type} (comp : α → α → Bool) (v : List α)
    (first last : Nat) : List α × Nat :=
  let mid := first + (last - first) / 2
  unguarded_partition comp first v.length
    (move_median_to_first comp v first (first + 1) mid (last - 1)) (first + 1) last

/-- Function `std::__push_heap` on the heap that starts at `first`, run for
at most `fuel` passes of its loop; `__holeIndex` drops in each pass. -/
def push_heap {α : Type} (comp : α → α → Bool) (value : α) (first topIndex : Nat) :
    Nat → List α → Nat → List α
  | 0, v, holeIndex => v.set (first + holeIndex) value
  | fuel + 1, v, holeIndex =>
    let parent := (holeIndex - 1) / 2
    match v[first + parent]? with
    | some p =>
      if holeIndex > topIndex ∧ comp p value = true then
        push_heap comp value first topIndex fuel (v.set (first + holeIndex) p) parent
      else v.set (first + holeIndex) value
    | none => v.set (first + holeIndex) value

/-- The first loop of `std::__adjust_heap`: the vector, `__holeIndex` and
`__secondChild` after it. -/
def adjust_heap_loop {α : Type} (comp : α → α → Bool) (first len : Nat) :
    Nat → List α → Nat → Nat → List α × Nat × Nat
  | 0, v, holeIndex, secondChild => (v, holeIndex, secondChild)
  | fuel + 1, v, holeIndex, secondChild =>
    if secondChild < (len - 1) / 2 then
      let sc := 2 * (secondChild + 1)
      let sc1 := if comp_at comp v (first + sc) (first + (sc - 1)) then sc - 1 else sc
      match v[first + sc1]? with
      | some x => adjust_heap_loop comp first len fuel (v.set (first + holeIndex) x) sc1 sc1
      | none => (v, holeIndex, secondChild)
    else (v, holeIndex, secondChild)

/-- Function `std::__adjust_heap`. -/
def adjust_heap {α : Type} (comp : α → α → Bool) (v : List α) (first holeIndex len : Nat)
    (value : α) : List α :=
  let topIndex := holeIndex
  let r := adjust_heap_loop comp first len len v holeIndex holeIndex
  let r1 : List α × Nat :=
    if len % 2 = 0 ∧ r.2.2 = (len - 2) / 2 then
      let sc := 2 * (r.2.2 + 1)
      match r.1[first + (sc - 1)]? with
      | some x => (r.1.set (first + r.2.1) x, sc - 1)
      | none => (r.1, r.2.1)
    else (r.1, r.2.1)
  push_heap comp value first topIndex (r1.2 + 1) r1.1 r1.2

/-- Function `std::__pop_heap`. -/
def pop_heap {α : Type} (comp : α → α → Bool) (v : List α) (first last result : Nat) :
    List α :=
  match v[result]?, v[first]? with
  | some value, some top => adjust_heap comp (v.set result top) first 0 (last - first) value
  | _, _ => v

/-- The loop of `std::__make_heap`, entered with `__parent`. -/
def make_heap_loop {α : Type} (comp : α → α → Bool) (first len : Nat) :
    Nat → List α → List α
  | 0, v =>
    match v[first]? with
    | some value => adjust_heap comp v first 0 len value
    | none => v
  | parent + 1, v =>
    match v[first + (parent + 1)]? with
    | some value =>
      make_heap_loop comp first len parent (adjust_heap comp v first (parent + 1) len value)
    | none => v

/-- Function `std::__make_heap`. -/
def make_heap {α : Type} (comp : α → α → Bool) (v : List α) (first last : Nat) : List α :=
  if last - first < 2 then v
  else make_heap_loop comp first (last - first) ((last - first - 2) / 2) v

/-- Function `std::__sort_heap` on the heap of `n` elements that starts at
`first`. -/
def sort_heap {α : Type} (comp : α → α → Bool) (first : Nat) : Nat → List α → List α
  | 0, v => v
  | n + 1, v =>
    if n + 1 > 1 then sort_heap comp first n (pop_heap comp v first (first + n) (first + n))
    else v

/-- Function `std::__heap_select`. -/
def heap_select {α : Type} (comp : α → α → Bool) (v : List α) (first middle last : Nat) :
    List α :=
  (List.range' middle (last - middle)).foldl
    (fun w i => if comp_at comp w i first then pop_heap comp w first middle i else w)
    (make_heap comp v first middle)

/-- Function `std::__partial_sort`. -/
def partial_sort {α : Type} (comp : α → α → Bool) (v : List α) (first middle last : Nat) :
    List α :=
  sort_heap comp first (middle - first) (heap_select comp v first middle last)

/-- The loop behind `std::__lg`: how often a number above 1 can be halved
before it is 1. -/
def lg_loop : Nat → Nat → Nat
  | 0, _ => 0
  | fuel + 1, n => if n ≤ 1 then 0 else lg_loop fuel (n / 2) + 1

/-- Function `std::__lg`: the position of the highest set bit, which is the
binary logarithm rounded down. -/
def lg (n : Nat) : Nat := lg_loop n n

/-- Function `std::__introsort_loop`; the numeral is `__depth_limit`, which
every pass of the loop lowers by one. -/
def introsort_loop {α : Type} (comp : α → α → Bool) : Nat → List α → Nat → Nat → List α
  | 0, v, first, last =>
    if last - first > S_threshold then partial_sort comp v first last last else v
  | depth_limit + 1, v, first, last =>
    if last - first > S_threshold then
      let r := unguarded_partition_pivot comp v first last
      introsort_loop comp depth_limit (introsort_loop comp depth_limit r.1 r.2 last) first r.2
    else v

/-- Function `std::__sort` on the whole vector, which is what
`std::sort(v.begin(), v.end(), comp)` calls. -/
def sort {α : Type} (comp : α → α → Bool) (v : List α) : List α :=
  if v.length = 0 then v
  else
    final_insertion_sort comp (introsort_loop comp (lg v.length * 2) v 0 v.length)
      0 v.length

end StdSort

/-- The call `sort(animals.begin(), animals.end(), comp)` of `reorder` as
libstdc++ runs it. -/
def Container.stdSort (animals : List Animal) : List Animal :=
  StdSort.sort Container.comp animals

/-- What ISO C++ promises of the call of `std::sort` in `reorder`: the result
is a permutation of the vector in which no element comes strictly before an
earlier one under the comparator. -/
def SortContract (sort : List Animal → List Animal) : Prop :=
  ∀ l : List Animal, (sort l).Perm l ∧ List.Pairwise Container.notAfter (sort l)

/-- Member `add` with the sort of `reorder` as a parameter: `push_back`, then
`reorder`. -/
def Container.addBy (sort : List Animal → List Animal) (animals : List Animal)
    (animal : Animal) : List Animal :=
  sort (animals ++ [animal])

/-- Member `addAnimal` of `Container<T>` with the sort of `reorder` as a
parameter. -/
def Container.addAnimalBy (sort : List Animal → List Animal) (T : Cls)
    (animals : List Animal) (animal : Option Animal) : Except Exn (List Animal) :=
  match animal with
  | none => .error .invalid_argument
  | some a =>
    if a.kind.castsTo T then .ok (Container.addBy sort animals a)
    else .error .invalid_argument

/-- The last loop of `periodUpdate` with the sort of `reorder` as a
parameter: `cont.addAnimal(a)` for each `a` of `temp`. -/
def Container.readdLoopBy (sort : List Animal → List Animal) (T : Cls)
    (cont : List Animal) : List Animal → Except Exn (List Animal)
  | [] => .ok cont
  | a :: temp =>
    match Container.addAnimalBy sort T cont (some a) with
    | .error e => .error e
    | .ok cont1 => Container.readdLoopBy sort T cont1 temp

/-- The rebuild that ends `periodUpdate` on a container of element class `T`,
with the sort of `reorder` as a parameter: the second loop takes every animal
out at index 0 into `temp`, the last loop adds the animals of `temp` back one
at a time. -/
def Container.rebuildBy (sort : List Animal → List Animal) (T : Cls)
    (cont : List Animal) : Except Exn (List Animal) :=
  match Container.drainLoop cont [] with
  | .error e => .error e
  | .ok (cont2, temp) => Container.readdLoopBy sort T cont2 temp

/-- Function `periodUpdate` on a container of element class `T`, with the
sort of `reorder` as a parameter: the aging loop, then the rebuild. -/
def Container.periodUpdateBy (sort : List Animal → List Animal) (T : Cls)
    (cont : List Animal) : Except Exn (List Animal × List String) :=
  match Container.agingLoop cont 0 [] with
  | .error e => .error e
  | .ok (cont1, out) =>
    match Container.rebuildBy sort T cont1 with
    | .error e => .error e
    | .ok cont3 => .ok (cont3, out)

/-- No two entities of the vector that have equal age and equal name differ
in class. -/
def TieFree (l : List Animal) : Prop :=
  ∀ a ∈ l, ∀ b ∈ l, a.daysLived = b.daysLived → a.name = b.name → a.kind = b.kind

/-! ## Theorems -/

theorem notAfter_iff_canonLE (a b : Animal) :
    Container.notAfter a b ↔ canonLE a b := by
  unfold Container.notAfter Container.comp canonLE
  by_cases h : b.daysLived = a.daysLived
  · simp only [h, ne_eq, not_true_eq_false, if_false, decide_eq_false_iff_not, not_lt,
      lt_self_iff_false, true_and, false_or]
  · have h1 : ¬ a.daysLived = b.daysLived := fun e => h e.symm
    simp only [ne_eq, h, not_false_eq_true, if_true, decide_eq_false_iff_not, not_lt, h1,
      false_and, or_false]
    omega

theorem canonLE_total (a b : Animal) : canonLE a b ∨ canonLE b a := by
  unfold canonLE
  rcases lt_trichotomy a.daysLived b.daysLived with h | h | h
  · exact Or.inl (Or.inl h)
  · rcases le_total a.name.toList b.name.toList with h1 | h1
    · exact Or.inl (Or.inr ⟨h, h1⟩)
    · exact Or.inr (Or.inr ⟨h.symm, h1⟩)
  · exact Or.inr (Or.inl h)

theorem canonLE_trans {a b c : Animal} (h1 : canonLE a b) (h2 : canonLE b c) :
    canonLE a c := by
  unfold canonLE at *
  rcases h1 with h1 | ⟨h1, h1n⟩ <;> rcases h2 with h2 | ⟨h2, h2n⟩
  · exact Or.inl (by omega)
  · exact Or.inl (by omega)
  · exact Or.inl (by omega)
  · exact Or.inr ⟨by omega, le_trans h1n h2n⟩

theorem isSorted_iff_sorted_notAfter (l : List Animal) :
    IsSorted l ↔ List.Sorted Container.notAfter l := by
  unfold IsSorted List.Sorted
  constructor <;> intro h <;> refine h.imp ?_ <;> intro a b hab
  · exact (notAfter_iff_canonLE a b).mpr hab
  · exact (notAfter_iff_canonLE a b).mp hab

theorem reorder_sorted (l : List Animal) : IsSorted (Container.reorder l) := by
  haveI : IsTotal Animal Container.notAfter :=
    ⟨fun a b => by
      rw [notAfter_iff_canonLE, notAfter_iff_canonLE]
      exact canonLE_total a b⟩
  haveI : IsTrans Animal Container.notAfter :=
    ⟨fun a b c => by
      rw [notAfter_iff_canonLE, notAfter_iff_canonLE, notAfter_iff_canonLE]
      exact canonLE_trans⟩
  exact (isSorted_iff_sorted_notAfter _).mpr (List.sorted_insertionSort _ l)

theorem reorder_perm (l : List Animal) : (Container.reorder l).Perm l :=
  List.perm_insertionSort _ l

theorem reorder_of_sorted {l : List Animal} (h : IsSorted l) :
    Container.reorder l = l :=
  List.Sorted.insertionSort_eq ((isSorted_iff_sorted_notAfter l).mp h)

theorem add_sorted (l : List Animal) (a : Animal) : IsSorted (Container.add l a) :=
  reorder_sorted _

theorem add_perm (l : List Animal) (a : Animal) : (Container.add l a).Perm (a :: l) :=
  (reorder_perm _).trans (List.perm_append_singleton a l)

theorem mem_add {l : List Animal} {a x : Animal} :
    x ∈ Container.add l a ↔ x = a ∨ x ∈ l := by
  rw [(add_perm l a).mem_iff, List.mem_cons]

theorem isSorted_eraseIdx {l : List Animal} (h : IsSorted l) (n : Nat) :
    IsSorted (l.eraseIdx n) :=
  List.Pairwise.sublist (List.eraseIdx_sublist l n) h

/-! ## Positional access -/

theorem getAnimal_of_lt (l : List Animal) (pos : Int) (h0 : 0 ≤ pos)
    (h1 : pos.toNat < l.length) :
    Container.getAnimal l pos = .ok (l.get ⟨pos.toNat, h1⟩) := by
  unfold Container.getAnimal
  rw [dif_neg]
  omega

theorem getAnimal_of_not (l : List Animal) (pos : Int)
    (h : ¬ (0 ≤ pos ∧ pos < l.length)) :
    Container.getAnimal l pos = .error .out_of_range := by
  unfold Container.getAnimal
  rw [dif_pos]
  omega

theorem removeAt_of_lt (l : List Animal) (pos : Int) (h0 : 0 ≤ pos)
    (h1 : pos.toNat < l.length) :
    Container.removeAt l pos = .ok (l.get ⟨pos.toNat, h1⟩, l.eraseIdx pos.toNat) := by
  unfold Container.removeAt
  rw [dif_neg]
  omega

theorem removeAt_of_not (l : List Animal) (pos : Int)
    (h : ¬ (0 ≤ pos ∧ pos < l.length)) :
    Container.removeAt l pos = .error .out_of_range := by
  unfold Container.removeAt
  rw [dif_pos]
  omega

theorem getAnimal_ok_iff (l : List Animal) (pos : Int) (a : Animal) :
    Container.getAnimal l pos = .ok a ↔
      0 ≤ pos ∧ pos < l.length ∧ l[pos.toNat]? = some a := by
  by_cases h : 0 ≤ pos ∧ pos < l.length
  · have h1 : pos.toNat < l.length := by omega
    rw [getAnimal_of_lt l pos h.1 h1, List.getElem?_eq_getElem h1, List.get_eq_getElem]
    constructor
    · intro e
      injection e with e
      exact ⟨h.1, h.2, by rw [e]⟩
    · rintro ⟨_, _, e⟩
      injection e with e
      rw [e]
  · rw [getAnimal_of_not l pos h]
    constructor
    · intro e
      cases e
    · rintro ⟨h0, h1, _⟩
      exact absurd ⟨h0, h1⟩ h

theorem getAnimal_error (l : List Animal) (pos : Int) (e : Exn)
    (h : Container.getAnimal l pos = .error e) :
    e = .out_of_range ∧ ¬ (0 ≤ pos ∧ pos < l.length) := by
  by_cases hp : 0 ≤ pos ∧ pos < l.length
  · have h1 : pos.toNat < l.length := by omega
    rw [getAnimal_of_lt l pos hp.1 h1] at h
    cases h
  · rw [getAnimal_of_not l pos hp] at h
    injection h with h
    exact ⟨h.symm, hp⟩

theorem removeAt_of_getAnimal {l : List Animal} {pos : Int} {a : Animal}
    (h : Container.getAnimal l pos = .ok a) :
    Container.removeAt l pos = .ok (a, l.eraseIdx pos.toNat) := by
  obtain ⟨h0, h1, h2⟩ := (getAnimal_ok_iff l pos a).mp h
  have h3 : pos.toNat < l.length := by omega
  rw [removeAt_of_lt l pos h0 h3, List.get_eq_getElem]
  rw [List.getElem?_eq_getElem h3] at h2
  injection h2 with h2
  rw [h2]

/-! ## Globals: reading and writing one container -/

@[simp]
theorem State.get_set_same (s : State) (c : Slot) (l : List Animal) :
    (s.set c l).get c = l := by
  cases c <;> rfl

theorem State.get_set_ne (s : State) {c d : Slot} (l : List Animal) (h : d ≠ c) :
    (s.set c l).get d = s.get d := by
  cases c <;> cases d <;> first | rfl | exact absurd rfl h

theorem State.get_set (s : State) (c d : Slot) (l : List Animal) :
    (s.set c l).get d = if d = c then l else s.get d := by
  by_cases h : d = c
  · subst h
    simp
  · rw [if_neg h, State.get_set_ne s l h]

@[simp]
theorem State.set_get (s : State) (c : Slot) : s.set c (s.get c) = s := by
  cases c <;> rfl

@[simp]
theorem State.set_set (s : State) (c : Slot) (l l1 : List Animal) :
    (s.set c l).set c l1 = s.set c l1 := by
  cases c <;> rfl

@[simp]
theorem State.allAnimals_set (s : State) (c : Slot) (l : List Animal) :
    (s.set c l).allAnimals = s.allAnimals := by
  cases c <;> rfl

theorem State.ext_get {s t : State} (h0 : s.allAnimals = t.allAnimals)
    (h : ∀ c, s.get c = t.get c) : s = t := by
  cases s
  cases t
  have h1 := h .cageBird
  have h2 := h .cageBetterBird
  have h3 := h .cageMouse
  have h4 := h .cageBetterMouse
  have h5 := h .aquariumFish
  have h6 := h .aquariumBetterFish
  have h7 := h .aquariumMouse
  have h8 := h .aquariumBetterMouse
  have h9 := h .freedom
  simp only [State.get] at h1 h2 h3 h4 h5 h6 h7 h8 h9
  simp only at h0
  subst h0 h1 h2 h3 h4 h5 h6 h7 h8 h9
  rfl

/-! ## Statements: unfolding -/

theorem bind_apply {α β : Type} (m : M α) (f : α → M β) (w : World) :
    (m >>= f) w = match m w with
      | .ok a w1 => f a w1
      | .throw e w1 => .throw e w1 := rfl

@[simp]
theorem pure_apply {α : Type} (a : α) (w : World) : (pure a : M α) w = .ok a w := rfl

theorem bind_ok {α β : Type} {m : M α} {f : α → M β} {w w1 : World} {a : α}
    (h : m w = .ok a w1) : (m >>= f) w = f a w1 := by
  rw [bind_apply, h]

theorem bind_throw {α β : Type} {m : M α} {f : α → M β} {w w1 : World} {e : Exn}
    (h : m w = .throw e w1) : (m >>= f) w = .throw e w1 := by
  rw [bind_apply, h]

theorem getAnimalAt_ok {c : Slot} {pos : Int} {w : World} {a : Animal}
    (h : Container.getAnimal (w.state.get c) pos = .ok a) :
    getAnimalAt c pos w = .ok a w := by
  unfold getAnimalAt
  rw [h]

theorem getAnimalAt_throw {c : Slot} {pos : Int} {w : World}
    (h : ¬ (0 ≤ pos ∧ pos < (w.state.get c).length)) :
    getAnimalAt c pos w = .throw .out_of_range w := by
  unfold getAnimalAt
  rw [getAnimal_of_not _ _ h]

theorem removeAtIndex_ok {c : Slot} {pos : Int} {w : World} {a : Animal}
    (h : Container.getAnimal (w.state.get c) pos = .ok a) :
    removeAtIndex c pos w =
      .ok a { w with state := w.state.set c ((w.state.get c).eraseIdx pos.toNat) } := by
  unfold removeAtIndex
  rw [removeAt_of_getAnimal h]

theorem removeAtIndex_throw {c : Slot} {pos : Int} {w : World}
    (h : ¬ (0 ≤ pos ∧ pos < (w.state.get c).length)) :
    removeAtIndex c pos w = .throw .out_of_range w := by
  unfold removeAtIndex
  rw [removeAt_of_not _ _ h]

theorem addAnimal_ok {c : Slot} {a : Animal} {w : World}
    (h : a.kind.castsTo c.cls = true) :
    addAnimal c (some a) w =
      .ok () { w with state := w.state.set c (Container.add (w.state.get c) a) } := by
  unfold addAnimal Container.addAnimal
  simp only [h, if_true]

/-! ## Claims on the container operations -/

/-- C9: for every container (of any element class `T`, with any contents,
sorted or not) and every entity whose class casts to `T`, `addAnimal` succeeds
with the result of `add`, which is a permutation of the new entity together
with the prior contents, is one longer than the prior contents, and is sorted
by the canonical ordering. -/
theorem addAnimal_sorted_perm (T : Cls) (animals : List Animal) (a : Animal)
    (h : a.kind.castsTo T = true) :
    Container.addAnimal T animals (some a) = .ok (Container.add animals a) ∧
      (Container.add animals a).Perm (a :: animals) ∧
      (Container.add animals a).length = animals.length + 1 ∧
      IsSorted (Container.add animals a) := by
  refine ⟨?_, add_perm animals a, ?_, add_sorted animals a⟩
  · unfold Container.addAnimal
    simp only [h, if_true]
  · rw [(add_perm animals a).length_eq, List.length_cons]

/-- Witness of C9: a mouse of age 2 added to an unsorted cage of mice. -/
theorem addAnimal_sorted_perm_witness :
    Container.addAnimal .Mouse [⟨.Mouse, "c", 7⟩, ⟨.Mouse, "b", 5⟩] (some ⟨.Mouse, "a", 6⟩) =
        .ok (Container.add [⟨.Mouse, "c", 7⟩, ⟨.Mouse, "b", 5⟩] ⟨.Mouse, "a", 6⟩) ∧
      (Container.add [⟨.Mouse, "c", 7⟩, ⟨.Mouse, "b", 5⟩] ⟨.Mouse, "a", 6⟩).Perm
        [⟨.Mouse, "a", 6⟩, ⟨.Mouse, "c", 7⟩, ⟨.Mouse, "b", 5⟩] ∧
      (Container.add [⟨.Mouse, "c", 7⟩, ⟨.Mouse, "b", 5⟩] ⟨.Mouse, "a", 6⟩).length = 2 + 1 ∧
      IsSorted (Container.add [⟨.Mouse, "c", 7⟩, ⟨.Mouse, "b", 5⟩] ⟨.Mouse, "a", 6⟩) :=
  addAnimal_sorted_perm .Mouse [⟨.Mouse, "c", 7⟩, ⟨.Mouse, "b", 5⟩] ⟨.Mouse, "a", 6⟩ rfl

/-- C10: for every container `c`, every globals-and-output `w` and every
integer `pos`: when `0 ≤ pos < size`, `getAnimalAt` returns the entity stored
at `pos` and changes nothing, and `removeAtIndex` returns the same entity and
leaves in `c` the prior sequence with index `pos` deleted (entries before
`pos` stay, entries after it move down by one), the other containers and the
output untouched; otherwise both throw `out_of_range` and change nothing. -/
theorem getAnimalAt_removeAtIndex_bounds (c : Slot) (pos : Int) (w : World) :
    (0 ≤ pos ∧ pos < (w.state.get c).length →
      ∃ a w1, (w.state.get c)[pos.toNat]? = some a ∧
        getAnimalAt c pos w = .ok a w ∧
        removeAtIndex c pos w = .ok a w1 ∧
        w1.state.get c = (w.state.get c).eraseIdx pos.toNat ∧
        (w1.state.get c).length + 1 = (w.state.get c).length ∧
        (∀ j, j < pos.toNat → (w1.state.get c)[j]? = (w.state.get c)[j]?) ∧
        (∀ j, pos.toNat ≤ j → (w1.state.get c)[j]? = (w.state.get c)[j + 1]?) ∧
        (∀ d, d ≠ c → w1.state.get d = w.state.get d) ∧
        w1.cout = w.cout) ∧
    (¬ (0 ≤ pos ∧ pos < (w.state.get c).length) →
      getAnimalAt c pos w = .throw .out_of_range w ∧
        removeAtIndex c pos w = .throw .out_of_range w) := by
  constructor
  · rintro ⟨h0, h1⟩
    have h2 : pos.toNat < (w.state.get c).length := by omega
    have hg := getAnimal_of_lt (w.state.get c) pos h0 h2
    refine ⟨_, _, ?_, getAnimalAt_ok hg, removeAtIndex_ok hg, ?_, ?_, ?_, ?_, ?_, rfl⟩
    · rw [List.getElem?_eq_getElem h2, List.get_eq_getElem]
    · simp
    · simp only [State.get_set_same, List.length_eraseIdx, h2, if_true]
      omega
    · intro j hj
      simp only [State.get_set_same, List.getElem?_eraseIdx, hj, if_true]
    · intro j hj
      have : ¬ j < pos.toNat := by omega
      simp only [State.get_set_same, List.getElem?_eraseIdx, this, if_false]
    · intro d hd
      exact State.get_set_ne _ _ hd
  · intro h
    exact ⟨getAnimalAt_throw h, removeAtIndex_throw h⟩

/-! ## periodUpdate in closed form -/

theorem getAnimal_append_length (pre suf : List Animal) (a : Animal) :
    Container.getAnimal (pre ++ a :: suf) (pre.length : Int) = .ok a := by
  rw [getAnimal_ok_iff]
  refine ⟨by omega, ?_, ?_⟩
  · simp only [List.length_append, List.length_cons]
    omega
  · simp [List.getElem_append_right]

theorem agingLoop_append (suf : List Animal) :
    ∀ (pre : List Animal) (out : List String),
      Container.agingLoop (pre ++ suf) pre.length out =
        .ok (pre ++ (suf.filter (fun a => !a.expires)).map Animal.aged,
          out ++ (suf.filter Animal.expires).map deathLine) := by
  induction suf with
  | nil =>
    intro pre out
    rw [Container.agingLoop, dif_neg (by simp)]
    simp
  | cons a suf ih =>
    intro pre out
    rw [Container.agingLoop, dif_pos (by simp)]
    rw [getAnimal_append_length]
    have hset : (pre ++ a :: suf).set pre.length
        (a.setDaysLived (wrapInt (a.daysLived + 1))) = pre ++ a.aged :: suf := by
      rw [List.set_append]
      simp [Animal.aged]
    have hrem : Container.removeAt (pre ++ a.aged :: suf) (pre.length : Int) =
        .ok (a.aged, pre ++ suf) := by
      rw [removeAt_of_getAnimal (getAnimal_append_length pre suf a.aged)]
      simp [List.eraseIdx_append_of_length_le]
    simp only []
    by_cases h1 : a.getType = "MON" ∧ wrapInt (a.daysLived + 1) > 0
    · have he : a.expires = true := by
        unfold Animal.expires
        exact decide_eq_true (Or.inl h1)
      rw [if_pos h1]
      split
      · rename_i e heq
        rw [hset, hrem] at heq
        cases heq
      · rename_i x cont2 heq
        rw [hset, hrem] at heq
        injection heq with heq
        injection heq with _ h2
        subst h2
        rw [ih]
        simp [he, deathLine]
    · rw [if_neg h1]
      by_cases h2 : wrapInt (a.daysLived + 1) > 10
      · have he : a.expires = true := by
          unfold Animal.expires
          exact decide_eq_true (Or.inr h2)
        rw [if_pos h2]
        split
        · rename_i e heq
          rw [hset, hrem] at heq
          cases heq
        · rename_i x cont2 heq
          rw [hset, hrem] at heq
          injection heq with heq
          injection heq with _ h3
          subst h3
          rw [ih]
          simp [he, deathLine]
      · have he : a.expires = false := by
          unfold Animal.expires
          exact decide_eq_false (fun h => h.elim h1 h2)
        rw [if_neg h2]
        have hl : pre.length + 1 = (pre ++ [a.aged]).length := by simp
        have happ : pre ++ a.aged :: suf = (pre ++ [a.aged]) ++ suf := by simp
        rw [hset, hl, happ, ih]
        simp [he]

theorem agingLoop_eq (cont : List Animal) :
    Container.agingLoop cont 0 [] =
      .ok ((cont.filter (fun a => !a.expires)).map Animal.aged,
        (cont.filter Animal.expires).map deathLine) := by
  have h := agingLoop_append cont [] []
  simpa using h

theorem drainLoop_eq (cont : List Animal) :
    ∀ temp : List Animal, Container.drainLoop cont temp = .ok ([], temp ++ cont) := by
  induction cont with
  | nil =>
    intro temp
    rw [Container.drainLoop, dif_neg (by simp)]
    simp
  | cons a cont ih =>
    intro temp
    rw [Container.drainLoop, dif_pos (by simp)]
    have hrem : Container.removeAt (a :: cont) 0 = .ok (a, cont) := by
      rw [removeAt_of_lt (a :: cont) 0 (le_refl 0) (by simp)]
      simp
    split
    · rename_i e heq
      rw [hrem] at heq
      cases heq
    · rename_i x cont1 heq
      rw [hrem] at heq
      injection heq with heq
      injection heq with h1 h2
      subst h1 h2
      rw [ih]
      simp

theorem readdLoop_eq (T : Cls) (temp : List Animal) :
    ∀ cont : List Animal, WellTyped T temp →
      Container.readdLoop T cont temp = .ok (temp.foldl Container.add cont) := by
  induction temp with
  | nil =>
    intro cont _
    rfl
  | cons a temp ih =>
    intro cont h
    have ha : a.kind.castsTo T = true := h a (List.mem_cons_self a temp)
    have ht : WellTyped T temp := fun b hb => h b (List.mem_cons_of_mem a hb)
    simp only [Container.readdLoop, Container.addAnimal, ha, if_true, List.foldl_cons]
    exact ih _ ht

theorem aged_kind (a : Animal) : a.aged.kind = a.kind := rfl

theorem aged_name (a : Animal) : a.aged.name = a.name := rfl

theorem wellTyped_survivors {T : Cls} {cont : List Animal} (h : WellTyped T cont) :
    WellTyped T ((cont.filter (fun a => !a.expires)).map Animal.aged) := by
  intro b hb
  rw [List.mem_map] at hb
  obtain ⟨a, ha, rfl⟩ := hb
  rw [aged_kind]
  exact h a (List.mem_of_mem_filter ha)

theorem periodUpdate_eq (T : Cls) (cont : List Animal) (h : WellTyped T cont) :
    Container.periodUpdate T cont =
      .ok (((cont.filter (fun a => !a.expires)).map Animal.aged).foldl Container.add [],
        (cont.filter Animal.expires).map deathLine) := by
  unfold Container.periodUpdate
  rw [agingLoop_eq]
  simp only [drainLoop_eq, List.nil_append]
  rw [readdLoop_eq T _ _ (wellTyped_survivors h)]

theorem foldl_add_perm (temp : List Animal) :
    ∀ cont : List Animal, (temp.foldl Container.add cont).Perm (cont ++ temp) := by
  induction temp with
  | nil =>
    intro cont
    simp
  | cons a temp ih =>
    intro cont
    rw [List.foldl_cons]
    refine (ih _).trans ?_
    have h1 : (Container.add cont a).Perm (cont ++ [a]) := reorder_perm _
    have h2 : cont ++ a :: temp = (cont ++ [a]) ++ temp := by simp
    rw [h2]
    exact h1.append_right temp

theorem foldl_add_sorted (temp : List Animal) :
    ∀ cont : List Animal, IsSorted cont → IsSorted (temp.foldl Container.add cont) := by
  induction temp with
  | nil =>
    intro cont h
    exact h
  | cons a temp ih =>
    intro cont _
    rw [List.foldl_cons]
    exact ih _ (add_sorted cont a)

theorem isSorted_nil : IsSorted [] := List.Pairwise.nil

theorem drain_eq (c : Slot) (n : Nat) :
    ∀ w : World, (w.state.get c).length = n →
      drain c w = .ok () { w with state := w.state.set c [] } := by
  induction n with
  | zero =>
    intro w h
    have h0 : w.state.get c = [] := List.length_eq_zero.mp h
    rw [drain, dif_neg (by simp [Container.size, h])]
    rw [← h0, State.set_get]
  | succ n ih =>
    intro w h
    rw [drain, dif_pos (by simp [Container.size, h])]
    have hg : Container.getAnimal (w.state.get c) 0 =
        .ok ((w.state.get c).get ⟨0, by omega⟩) :=
      getAnimal_of_lt (w.state.get c) 0 (le_refl 0) (by simp; omega)
    have hr := @removeAtIndex_ok c 0 w _ hg
    split
    · rename_i x w1 heq
      rw [hr] at heq
      injection heq with _ h2
      subst h2
      rw [ih]
      · simp
      · simp only [State.get_set_same, List.length_eraseIdx, h]
        simp
    · rename_i e w1 heq
      rw [hr] at heq
      cases heq

theorem drain_ok (c : Slot) (w : World) :
    drain c w = .ok () { w with state := w.state.set c [] } :=
  drain_eq c _ w rfl

theorem periodUpdate_ok (c : Slot) (w : World) (h : WellTyped c.cls (w.state.get c)) :
    periodUpdate c w = .ok ()
      { state := w.state.set c
          ((((w.state.get c).filter (fun a => !a.expires)).map Animal.aged).foldl
            Container.add []),
        cout := w.cout ++ ((w.state.get c).filter Animal.expires).map deathLine } := by
  unfold periodUpdate
  rw [periodUpdate_eq _ _ h]

/-! ## The blocks of the command loop in closed form -/

theorem elemOK_castsTo {c : Slot} {a : Animal} (h : ElemOK c a) :
    a.kind.castsTo c.cls = true := by
  have h1 := h.1
  revert h1
  cases c <;> cases a.kind <;> simp [Slot.holds, Slot.cls, Kind.castsTo]

theorem inv_wellTyped {s : State} (h : Inv s) (c : Slot) : WellTyped c.cls (s.get c) :=
  fun a ha => elemOK_castsTo ((h c).2 a ha)

theorem inv_set {s : State} (h : Inv s) (c : Slot) (l : List Animal)
    (h1 : IsSorted l) (h2 : ∀ a ∈ l, ElemOK c a) : Inv (s.set c l) := by
  intro d
  rw [State.get_set]
  by_cases hd : d = c
  · subst hd
    simp only [if_true]
    exact ⟨h1, h2⟩
  · simp only [hd, if_false]
    exact h d

theorem inv_erase {s : State} (h : Inv s) (c : Slot) (n : Nat) :
    Inv (s.set c ((s.get c).eraseIdx n)) :=
  inv_set h c _ (isSorted_eraseIdx (h c).1 n)
    (fun a ha => (h c).2 a ((List.eraseIdx_sublist _ n).subset ha))

theorem inv_add {s : State} (h : Inv s) (c : Slot) (a : Animal) (ha : ElemOK c a) :
    Inv (s.set c (Container.add (s.get c) a)) :=
  inv_set h c _ (add_sorted _ a) (fun b hb => by
    rcases mem_add.mp hb with rfl | hb
    · exact ha
    · exact (h c).2 b hb)

theorem mem_of_getAnimal {l : List Animal} {pos : Int} {a : Animal}
    (h : Container.getAnimal l pos = .ok a) : a ∈ l := by
  obtain ⟨_, _, h2⟩ := (getAnimal_ok_iff l pos a).mp h
  exact List.getElem?_mem h2

theorem getAnimal_cases (l : List Animal) (pos : Int) :
    (∃ a, Container.getAnimal l pos = .ok a) ∨
      (Container.getAnimal l pos = .error .out_of_range ∧ ¬ (0 ≤ pos ∧ pos < l.length)) := by
  by_cases h : 0 ≤ pos ∧ pos < l.length
  · exact Or.inl ⟨_, getAnimal_of_lt l pos h.1 (by omega)⟩
  · exact Or.inr ⟨getAnimal_of_not l pos h, h⟩

theorem applyBase_throw {src dst : Slot} {baseCode betterCode : String}
    {better : Animal → Animal} {pos : Int} {w : World}
    (h : ¬ (0 ≤ pos ∧ pos < (w.state.get src).length)) :
    applyBase src dst baseCode betterCode better pos w = .throw .out_of_range w := by
  unfold applyBase
  exact bind_throw (getAnimalAt_throw h)

theorem applyBase_ok {src dst : Slot} {baseCode betterCode : String}
    {better : Animal → Animal} {pos : Int} {w : World} {a : Animal}
    (hg : Container.getAnimal (w.state.get src) pos = .ok a)
    (ht : a.getType = baseCode) (hc : (better a).kind.castsTo dst.cls = true) :
    applyBase src dst baseCode betterCode better pos w =
      .ok () ⟨(w.state.set src ((w.state.get src).eraseIdx pos.toNat)).set dst
          (Container.add ((w.state.set src ((w.state.get src).eraseIdx pos.toNat)).get dst)
            (better a)), w.cout⟩ := by
  unfold applyBase
  rw [bind_ok (getAnimalAt_ok hg)]
  simp only [ht, if_true]
  rw [bind_ok (removeAtIndex_ok hg)]
  rw [addAnimal_ok hc]

theorem applyBetter_throw {c : Slot} {betterCode : String} {pos : Int} {w : World}
    (h : ¬ (0 ≤ pos ∧ pos < (w.state.get c).length)) :
    applyBetter c betterCode pos w = .throw .out_of_range w := by
  unfold applyBetter
  exact bind_throw (getAnimalAt_throw h)

theorem applyBetter_ok {c : Slot} {betterCode : String} {pos : Int} {w : World}
    {a : Animal} (hg : Container.getAnimal (w.state.get c) pos = .ok a)
    (ht : a.getType = betterCode) (hc : c ≠ .freedom) :
    applyBetter c betterCode pos w =
      .ok () ⟨(w.state.set c []).set .freedom
          (Container.add (w.state.get .freedom) (Monster.ofAnimal a)), w.cout⟩ := by
  unfold applyBetter
  rw [bind_ok (getAnimalAt_ok hg)]
  simp only [ht, if_true]
  rw [bind_ok (removeAtIndex_ok hg)]
  rw [bind_ok (drain_ok _ _)]
  rw [addAnimal_ok (by rfl)]
  simp only [State.set_set]
  rw [State.get_set_ne _ _ (Ne.symm hc)]

theorem applyBetter_skip {c : Slot} {betterCode : String} {pos : Int} {w : World}
    {a : Animal} (hg : Container.getAnimal (w.state.get c) pos = .ok a)
    (ht : a.getType ≠ betterCode) :
    applyBetter c betterCode pos w = .ok () w := by
  unfold applyBetter
  rw [bind_ok (getAnimalAt_ok hg)]
  simp only [ht, if_false]
  rfl

theorem removeBetter_throw {src dst : Slot} {k : Kind} {pos : Int} {w : World}
    (h : ¬ (0 ≤ pos ∧ pos < (w.state.get src).length)) :
    removeBetter src dst k pos w = .throw .out_of_range w := by
  unfold removeBetter
  exact bind_throw (getAnimalAt_throw h)

theorem removeBetter_ok {src dst : Slot} {k : Kind} {pos : Int} {w : World}
    {a : Animal} (hg : Container.getAnimal (w.state.get src) pos = .ok a)
    (hc : k.castsTo dst.cls = true) :
    removeBetter src dst k pos w =
      .ok () ⟨(w.state.set src ((w.state.get src).eraseIdx pos.toNat)).set dst
          (Container.add ((w.state.set src ((w.state.get src).eraseIdx pos.toNat)).get dst)
            ⟨k, a.name, wrapInt (a.daysLived * 2)⟩), w.cout⟩ := by
  unfold removeBetter
  rw [bind_ok (getAnimalAt_ok hg)]
  simp only []
  rw [bind_ok (removeAtIndex_ok hg)]
  rw [addAnimal_ok hc]

theorem eraseIdx_set_same (l : List Animal) (n : Nat) (a : Animal) :
    (l.set n a).eraseIdx n = l.eraseIdx n := by
  induction l generalizing n with
  | nil => rfl
  | cons b l ih =>
    cases n with
    | zero => rfl
    | succ n => simp [List.set, List.eraseIdx, ih]

theorem attackIn_throw {c : Slot} {pos1 pos2 : Int} {w : World}
    (h : ¬ (0 ≤ pos1 ∧ pos1 < (w.state.get c).length) ∨
      ¬ (0 ≤ pos2 ∧ pos2 < (w.state.get c).length)) :
    attackIn c pos1 pos2 w = .throw .out_of_range w := by
  unfold attackIn
  rcases getAnimal_cases (w.state.get c) pos1 with ⟨a, ha⟩ | ⟨_, h1⟩
  · rw [bind_ok (getAnimalAt_ok ha)]
    rcases h with h | h
    · exact absurd ((getAnimal_ok_iff _ _ _).mp ha |>.imp_right And.left) h
    · exact bind_throw (getAnimalAt_throw h)
  · exact bind_throw (getAnimalAt_throw h1)

theorem attackIn_ok {c : Slot} {pos1 pos2 : Int} {w : World} {a d : Animal}
    (h1 : Container.getAnimal (w.state.get c) pos1 = .ok a)
    (h2 : Container.getAnimal (w.state.get c) pos2 = .ok d) :
    attackIn c pos1 pos2 w =
      .ok () { state := w.state.set c ((w.state.get c).eraseIdx pos2.toNat),
               cout := w.cout ++ [a.attackLine] } := by
  unfold attackIn
  rw [bind_ok (getAnimalAt_ok h1), bind_ok (getAnimalAt_ok h2)]
  obtain ⟨h0, hlt, _⟩ := (getAnimal_ok_iff _ _ _).mp h2
  have hg : Container.getAnimal
      ((w.state.set c ((w.state.get c).set pos2.toNat (d.setDaysLived 11))).get c) pos2 =
      .ok (d.setDaysLived 11) := by
    rw [State.get_set_same, getAnimal_ok_iff]
    refine ⟨h0, by simpa using hlt, ?_⟩
    rw [List.getElem?_set_self]
    omega
  simp only [Animal.attack, print, store, bind_apply, Animal.setDaysLived, if_true]
  have hr := @removeAtIndex_ok c pos2
    ⟨w.state.set c ((w.state.get c).set pos2.toNat (d.setDaysLived 11)),
      w.cout ++ [a.attackLine]⟩ _ hg
  simp only [Animal.setDaysLived] at hr
  rw [hr]
  simp [eraseIdx_set_same]

theorem talkIn_throw {c : Slot} {pos : Int} {w : World}
    (h : ¬ (0 ≤ pos ∧ pos < (w.state.get c).length)) :
    talkIn c pos w = .throw .out_of_range w := by
  unfold talkIn
  exact bind_throw (getAnimalAt_throw h)

theorem talkIn_ok {c : Slot} {pos : Int} {w : World} {a : Animal}
    (hg : Container.getAnimal (w.state.get c) pos = .ok a) :
    talkIn c pos w = .ok () { w with cout := w.cout ++ [a.talk] } := by
  unfold talkIn
  rw [bind_ok (getAnimalAt_ok hg)]
  rfl

/-! ## Every statement of the command loop maintains `Inv` -/

theorem keeps_pure {α : Type} (a : α) : Keeps (pure a : M α) := fun _ h => h

theorem keeps_print (line : String) : Keeps (print line) := fun _ h => h

theorem keeps_bind {α β : Type} {m : M α} {f : α → M β} (hm : Keeps m)
    (hf : ∀ a, Keeps (f a)) : Keeps (m >>= f) := by
  intro w hw
  have h1 := hm w hw
  rw [bind_apply]
  cases hmw : m w with
  | ok a w1 =>
    rw [hmw] at h1
    exact hf a w1 h1
  | throw e w1 =>
    rw [hmw] at h1
    exact h1

theorem keeps_ite {α : Type} (p : Prop) [Decidable p] {m1 m2 : M α} (h1 : Keeps m1)
    (h2 : Keeps m2) : Keeps (if p then m1 else m2) := by
  split
  · exact h1
  · exact h2

theorem keeps_tryCatch {body handler : M Unit} (hb : Keeps body) (hh : Keeps handler) :
    Keeps (tryCatchOutOfRange body handler) := by
  intro w hw
  have h1 := hb w hw
  unfold tryCatchOutOfRange
  cases hbw : body w with
  | ok a w1 =>
    rw [hbw] at h1
    exact h1
  | throw e w1 =>
    rw [hbw] at h1
    cases e with
    | out_of_range => exact hh w1 h1
    | invalid_argument => exact h1

theorem keeps_addAnimal (c : Slot) (animal : Option Animal)
    (h : ∀ a, animal = some a → ElemOK c a) : Keeps (addAnimal c animal) := by
  intro w hw
  cases animal with
  | none => exact hw
  | some a =>
    rw [addAnimal_ok (elemOK_castsTo (h a rfl))]
    exact inv_add hw c a (h a rfl)

theorem keeps_applyBase {src dst : Slot} {baseCode betterCode : String}
    {better : Animal → Animal} {pos : Int}
    (hsrc : ∀ a, ElemOK src a → a.getType = baseCode ∧ ElemOK dst (better a)) :
    Keeps (applyBase src dst baseCode betterCode better pos) := by
  intro w hw
  rcases getAnimal_cases (w.state.get src) pos with ⟨a, ha⟩ | ⟨_, h1⟩
  · obtain ⟨ht, hb⟩ := hsrc a ((hw src).2 a (mem_of_getAnimal ha))
    rw [applyBase_ok ha ht (elemOK_castsTo hb)]
    exact inv_add (inv_erase hw src _) dst _ hb
  · rw [applyBase_throw h1]
    exact hw

theorem elemOK_freedom_monster (a : Animal) : ElemOK .freedom (Monster.ofAnimal a) :=
  ⟨rfl, fun _ => rfl⟩

theorem keeps_applyBetter {c : Slot} {betterCode : String} {pos : Int}
    (hc : c ≠ .freedom) : Keeps (applyBetter c betterCode pos) := by
  intro w hw
  rcases getAnimal_cases (w.state.get c) pos with ⟨a, ha⟩ | ⟨_, h1⟩
  · by_cases ht : a.getType = betterCode
    · rw [applyBetter_ok ha ht hc]
      have h2 : Inv (w.state.set c []) :=
        inv_set hw c [] isSorted_nil (fun a ha => absurd ha (List.not_mem_nil a))
      have h3 := inv_add h2 .freedom _ (elemOK_freedom_monster a)
      rw [State.get_set_ne _ _ (Ne.symm hc)] at h3
      exact h3
    · rw [applyBetter_skip ha ht]
      exact hw
  · rw [applyBetter_throw h1]
    exact hw

theorem keeps_removeBetter {src dst : Slot} {k : Kind} {pos : Int}
    (hk : dst.holds k = true) (hm : k ≠ .Monster) :
    Keeps (removeBetter src dst k pos) := by
  intro w hw
  have hb : ∀ (n : String) (d : Int), ElemOK dst ⟨k, n, d⟩ :=
    fun n d => ⟨hk, fun h => absurd h hm⟩
  rcases getAnimal_cases (w.state.get src) pos with ⟨a, ha⟩ | ⟨_, h1⟩
  · rw [removeBetter_ok ha (elemOK_castsTo (hb "" 0))]
    exact inv_add (inv_erase hw src _) dst _ (hb _ _)
  · rw [removeBetter_throw h1]
    exact hw

theorem keeps_attackIn (c : Slot) (pos1 pos2 : Int) : Keeps (attackIn c pos1 pos2) := by
  intro w hw
  rcases getAnimal_cases (w.state.get c) pos1 with ⟨a, ha⟩ | ⟨_, h1⟩
  · rcases getAnimal_cases (w.state.get c) pos2 with ⟨d, hd⟩ | ⟨_, h2⟩
    · rw [attackIn_ok ha hd]
      exact inv_erase hw c _
    · rw [attackIn_throw (Or.inr h2)]
      exact hw
  · rw [attackIn_throw (Or.inl h1)]
    exact hw

theorem keeps_talkIn (c : Slot) (pos : Int) : Keeps (talkIn c pos) := by
  intro w hw
  rcases getAnimal_cases (w.state.get c) pos with ⟨a, ha⟩ | ⟨_, h1⟩
  · rw [talkIn_ok ha]
    exact hw
  · rw [talkIn_throw h1]
    exact hw

theorem monster_expires {a : Animal} (hk : a.kind = .Monster) (hd : a.daysLived = 1) :
    a.expires = true := by
  unfold Animal.expires Animal.getType
  rw [hk, hd]
  decide

theorem keeps_periodUpdate (c : Slot) : Keeps (periodUpdate c) := by
  intro w hw
  rw [periodUpdate_ok c w (inv_wellTyped hw c)]
  refine inv_set hw c _ (foldl_add_sorted _ _ isSorted_nil) ?_
  intro b hb
  have hb1 := (foldl_add_perm _ []).mem_iff.mp hb
  rw [List.nil_append, List.mem_map] at hb1
  obtain ⟨a, ha, rfl⟩ := hb1
  rw [List.mem_filter] at ha
  obtain ⟨ha1, ha2⟩ := ha
  have hok := (hw c).2 a ha1
  refine ⟨hok.1, fun hk => ?_⟩
  have hk1 : a.kind = .Monster := hk
  have := monster_expires hk1 (hok.2 hk1)
  rw [this] at ha2
  cases ha2

theorem keeps_period : Keeps period := by
  unfold period
  refine keeps_bind (keeps_periodUpdate _) (fun _ => ?_)
  refine keeps_bind (keeps_periodUpdate _) (fun _ => ?_)
  refine keeps_bind (keeps_periodUpdate _) (fun _ => ?_)
  refine keeps_bind (keeps_periodUpdate _) (fun _ => ?_)
  refine keeps_bind (keeps_periodUpdate _) (fun _ => ?_)
  refine keeps_bind (keeps_periodUpdate _) (fun _ => ?_)
  refine keeps_bind (keeps_periodUpdate _) (fun _ => ?_)
  refine keeps_bind (keeps_periodUpdate _) (fun _ => ?_)
  exact keeps_periodUpdate _

theorem createAnimal_elemOK_freedom (typeCode name : String) (days : Int) (a : Animal)
    (h : createAnimal typeCode name days = some a) : ElemOK .freedom a := by
  refine ⟨rfl, fun hk => ?_⟩
  unfold createAnimal at h
  split_ifs at h <;> injection h with h <;> subst h <;> cases hk

theorem createAnimal_elemOK {typeCode name : String} {days : Int} {c : Slot} {k : Kind}
    (code : String) (hcode : typeCode = code)
    (hk : ∀ n d, createAnimal code n d = some ⟨k, n, d⟩) (hc : c.holds k = true)
    (hm : k ≠ .Monster) :
    ∀ a, createAnimal typeCode name days = some a → ElemOK c a := by
  intro a ha
  rw [hcode, hk] at ha
  injection ha with ha
  subst ha
  exact ⟨hc, fun h => absurd h hm⟩

theorem keeps_createRoute (typeCode name containerType : String) (days : Int) :
    Keeps (createRoute typeCode containerType (createAnimal typeCode name days)) := by
  have hadd : ∀ c : Slot, (∀ a, createAnimal typeCode name days = some a → ElemOK c a) →
      Keeps (addAnimal c (createAnimal typeCode name days) >>= fun _ => (pure true : M Bool)) :=
    fun c h => keeps_bind (keeps_addAnimal c _ h) (fun _ => keeps_pure _)
  unfold createRoute
  split_ifs with h1 h2 h3 h4 h5 h6 h7 h8 h9 h10 h11
  · exact hadd _ (createAnimal_elemOK "M" h2 (fun _ _ => rfl) rfl (by decide))
  · exact hadd _ (createAnimal_elemOK "BM" h3 (fun _ _ => rfl) rfl (by decide))
  · exact hadd _ (createAnimal_elemOK "B" h4 (fun _ _ => rfl) rfl (by decide))
  · exact hadd _ (createAnimal_elemOK "BB" h5 (fun _ _ => rfl) rfl (by decide))
  · exact keeps_pure _
  · exact hadd _ (createAnimal_elemOK "F" h7 (fun _ _ => rfl) rfl (by decide))
  · exact hadd _ (createAnimal_elemOK "BF" h8 (fun _ _ => rfl) rfl (by decide))
  · exact hadd _ (createAnimal_elemOK "M" h9 (fun _ _ => rfl) rfl (by decide))
  · exact hadd _ (createAnimal_elemOK "BM" h10 (fun _ _ => rfl) rfl (by decide))
  · exact keeps_pure _
  · exact hadd _ (createAnimal_elemOK_freedom _ _ _)
  · exact keeps_pure _

theorem keeps_createTalk (flag : Bool) (animal : Option Animal) :
    Keeps (createTalk flag animal) := by
  unfold createTalk
  split
  · split
    · exact keeps_print _
    · exact keeps_pure _
  · exact keeps_pure _

theorem keeps_create (typeCode name containerType : String) (days : Int) :
    Keeps (create typeCode name containerType days) :=
  keeps_bind (keeps_createRoute _ _ _ _) (fun _ => keeps_createTalk _ _)

theorem elemOK_base_better {src dst : Slot} (k kb : Kind) {code : String}
    {better : Animal → Animal}
    (hsrc : ∀ k1, src.holds k1 = true → k1 = k)
    (hcode : ∀ n d, (⟨k, n, d⟩ : Animal).getType = code)
    (hb : ∀ a, (better a).kind = kb) (hdst : dst.holds kb = true) (hm : kb ≠ .Monster) :
    ∀ a, ElemOK src a → a.getType = code ∧ ElemOK dst (better a) := by
  rintro ⟨k1, n, d⟩ ⟨h1, _⟩
  have := hsrc k1 h1
  subst this
  refine ⟨hcode n d, ?_, fun h => ?_⟩
  · rw [hb]
    exact hdst
  · rw [hb] at h
    exact absurd h hm

theorem keeps_applySubstance (containerType typeCode : String) (pos : Int) :
    Keeps (applySubstance containerType typeCode pos) := by
  unfold applySubstance
  refine keeps_ite _ (keeps_print _) (keeps_tryCatch ?_ (keeps_print _))
  refine keeps_ite _ ?_ (keeps_ite _ ?_ (keeps_pure _))
  · refine keeps_ite _ ?_ (keeps_ite _ ?_ (keeps_ite _ ?_ (keeps_ite _ ?_ (keeps_pure _))))
    · exact keeps_applyBase (elemOK_base_better .Mouse .BetterMouse
        (fun k1 h => by cases k1 <;> first | rfl | cases h) (fun _ _ => rfl) (fun _ => rfl) rfl (by decide))
    · exact keeps_applyBase (elemOK_base_better .Bird .BetterBird
        (fun k1 h => by cases k1 <;> first | rfl | cases h) (fun _ _ => rfl) (fun _ => rfl) rfl (by decide))
    · exact keeps_applyBetter (by decide)
    · exact keeps_applyBetter (by decide)
  · refine keeps_ite _ ?_ (keeps_ite _ ?_ (keeps_ite _ ?_ (keeps_ite _ ?_ (keeps_pure _))))
    · exact keeps_applyBase (elemOK_base_better .Fish .BetterFish
        (fun k1 h => by cases k1 <;> first | rfl | cases h) (fun _ _ => rfl) (fun _ => rfl) rfl (by decide))
    · exact keeps_applyBase (elemOK_base_better .Mouse .BetterMouse
        (fun k1 h => by cases k1 <;> first | rfl | cases h) (fun _ _ => rfl) (fun _ => rfl) rfl (by decide))
    · exact keeps_applyBetter (by decide)
    · exact keeps_applyBetter (by decide)

theorem keeps_removeSubstance (containerType typeCode : String) (pos : Int) :
    Keeps (removeSubstance containerType typeCode pos) := by
  unfold removeSubstance
  refine keeps_ite _ (keeps_print _) (keeps_tryCatch ?_ (keeps_print _))
  split_ifs
  all_goals first
    | exact keeps_pure _
    | exact keeps_print _
    | exact keeps_removeBetter rfl (by decide)

theorem keeps_attack (containerType typeCode : String) (pos1 pos2 : Int) :
    Keeps (attack containerType typeCode pos1 pos2) := by
  unfold attack
  refine keeps_ite _ (keeps_print _) (keeps_ite _ (keeps_pure _)
    (keeps_tryCatch ?_ (keeps_print _)))
  split_ifs
  all_goals first
    | exact keeps_pure _
    | exact keeps_attackIn _ _ _

theorem keeps_talk (containerType typeCode : String) (pos : Int) :
    Keeps (talk containerType typeCode pos) := by
  unfold talk
  refine keeps_ite _ (keeps_tryCatch (keeps_talkIn _ _) (keeps_print _))
    (keeps_tryCatch ?_ (keeps_print _))
  split_ifs
  all_goals first
    | exact keeps_pure _
    | exact keeps_talkIn _ _

theorem keeps_exec (cmd : Command) : Keeps (exec cmd) := by
  cases cmd with
  | CREATE typeCode name inToken containerType days => exact keeps_create _ _ _ _
  | APPLY_SUBSTANCE containerType typeCode pos => exact keeps_applySubstance _ _ _
  | REMOVE_SUBSTANCE containerType typeCode pos => exact keeps_removeSubstance _ _ _
  | ATTACK containerType typeCode pos1 pos2 => exact keeps_attack _ _ _ _
  | TALK containerType typeCode pos => exact keeps_talk _ _ _
  | PERIOD => exact keeps_period
  | other cmd => exact keeps_pure _

theorem step_world {s s1 : State} {cmd : Command} {out : List String}
    (h : step s cmd = .ok (s1, out)) : exec cmd ⟨s, []⟩ = .ok () ⟨s1, out⟩ := by
  unfold step at h
  split at h
  · rename_i u w hw
    injection h with h
    injection h with h1 h2
    subst h1 h2
    exact hw
  · cases h

theorem inv_init : Inv State.init := by
  intro c
  refine ⟨?_, ?_⟩
  · cases c <;> exact isSorted_nil
  · intro a ha
    cases c <;> cases ha

theorem inv_step {s s1 : State} {cmd : Command} {out : List String} (hs : Inv s)
    (h : step s cmd = .ok (s1, out)) : Inv s1 := by
  have h1 := keeps_exec cmd ⟨s, []⟩ hs
  rw [step_world h] at h1
  exact h1

theorem reachable_inv {s : State} (h : Reachable s) : Inv s := by
  induction h with
  | init => exact inv_init
  | step cmd _ hstep ih => exact inv_step ih hstep

/-! ## The PERIOD branch in closed form -/

theorem periodUpdate_closed (c : Slot) (w : World) (h : WellTyped c.cls (w.state.get c)) :
    periodUpdate c w = .ok ()
      ⟨w.state.set c (periodClosed (w.state.get c)).1,
        w.cout ++ (periodClosed (w.state.get c)).2⟩ :=
  periodUpdate_ok c w h

theorem period_closed (s : State) (out : List String)
    (h : ∀ c : Slot, WellTyped c.cls (s.get c)) :
    period ⟨s, out⟩ = .ok () ⟨periodState s, out ++ periodOut s⟩ := by
  unfold period
  rw [bind_ok (periodUpdate_closed .cageBird _ (h .cageBird))]
  rw [bind_ok (periodUpdate_closed .cageBetterBird _ (h .cageBetterBird))]
  rw [bind_ok (periodUpdate_closed .cageMouse _ (h .cageMouse))]
  rw [bind_ok (periodUpdate_closed .cageBetterMouse _ (h .cageBetterMouse))]
  rw [bind_ok (periodUpdate_closed .aquariumFish _ (h .aquariumFish))]
  rw [bind_ok (periodUpdate_closed .aquariumBetterFish _ (h .aquariumBetterFish))]
  rw [bind_ok (periodUpdate_closed .aquariumMouse _ (h .aquariumMouse))]
  rw [bind_ok (periodUpdate_closed .aquariumBetterMouse _ (h .aquariumBetterMouse))]
  rw [periodUpdate_closed .freedom _ (h .freedom)]
  simp only [State.get, State.set, periodState, periodOut, List.append_assoc]

theorem step_period (s : State) (h : ∀ c : Slot, WellTyped c.cls (s.get c)) :
    step s .PERIOD = .ok (periodState s, periodOut s) := by
  have he : exec .PERIOD = period := rfl
  unfold step
  rw [he, period_closed s [] h]
  simp

/-! ## Arithmetic of the days -/

theorem wrapInt_eq {x : Int} (h1 : -2147483648 ≤ x) (h2 : x ≤ 2147483647) :
    wrapInt x = x := by
  unfold wrapInt
  omega

theorem expires_iff {a : Animal} (h1 : INT_MIN ≤ a.daysLived) (h2 : a.daysLived < INT_MAX)
    (hm : a.kind = .Monster → 0 ≤ a.daysLived) :
    a.expires = true ↔ ¬ (a.kind ≠ .Monster ∧ a.daysLived ≤ 9) := by
  unfold INT_MIN at h1
  unfold INT_MAX at h2
  unfold Animal.expires
  rw [wrapInt_eq (by omega) (by omega), decide_eq_true_iff]
  by_cases hk : a.kind = .Monster
  · have := hm hk
    have ht : a.getType = "MON" := by
      unfold Animal.getType
      rw [hk]
    simp only [ht, hk, true_and, ne_eq, not_true_eq_false, false_and, not_false_eq_true, iff_true]
    left
    omega
  · have ht : a.getType ≠ "MON" := by
      unfold Animal.getType
      cases hq : a.kind <;> first | exact absurd hq hk | decide
    simp only [ht, false_and, false_or, ne_eq, hk, not_false_eq_true, true_and]
    omega

theorem half_up_eq_ceil {x : Int} (h0 : 0 ≤ x) (h1 : x < INT_MAX) :
    (wrapInt (x + 1)).tdiv 2 = ⌈(x : ℚ) / 2⌉ := by
  unfold INT_MAX at h1
  rw [wrapInt_eq (by omega) (by omega), Int.tdiv_eq_ediv (by omega) (by omega)]
  symm
  rw [Int.ceil_eq_iff]
  have h2 : 2 * ((x + 1) / 2) ≤ x + 1 := by omega
  have h3 : x + 1 ≤ 2 * ((x + 1) / 2) + 1 := by omega
  have h2q : (2 : ℚ) * (((x + 1) / 2 : Int) : ℚ) ≤ (x : ℚ) + 1 := by exact_mod_cast h2
  have h3q : (x : ℚ) + 1 ≤ 2 * (((x + 1) / 2 : Int) : ℚ) + 1 := by exact_mod_cast h3
  constructor <;> linarith

/-! ## Claims on the reachable globals and on PERIOD -/

/-- C1: in every state reachable from the initial state (all nine containers
empty) by any sequence of commands, every container's stored sequence is
non-decreasing under the canonical ordering (age ascending, then name
lexicographically ascending). -/
theorem reachable_sorted (s : State) (h : Reachable s) (c : Slot) : IsSorted (s.get c) :=
  (reachable_inv h c).1

/-- Witness of C1: the cage of mice after `CREATE M b IN Cage 5` and
`CREATE M a IN Cage 5`. -/
theorem reachable_sorted_witness :
    IsSorted ((⟨[], [], [], [⟨.Mouse, "a", 5⟩, ⟨.Mouse, "b", 5⟩], [], [], [], [], [], []⟩ :
      State).get .cageMouse) :=
  reachable_sorted _
    (Reachable.step (.CREATE "M" "a" "IN" "Cage" 5)
      (Reachable.step (.CREATE "M" "b" "IN" "Cage" 5) Reachable.init rfl) rfl)
    .cageMouse

/-- C2, as stated, fails at the largest `int`: after
`CREATE M a IN Cage 2147483647`, `PERIOD` keeps the mouse, whose prior age is
above 9, stores the age -2147483648 and prints no death notice. -/
theorem period_int_max_survives :
    run State.init [.CREATE "M" "a" "IN" "Cage" 2147483647, .PERIOD] =
      .ok (⟨[], [], [], [⟨.Mouse, "a", -2147483648⟩], [], [], [], [], [], []⟩,
        ["My name is a, days lived: 2147483647"]) := by
  have h1 : step State.init (.CREATE "M" "a" "IN" "Cage" 2147483647) =
      .ok (⟨[], [], [], [⟨.Mouse, "a", 2147483647⟩], [], [], [], [], [], []⟩,
        ["My name is a, days lived: 2147483647"]) := rfl
  have h2 : step ⟨[], [], [], [⟨.Mouse, "a", 2147483647⟩], [], [], [], [], [], []⟩ .PERIOD =
      .ok (⟨[], [], [], [⟨.Mouse, "a", -2147483648⟩], [], [], [], [], [], []⟩, []) := by
    rw [step_period _ (by decide)]
    rfl
  simp only [run, h1, h2]
  rfl

/-- C2 (amended): for every container of element class `T` whose entities all
have an age below `INT_MAX` and whose Monsters have a non-negative age,
`periodUpdate` succeeds, leaves in the container a sorted permutation of the
non-Monster entities whose prior age was at most 9, each with the same class
and name and its age increased by exactly 1, and prints, in the order of the
container, the line `<name> has died of old days` once for every other
entity. -/
theorem periodUpdate_survivors (T : Cls) (cont : List Animal) (hT : WellTyped T cont)
    (hr : ∀ a ∈ cont, INT_MIN ≤ a.daysLived ∧ a.daysLived < INT_MAX)
    (hm : ∀ a ∈ cont, a.kind = .Monster → 0 ≤ a.daysLived) :
    ∃ l, Container.periodUpdate T cont =
        .ok (l, (cont.filter (fun a => ¬ (a.kind ≠ .Monster ∧ a.daysLived ≤ 9))).map
          (fun a => a.name ++ " has died of old days")) ∧
      l.Perm ((cont.filter (fun a => a.kind ≠ .Monster ∧ a.daysLived ≤ 9)).map
        (fun a => { a with daysLived := a.daysLived + 1 })) ∧
      IsSorted l := by
  have hex : ∀ a ∈ cont, a.expires = true ↔ ¬ (a.kind ≠ .Monster ∧ a.daysLived ≤ 9) :=
    fun a ha => expires_iff (hr a ha).1 (hr a ha).2 (hm a ha)
  have hf1 : cont.filter Animal.expires =
      cont.filter (fun a => ¬ (a.kind ≠ .Monster ∧ a.daysLived ≤ 9)) := by
    apply List.filter_congr
    intro a ha
    by_cases he : a.expires = true
    · rw [he]
      exact (decide_eq_true ((hex a ha).mp he)).symm
    · have he1 : a.expires = false := by simpa using he
      rw [he1]
      exact (decide_eq_false (fun h => he ((hex a ha).mpr h))).symm
  have hf2 : cont.filter (fun a => !a.expires) =
      cont.filter (fun a => a.kind ≠ .Monster ∧ a.daysLived ≤ 9) := by
    apply List.filter_congr
    intro a ha
    by_cases he : a.expires = true
    · rw [he]
      have := (hex a ha).mp he
      exact (decide_eq_false this).symm
    · have he1 : a.expires = false := by simpa using he
      rw [he1]
      have : a.kind ≠ .Monster ∧ a.daysLived ≤ 9 := by
        by_contra h
        exact he ((hex a ha).mpr h)
      exact (decide_eq_true this).symm
  have hmap : (cont.filter (fun a => a.kind ≠ .Monster ∧ a.daysLived ≤ 9)).map Animal.aged =
      (cont.filter (fun a => a.kind ≠ .Monster ∧ a.daysLived ≤ 9)).map
        (fun a => { a with daysLived := a.daysLived + 1 }) := by
    apply List.map_congr_left
    intro a ha
    have ha1 := hr a (List.mem_of_mem_filter ha)
    unfold INT_MIN INT_MAX at ha1
    unfold Animal.aged Animal.setDaysLived
    rw [wrapInt_eq (by omega) (by omega)]
  refine ⟨((cont.filter (fun a => !a.expires)).map Animal.aged).foldl Container.add [],
    ?_, ?_, foldl_add_sorted _ _ isSorted_nil⟩
  · rw [periodUpdate_eq T cont hT, hf1]
    rfl
  · rw [← hmap, ← hf2]
    simpa using foldl_add_perm ((cont.filter (fun a => !a.expires)).map Animal.aged) []

/-- Witness of C2 (amended): mice of ages 9, 10 and -3 and, in the same
vector, a Monster of age 1. -/
theorem periodUpdate_survivors_witness :
    ∃ l, Container.periodUpdate .Animal
        [⟨.Mouse, "c", -3⟩, ⟨.Monster, "m", 1⟩, ⟨.Mouse, "a", 9⟩, ⟨.Mouse, "b", 10⟩] =
        .ok (l, (([⟨.Mouse, "c", -3⟩, ⟨.Monster, "m", 1⟩, ⟨.Mouse, "a", 9⟩,
          ⟨.Mouse, "b", 10⟩] : List Animal).filter
            (fun a => ¬ (a.kind ≠ .Monster ∧ a.daysLived ≤ 9))).map
          (fun a => a.name ++ " has died of old days")) ∧
      l.Perm ((([⟨.Mouse, "c", -3⟩, ⟨.Monster, "m", 1⟩, ⟨.Mouse, "a", 9⟩,
          ⟨.Mouse, "b", 10⟩] : List Animal).filter
            (fun a => a.kind ≠ .Monster ∧ a.daysLived ≤ 9)).map
        (fun a => { a with daysLived := a.daysLived + 1 })) ∧
      IsSorted l :=
  periodUpdate_survivors .Animal
    [⟨.Mouse, "c", -3⟩, ⟨.Monster, "m", 1⟩, ⟨.Mouse, "a", 9⟩, ⟨.Mouse, "b", 10⟩]
    (by decide) (by decide) (by decide)

/-! ## Claims on APPLY_SUBSTANCE -/

theorem step_of_exec_ok {s : State} {cmd : Command} {w : World}
    (h : exec cmd ⟨s, []⟩ = .ok () w) : step s cmd = .ok (w.state, w.cout) := by
  unfold step
  rw [h]

theorem tryCatch_ok {body handler : M Unit} {w w1 : World} (h : body w = .ok () w1) :
    tryCatchOutOfRange body handler w = .ok () w1 := by
  unfold tryCatchOutOfRange
  rw [h]

theorem getAnimal_of_getElem? {l : List Animal} {pos : Int} {a : Animal} (h0 : 0 ≤ pos)
    (hlt : pos < l.length) (ha : l[pos.toNat]? = some a) :
    Container.getAnimal l pos = .ok a :=
  (getAnimal_ok_iff l pos a).mpr ⟨h0, hlt, ha⟩

theorem applyBase_effect {s : State} (hs : Inv s) {ct tc : String} {src dst : Slot}
    {b1 b2 : String} {better : Animal → Animal} {pos : Int} {a : Animal}
    (hdisp : exec (.APPLY_SUBSTANCE ct tc pos) =
      tryCatchOutOfRange (applyBase src dst b1 b2 better pos) (print "Animal not found"))
    (hsrc : ∀ x, ElemOK src x → x.getType = b1 ∧ ElemOK dst (better x))
    (hne : dst ≠ src)
    (h0 : 0 ≤ pos) (hlt : pos < (s.get src).length)
    (ha : (s.get src)[pos.toNat]? = some a) :
    ∃ s1, step s (.APPLY_SUBSTANCE ct tc pos) = .ok (s1, []) ∧
      s1.get src = (s.get src).eraseIdx pos.toNat ∧
      (s1.get dst).Perm (better a :: s.get dst) ∧ IsSorted (s1.get dst) ∧
      (∀ d, d ≠ src → d ≠ dst → s1.get d = s.get d) := by
  have hg := getAnimal_of_getElem? h0 hlt ha
  obtain ⟨ht, hb⟩ := hsrc a ((hs src).2 a (mem_of_getAnimal hg))
  have hbody := @applyBase_ok src dst b1 b2 better pos ⟨s, []⟩ a hg ht (elemOK_castsTo hb)
  have hstep := step_of_exec_ok (hdisp ▸ tryCatch_ok hbody)
  refine ⟨_, hstep, ?_, ?_, ?_, ?_⟩
  · simp only [State.get_set_ne _ _ (Ne.symm hne), State.get_set_same]
  · simp only [State.get_set_same, State.get_set_ne _ _ hne]
    exact add_perm _ _
  · simp only [State.get_set_same]
    exact add_sorted _ _
  · intro d hd1 hd2
    simp only [State.get_set_ne _ _ hd2, State.get_set_ne _ _ hd1]

theorem applyBase_claim {s : State} (hs : Inv s) {ct tc : String} {src dst : Slot}
    {b1 b2 : String} {better : Animal → Animal} {k : Kind} {pos : Int} {a : Animal}
    (hdisp : exec (.APPLY_SUBSTANCE ct tc pos) =
      tryCatchOutOfRange (applyBase src dst b1 b2 better pos) (print "Animal not found"))
    (hsrc : ∀ x, ElemOK src x → x.getType = b1 ∧ ElemOK dst (better x))
    (hne : dst ≠ src)
    (hk : ∀ x, (better x).kind = k ∧ (better x).name = x.name ∧
      (better x).daysLived = (wrapInt (x.daysLived + 1)).tdiv 2)
    (h0 : 0 ≤ pos) (hlt : pos < (s.get src).length)
    (ha : (s.get src)[pos.toNat]? = some a) :
    ∃ s1 b, step s (.APPLY_SUBSTANCE ct tc pos) = .ok (s1, []) ∧
      s1.get src = (s.get src).eraseIdx pos.toNat ∧
      b.kind = k ∧ b.name = a.name ∧
      (0 ≤ a.daysLived → a.daysLived < INT_MAX → b.daysLived = ⌈(a.daysLived : ℚ) / 2⌉) ∧
      (s1.get dst).Perm (b :: s.get dst) ∧ IsSorted (s1.get dst) ∧
      (∀ d, d ≠ src → d ≠ dst → s1.get d = s.get d) := by
  obtain ⟨s1, h1, h2, h3, h4, h5⟩ := applyBase_effect hs hdisp hsrc hne h0 hlt ha
  refine ⟨s1, better a, h1, h2, (hk a).1, (hk a).2.1, ?_, h3, h4, h5⟩
  intro hp hq
  rw [(hk a).2.2]
  exact half_up_eq_ceil hp hq

/-- C3, as stated, fails at the largest `int`: after
`CREATE M a IN Cage 2147483647`, `APPLY_SUBSTANCE Cage M 0` stores the better
mouse with age -1073741824, while half of 2147483647 rounded up is
1073741824. -/
theorem applySubstance_int_max_age :
    run State.init [.CREATE "M" "a" "IN" "Cage" 2147483647, .APPLY_SUBSTANCE "Cage" "M" 0] =
        .ok (⟨[], [], [], [], [⟨.BetterMouse, "a", -1073741824⟩], [], [], [], [], []⟩,
          ["My name is a, days lived: 2147483647"]) ∧
      ⌈((2147483647 : Int) : ℚ) / 2⌉ = 1073741824 := by
  refine ⟨rfl, ?_⟩
  rw [Int.ceil_eq_iff]
  norm_num

/-- C3 (amended): for every reachable state, `APPLY_SUBSTANCE` on a base
variant (Cage M, Cage B, Aquarium F, Aquarium M) at an in-range position
`pos` prints nothing, removes exactly the entity at `pos` from that base
container and inserts into the upgraded container of the same family and
policy one entity of the upgraded class with the same name and, for a source
age `a` with `0 ≤ a < INT_MAX`, age `⌈a / 2⌉`; the destination is a sorted
permutation of its prior contents plus that entity, and the other seven
containers are unchanged. -/
theorem applySubstance_base (s : State) (hs : Reachable s) (ct tc : String)
    (src dst : Slot) (k : Kind) (hv : (ct, tc, src, dst, k) ∈ baseVariants)
    (pos : Int) (a : Animal) (h0 : 0 ≤ pos) (hlt : pos < (s.get src).length)
    (ha : (s.get src)[pos.toNat]? = some a) :
    ∃ s1 b, step s (.APPLY_SUBSTANCE ct tc pos) = .ok (s1, []) ∧
      s1.get src = (s.get src).eraseIdx pos.toNat ∧
      b.kind = k ∧ b.name = a.name ∧
      (0 ≤ a.daysLived → a.daysLived < INT_MAX → b.daysLived = ⌈(a.daysLived : ℚ) / 2⌉) ∧
      (s1.get dst).Perm (b :: s.get dst) ∧ IsSorted (s1.get dst) ∧
      (∀ d, d ≠ src → d ≠ dst → s1.get d = s.get d) := by
  have hI := reachable_inv hs
  simp only [baseVariants, List.mem_cons, Prod.mk.injEq, List.mem_singleton,
    List.not_mem_nil, or_false] at hv
  rcases hv with h | h | h | h <;> obtain ⟨hct, htc, hsrc, hdst, hkd⟩ := h <;>
    subst hct htc hsrc hdst hkd
  · exact applyBase_claim hI rfl (elemOK_base_better .Mouse .BetterMouse
      (fun k1 h => by cases k1 <;> first | rfl | cases h) (fun _ _ => rfl)
      (fun _ => rfl) rfl (by decide)) (by decide) (fun _ => ⟨rfl, rfl, rfl⟩) h0 hlt ha
  · exact applyBase_claim hI rfl (elemOK_base_better .Bird .BetterBird
      (fun k1 h => by cases k1 <;> first | rfl | cases h) (fun _ _ => rfl)
      (fun _ => rfl) rfl (by decide)) (by decide) (fun _ => ⟨rfl, rfl, rfl⟩) h0 hlt ha
  · exact applyBase_claim hI rfl (elemOK_base_better .Fish .BetterFish
      (fun k1 h => by cases k1 <;> first | rfl | cases h) (fun _ _ => rfl)
      (fun _ => rfl) rfl (by decide)) (by decide) (fun _ => ⟨rfl, rfl, rfl⟩) h0 hlt ha
  · exact applyBase_claim hI rfl (elemOK_base_better .Mouse .BetterMouse
      (fun k1 h => by cases k1 <;> first | rfl | cases h) (fun _ _ => rfl)
      (fun _ => rfl) rfl (by decide)) (by decide) (fun _ => ⟨rfl, rfl, rfl⟩) h0 hlt ha

/-- Witness of C3 (amended): the mouse Tom of age 3, created in the cage. -/
theorem applySubstance_base_witness :
    ∃ s1 b, step ⟨[], [], [], [⟨.Mouse, "Tom", 3⟩], [], [], [], [], [], []⟩
        (.APPLY_SUBSTANCE "Cage" "M" 0) = .ok (s1, []) ∧
      s1.get .cageMouse =
        ((⟨[], [], [], [⟨.Mouse, "Tom", 3⟩], [], [], [], [], [], []⟩ : State).get
          .cageMouse).eraseIdx (0 : Int).toNat ∧
      b.kind = .BetterMouse ∧ b.name = (⟨.Mouse, "Tom", 3⟩ : Animal).name ∧
      (0 ≤ (⟨.Mouse, "Tom", 3⟩ : Animal).daysLived →
        (⟨.Mouse, "Tom", 3⟩ : Animal).daysLived < INT_MAX →
        b.daysLived = ⌈(((⟨.Mouse, "Tom", 3⟩ : Animal).daysLived : Int) : ℚ) / 2⌉) ∧
      (s1.get .cageBetterMouse).Perm
        (b :: (⟨[], [], [], [⟨.Mouse, "Tom", 3⟩], [], [], [], [], [], []⟩ : State).get
          .cageBetterMouse) ∧
      IsSorted (s1.get .cageBetterMouse) ∧
      (∀ d, d ≠ .cageMouse → d ≠ .cageBetterMouse →
        s1.get d =
          (⟨[], [], [], [⟨.Mouse, "Tom", 3⟩], [], [], [], [], [], []⟩ : State).get d) :=
  applySubstance_base ⟨[], [], [], [⟨.Mouse, "Tom", 3⟩], [], [], [], [], [], []⟩
    (Reachable.step (.CREATE "M" "Tom" "IN" "Cage" 3) Reachable.init rfl)
    "Cage" "M" .cageMouse .cageBetterMouse .BetterMouse (by decide) 0 ⟨.Mouse, "Tom", 3⟩
    (by decide) (by decide) rfl

theorem applyBetter_effect {s : State} (hs : Inv s) {ct tc : String} {c : Slot}
    {code : String} {pos : Int} {a : Animal}
    (hdisp : exec (.APPLY_SUBSTANCE ct tc pos) =
      tryCatchOutOfRange (applyBetter c code pos) (print "Animal not found"))
    (hc : ∀ x, ElemOK c x → x.getType = code) (hne : c ≠ .freedom)
    (h0 : 0 ≤ pos) (hlt : pos < (s.get c).length)
    (ha : (s.get c)[pos.toNat]? = some a) :
    ∃ s1, step s (.APPLY_SUBSTANCE ct tc pos) = .ok (s1, []) ∧
      s1.get c = [] ∧
      (s1.get .freedom).Perm (⟨.Monster, a.name, 1⟩ :: s.get .freedom) ∧
      IsSorted (s1.get .freedom) ∧
      (∀ d, d ≠ c → d ≠ .freedom → s1.get d = s.get d) := by
  have hg := getAnimal_of_getElem? h0 hlt ha
  have ht := hc a ((hs c).2 a (mem_of_getAnimal hg))
  have hbody := @applyBetter_ok c code pos ⟨s, []⟩ a hg ht hne
  have hstep := step_of_exec_ok (hdisp ▸ tryCatch_ok hbody)
  refine ⟨_, hstep, ?_, ?_, ?_, ?_⟩
  · simp only [State.get_set_ne _ _ hne, State.get_set_same]
  · simp only [State.get_set_same]
    exact add_perm _ _
  · simp only [State.get_set_same]
    exact add_sorted _ _
  · intro d hd1 hd2
    simp only [State.get_set_ne _ _ hd2, State.get_set_ne _ _ hd1]

theorem elemOK_getType {c : Slot} (k : Kind) {code : String}
    (hc : ∀ k1, c.holds k1 = true → k1 = k)
    (hcode : ∀ n d, (⟨k, n, d⟩ : Animal).getType = code) :
    ∀ x, ElemOK c x → x.getType = code := by
  rintro ⟨k1, n, d⟩ ⟨h1, _⟩
  have := hc k1 h1
  subst this
  exact hcode n d

/-- C4: for every reachable state, `APPLY_SUBSTANCE` on an upgraded variant
(Cage BM, Cage BB, Aquarium BF, Aquarium BM) at an in-range position `pos`
prints nothing, leaves that upgraded container empty, inserts into Freedom
exactly one Monster with the name of the targeted entity and age 1 whatever
the source age (Freedom becomes a sorted permutation of its prior contents
plus that Monster), and leaves the other seven containers unchanged. -/
theorem applySubstance_better (s : State) (hs : Reachable s) (ct tc : String)
    (c base : Slot) (k : Kind) (hv : (ct, tc, c, base, k) ∈ betterVariants)
    (pos : Int) (a : Animal) (h0 : 0 ≤ pos) (hlt : pos < (s.get c).length)
    (ha : (s.get c)[pos.toNat]? = some a) :
    ∃ s1, step s (.APPLY_SUBSTANCE ct tc pos) = .ok (s1, []) ∧
      s1.get c = [] ∧
      (s1.get .freedom).Perm (⟨.Monster, a.name, 1⟩ :: s.get .freedom) ∧
      IsSorted (s1.get .freedom) ∧
      (∀ d, d ≠ c → d ≠ .freedom → s1.get d = s.get d) := by
  have hI := reachable_inv hs
  simp only [betterVariants, List.mem_cons, Prod.mk.injEq, List.mem_singleton,
    List.not_mem_nil, or_false] at hv
  rcases hv with h | h | h | h <;> obtain ⟨hct, htc, hsrc, hdst, hkd⟩ := h <;>
    subst hct htc hsrc hdst hkd
  · exact applyBetter_effect hI rfl (elemOK_getType .BetterMouse
      (fun k1 h => by cases k1 <;> first | rfl | cases h) (fun _ _ => rfl))
      (by decide) h0 hlt ha
  · exact applyBetter_effect hI rfl (elemOK_getType .BetterBird
      (fun k1 h => by cases k1 <;> first | rfl | cases h) (fun _ _ => rfl))
      (by decide) h0 hlt ha
  · exact applyBetter_effect hI rfl (elemOK_getType .BetterFish
      (fun k1 h => by cases k1 <;> first | rfl | cases h) (fun _ _ => rfl))
      (by decide) h0 hlt ha
  · exact applyBetter_effect hI rfl (elemOK_getType .BetterMouse
      (fun k1 h => by cases k1 <;> first | rfl | cases h) (fun _ _ => rfl))
      (by decide) h0 hlt ha

/-- Witness of C4: two better mice created in the cage, the one of age 7 at
position 1 is targeted. -/
theorem applySubstance_better_witness :
    ∃ s1, step ⟨[], [], [], [], [⟨.BetterMouse, "a", 2⟩, ⟨.BetterMouse, "b", 7⟩],
          [], [], [], [], []⟩ (.APPLY_SUBSTANCE "Cage" "BM" 1) = .ok (s1, []) ∧
      s1.get .cageBetterMouse = [] ∧
      (s1.get .freedom).Perm (⟨.Monster, (⟨.BetterMouse, "b", 7⟩ : Animal).name, 1⟩ ::
        (⟨[], [], [], [], [⟨.BetterMouse, "a", 2⟩, ⟨.BetterMouse, "b", 7⟩],
          [], [], [], [], []⟩ : State).get .freedom) ∧
      IsSorted (s1.get .freedom) ∧
      (∀ d, d ≠ .cageBetterMouse → d ≠ .freedom → s1.get d =
        (⟨[], [], [], [], [⟨.BetterMouse, "a", 2⟩, ⟨.BetterMouse, "b", 7⟩],
          [], [], [], [], []⟩ : State).get d) :=
  applySubstance_better
    ⟨[], [], [], [], [⟨.BetterMouse, "a", 2⟩, ⟨.BetterMouse, "b", 7⟩], [], [], [], [], []⟩
    (Reachable.step (.CREATE "BM" "b" "IN" "Cage" 7)
      (Reachable.step (.CREATE "BM" "a" "IN" "Cage" 2) Reachable.init rfl) rfl)
    "Cage" "BM" .cageBetterMouse .cageMouse .Mouse (by decide) 1 ⟨.BetterMouse, "b", 7⟩
    (by decide) (by decide) rfl

/-! ## Claims on REMOVE_SUBSTANCE -/

theorem removeBetter_effect (s : State) {ct tc : String} {src dst : Slot} {k : Kind}
    {pos : Int} {a : Animal}
    (hdisp : exec (.REMOVE_SUBSTANCE ct tc pos) =
      tryCatchOutOfRange (removeBetter src dst k pos) (print "Animal not found"))
    (hk : k.castsTo dst.cls = true) (hne : dst ≠ src)
    (h0 : 0 ≤ pos) (hlt : pos < (s.get src).length)
    (ha : (s.get src)[pos.toNat]? = some a) :
    ∃ s1 b, step s (.REMOVE_SUBSTANCE ct tc pos) = .ok (s1, []) ∧
      s1.get src = (s.get src).eraseIdx pos.toNat ∧
      b = ⟨k, a.name, wrapInt (a.daysLived * 2)⟩ ∧
      (s1.get dst).Perm (b :: s.get dst) ∧ IsSorted (s1.get dst) ∧
      (∀ d, d ≠ src → d ≠ dst → s1.get d = s.get d) := by
  have hg := getAnimal_of_getElem? h0 hlt ha
  have hbody := @removeBetter_ok src dst k pos ⟨s, []⟩ a hg hk
  have hstep := step_of_exec_ok (hdisp ▸ tryCatch_ok hbody)
  refine ⟨_, _, hstep, ?_, rfl, ?_, ?_, ?_⟩
  · simp only [State.get_set_ne _ _ (Ne.symm hne), State.get_set_same]
  · simp only [State.get_set_same, State.get_set_ne _ _ hne]
    exact add_perm _ _
  · simp only [State.get_set_same]
    exact add_sorted _ _
  · intro d hd1 hd2
    simp only [State.get_set_ne _ _ hd2, State.get_set_ne _ _ hd1]

/-- C5, as stated, fails where twice the age is no `int`: after
`CREATE BM a IN Cage 1073741824`, `REMOVE_SUBSTANCE Cage BM 0` stores the mouse
with age -2147483648, while twice the old age is 2147483648. -/
theorem removeSubstance_doubling_wraps :
    run State.init
        [.CREATE "BM" "a" "IN" "Cage" 1073741824, .REMOVE_SUBSTANCE "Cage" "BM" 0] =
      .ok (⟨[], [], [], [⟨.Mouse, "a", -2147483648⟩], [], [], [], [], [], []⟩,
        ["My name is a, days lived: 1073741824"]) ∧
      (2 : Int) * 1073741824 ≠ -2147483648 :=
  ⟨rfl, by decide⟩

/-- C5 (amended): for every state, `REMOVE_SUBSTANCE` on an upgraded variant
(Cage BM, Cage BB, Aquarium BF, Aquarium BM) at an in-range position `pos`
prints nothing, removes exactly the entity at `pos` from the upgraded
container and inserts into the base container of the same policy one entity
of the base class with the same name and, when twice the old age is within
`INT_MIN .. INT_MAX`, age equal to twice the old age; the base container is a
sorted permutation of its prior contents plus that entity, and the other
seven containers are unchanged. -/
theorem removeSubstance_better (s : State) (ct tc : String) (c base : Slot) (k : Kind)
    (hv : (ct, tc, c, base, k) ∈ betterVariants)
    (pos : Int) (a : Animal) (h0 : 0 ≤ pos) (hlt : pos < (s.get c).length)
    (ha : (s.get c)[pos.toNat]? = some a) :
    ∃ s1 b, step s (.REMOVE_SUBSTANCE ct tc pos) = .ok (s1, []) ∧
      s1.get c = (s.get c).eraseIdx pos.toNat ∧
      b.kind = k ∧ b.name = a.name ∧
      (INT_MIN ≤ 2 * a.daysLived → 2 * a.daysLived ≤ INT_MAX →
        b.daysLived = 2 * a.daysLived) ∧
      (s1.get base).Perm (b :: s.get base) ∧ IsSorted (s1.get base) ∧
      (∀ d, d ≠ c → d ≠ base → s1.get d = s.get d) := by
  have key : ∀ {src dst : Slot},
      exec (.REMOVE_SUBSTANCE ct tc pos) =
        tryCatchOutOfRange (removeBetter src dst k pos) (print "Animal not found") →
      k.castsTo dst.cls = true → dst ≠ src → pos < (s.get src).length →
      (s.get src)[pos.toNat]? = some a →
      ∃ s1 b, step s (.REMOVE_SUBSTANCE ct tc pos) = .ok (s1, []) ∧
        s1.get src = (s.get src).eraseIdx pos.toNat ∧
        b.kind = k ∧ b.name = a.name ∧
        (INT_MIN ≤ 2 * a.daysLived → 2 * a.daysLived ≤ INT_MAX →
          b.daysLived = 2 * a.daysLived) ∧
        (s1.get dst).Perm (b :: s.get dst) ∧ IsSorted (s1.get dst) ∧
        (∀ d, d ≠ src → d ≠ dst → s1.get d = s.get d) := by
    intro src dst hdisp hk hne hlt1 ha1
    obtain ⟨s1, b, h1, h2, h3, h4, h5, h6⟩ := removeBetter_effect s hdisp hk hne h0 hlt1 ha1
    refine ⟨s1, b, h1, h2, by rw [h3], by rw [h3], ?_, h4, h5, h6⟩
    intro hlo hhi
    unfold INT_MIN at hlo
    unfold INT_MAX at hhi
    rw [h3]
    show wrapInt (a.daysLived * 2) = 2 * a.daysLived
    rw [wrapInt_eq (by omega) (by omega)]
    omega
  simp only [betterVariants, List.mem_cons, Prod.mk.injEq, List.mem_singleton,
    List.not_mem_nil, or_false] at hv
  rcases hv with h | h | h | h <;> obtain ⟨hct, htc, hsrc, hdst, hkd⟩ := h <;>
    subst hct htc hsrc hdst hkd
  · exact key rfl rfl (by decide) hlt ha
  · exact key rfl rfl (by decide) hlt ha
  · exact key rfl rfl (by decide) hlt ha
  · exact key rfl rfl (by decide) hlt ha

/-- Witness of C5 (amended): a BetterFish of age 4 at position 0 of the
aquarium becomes a Fish of age 8. -/
theorem removeSubstance_better_witness :
    ∃ s1 b, step ⟨[], [], [], [], [], [], [⟨.BetterFish, "f", 4⟩], [], [], []⟩
        (.REMOVE_SUBSTANCE "Aquarium" "BF" 0) = .ok (s1, []) ∧
      s1.get .aquariumBetterFish =
        ((⟨[], [], [], [], [], [], [⟨.BetterFish, "f", 4⟩], [], [], []⟩ : State).get
          .aquariumBetterFish).eraseIdx (0 : Int).toNat ∧
      b.kind = .Fish ∧ b.name = (⟨.BetterFish, "f", 4⟩ : Animal).name ∧
      (INT_MIN ≤ 2 * (⟨.BetterFish, "f", 4⟩ : Animal).daysLived →
        2 * (⟨.BetterFish, "f", 4⟩ : Animal).daysLived ≤ INT_MAX →
        b.daysLived = 2 * (⟨.BetterFish, "f", 4⟩ : Animal).daysLived) ∧
      (s1.get .aquariumFish).Perm
        (b :: (⟨[], [], [], [], [], [], [⟨.BetterFish, "f", 4⟩], [], [], []⟩ : State).get
          .aquariumFish) ∧
      IsSorted (s1.get .aquariumFish) ∧
      (∀ d, d ≠ .aquariumBetterFish → d ≠ .aquariumFish → s1.get d =
        (⟨[], [], [], [], [], [], [⟨.BetterFish, "f", 4⟩], [], [], []⟩ : State).get d) :=
  removeSubstance_better ⟨[], [], [], [], [], [], [⟨.BetterFish, "f", 4⟩], [], [], []⟩
    "Aquarium" "BF" .aquariumBetterFish .aquariumFish .Fish (by decide) 0
    ⟨.BetterFish, "f", 4⟩ (by decide) (by decide) rfl

/-! ## Claim on ATTACK -/

theorem attackIn_effect (s : State) {ct tc : String} {c : Slot} {pos1 pos2 : Int}
    (hdisp : exec (.ATTACK ct tc pos1 pos2) =
      if pos1 = pos2 then pure ()
      else tryCatchOutOfRange (attackIn c pos1 pos2) (print "Animal not found"))
    (hne : pos1 ≠ pos2)
    (h1 : 0 ≤ pos1 ∧ pos1 < (s.get c).length) (h2 : 0 ≤ pos2 ∧ pos2 < (s.get c).length) :
    ∃ att s1, (s.get c)[pos1.toNat]? = some att ∧
      step s (.ATTACK ct tc pos1 pos2) = .ok (s1, [att.attackLine]) ∧
      s1.get c = (s.get c).eraseIdx pos2.toNat ∧
      (s1.get c).length + 1 = (s.get c).length ∧
      (∀ j, j < pos2.toNat → (s1.get c)[j]? = (s.get c)[j]?) ∧
      (∀ j, pos2.toNat ≤ j → (s1.get c)[j]? = (s.get c)[j + 1]?) ∧
      (∀ d, d ≠ c → s1.get d = s.get d) := by
  have hl1 : pos1.toNat < (s.get c).length := by omega
  have hl2 : pos2.toNat < (s.get c).length := by omega
  have hg1 := getAnimal_of_lt (s.get c) pos1 h1.1 hl1
  have hg2 := getAnimal_of_lt (s.get c) pos2 h2.1 hl2
  have hbody := @attackIn_ok c pos1 pos2 ⟨s, []⟩ _ _ hg1 hg2
  have hd : exec (.ATTACK ct tc pos1 pos2) =
      tryCatchOutOfRange (attackIn c pos1 pos2) (print "Animal not found") := by
    rw [hdisp, if_neg hne]
  have hstep := step_of_exec_ok (hd ▸ tryCatch_ok hbody)
  refine ⟨_, _, ?_, hstep, ?_, ?_, ?_, ?_, ?_⟩
  · rw [List.getElem?_eq_getElem hl1, List.get_eq_getElem]
  · simp only [State.get_set_same]
  · simp only [State.get_set_same, List.length_eraseIdx, hl2, if_true]
    omega
  · intro j hj
    simp only [State.get_set_same, List.getElem?_eraseIdx, hj, if_true]
  · intro j hj
    have : ¬ j < pos2.toNat := by omega
    simp only [State.get_set_same, List.getElem?_eraseIdx, this, if_false]
  · intro d hd
    simp only [State.get_set_ne _ _ hd]

/-- C6: for every state, every Cage or Aquarium container `c` addressed with
its container kind and variant code, and every two distinct in-range
positions `pos1` and `pos2`, `ATTACK` prints the attack line of the entity at
`pos1` and leaves in `c` the prior sequence with index `pos2` deleted: the
size drops by exactly 1, the entries before `pos2` stay and the entries after
it move down by one, each with its class, name and age, and all other
containers are unchanged. -/
theorem attack_removes_defender (s : State) (ct tc : String) (c : Slot)
    (hv : (ct, tc, c) ∈ typedContainers) (pos1 pos2 : Int) (hne : pos1 ≠ pos2)
    (h1 : 0 ≤ pos1 ∧ pos1 < (s.get c).length) (h2 : 0 ≤ pos2 ∧ pos2 < (s.get c).length) :
    ∃ att s1, (s.get c)[pos1.toNat]? = some att ∧
      step s (.ATTACK ct tc pos1 pos2) = .ok (s1, [att.attackLine]) ∧
      s1.get c = (s.get c).eraseIdx pos2.toNat ∧
      (s1.get c).length + 1 = (s.get c).length ∧
      (∀ j, j < pos2.toNat → (s1.get c)[j]? = (s.get c)[j]?) ∧
      (∀ j, pos2.toNat ≤ j → (s1.get c)[j]? = (s.get c)[j + 1]?) ∧
      (∀ d, d ≠ c → s1.get d = s.get d) := by
  simp only [typedContainers, List.mem_cons, Prod.mk.injEq, List.mem_singleton,
    List.not_mem_nil, or_false] at hv
  rcases hv with h | h | h | h | h | h | h | h
  all_goals
    obtain ⟨hct, htc, hc⟩ := h
    subst hct htc hc
    exact attackIn_effect s rfl hne h1 h2

/-- Witness of C6: two mice of ages 2 and 5 in the cage and
`ATTACK Cage M 0 1`. -/
theorem attack_removes_defender_witness :
    ∃ att s1,
      ((⟨[], [], [], [⟨.Mouse, "a", 2⟩, ⟨.Mouse, "b", 5⟩], [], [], [], [], [], []⟩ :
        State).get .cageMouse)[(0 : Int).toNat]? = some att ∧
      step ⟨[], [], [], [⟨.Mouse, "a", 2⟩, ⟨.Mouse, "b", 5⟩], [], [], [], [], [], []⟩
        (.ATTACK "Cage" "M" 0 1) = .ok (s1, [att.attackLine]) ∧
      s1.get .cageMouse =
        ((⟨[], [], [], [⟨.Mouse, "a", 2⟩, ⟨.Mouse, "b", 5⟩], [], [], [], [], [], []⟩ :
          State).get .cageMouse).eraseIdx (1 : Int).toNat ∧
      (s1.get .cageMouse).length + 1 =
        ((⟨[], [], [], [⟨.Mouse, "a", 2⟩, ⟨.Mouse, "b", 5⟩], [], [], [], [], [], []⟩ :
          State).get .cageMouse).length ∧
      (∀ j, j < (1 : Int).toNat → (s1.get .cageMouse)[j]? =
        ((⟨[], [], [], [⟨.Mouse, "a", 2⟩, ⟨.Mouse, "b", 5⟩], [], [], [], [], [], []⟩ :
          State).get .cageMouse)[j]?) ∧
      (∀ j, (1 : Int).toNat ≤ j → (s1.get .cageMouse)[j]? =
        ((⟨[], [], [], [⟨.Mouse, "a", 2⟩, ⟨.Mouse, "b", 5⟩], [], [], [], [], [], []⟩ :
          State).get .cageMouse)[j + 1]?) ∧
      (∀ d, d ≠ .cageMouse → s1.get d =
        (⟨[], [], [], [⟨.Mouse, "a", 2⟩, ⟨.Mouse, "b", 5⟩], [], [], [], [], [], []⟩ :
          State).get d) :=
  attack_removes_defender
    ⟨[], [], [], [⟨.Mouse, "a", 2⟩, ⟨.Mouse, "b", 5⟩], [], [], [], [], [], []⟩
    "Cage" "M" .cageMouse (by decide) 0 1 (by decide) (by decide) (by decide)

/-! ## Claim on the Monster -/

theorem periodState_get (s : State) (c : Slot) :
    (periodState s).get c = (periodClosed (s.get c)).1 := by
  cases c <;> rfl

theorem periodClosed_lines {c : Slot} {l : List Animal} (h : ∀ a ∈ l, ElemOK c a) :
    (periodClosed l).2 = deathNotices l := by
  unfold periodClosed deathNotices
  simp only
  have hf : l.filter Animal.expires =
      l.filter (fun a => a.kind = .Monster ∨ wrapInt (a.daysLived + 1) > 10) := by
    apply List.filter_congr
    intro a ha
    have hm := (h a ha).2
    by_cases hk : a.kind = .Monster
    · rw [monster_expires hk (hm hk)]
      exact (decide_eq_true (Or.inl hk)).symm
    · have ht : a.getType ≠ "MON" := by
        unfold Animal.getType
        cases hq : a.kind <;> first | exact absurd hq hk | decide
      unfold Animal.expires
      simp only [ht, false_and, false_or, hk]
  rw [hf]
  rfl

theorem periodClosed_no_monster {c : Slot} {l : List Animal} (h : ∀ a ∈ l, ElemOK c a) :
    ∀ b ∈ (periodClosed l).1, b.kind ≠ .Monster := by
  intro b hb hk
  unfold periodClosed at hb
  simp only at hb
  have hb1 := (foldl_add_perm _ []).mem_iff.mp hb
  rw [List.nil_append, List.mem_map] at hb1
  obtain ⟨a, ha, rfl⟩ := hb1
  rw [List.mem_filter] at ha
  have hk1 : a.kind = .Monster := hk
  rw [monster_expires hk1 ((h a ha.1).2 hk1)] at ha
  exact absurd ha.2 (by decide)

/-- C7: in every reachable state every Monster is in Freedom and has age
exactly 1; `PERIOD` then succeeds, prints for each container in turn one
death notice for every entity that is a Monster or whose incremented age
exceeds 10 (so exactly one notice for each Monster, whose incremented age 2
does not exceed 10), and leaves no Monster in any container. -/
theorem monster_dies_on_first_period (s : State) (hs : Reachable s) :
    (∀ c a, a ∈ s.get c → a.kind = .Monster → c = .freedom ∧ a.daysLived = 1) ∧
    ∃ s1, step s .PERIOD =
        .ok (s1, deathNotices s.cageBird ++ deathNotices s.cageBetterBird ++
          deathNotices s.cageMouse ++ deathNotices s.cageBetterMouse ++
          deathNotices s.aquariumFish ++ deathNotices s.aquariumBetterFish ++
          deathNotices s.aquariumMouse ++ deathNotices s.aquariumBetterMouse ++
          deathNotices s.freedom) ∧
      (∀ c a, a ∈ s1.get c → a.kind ≠ .Monster) := by
  have hI := reachable_inv hs
  constructor
  · intro c a ha hk
    have hok := (hI c).2 a ha
    refine ⟨?_, hok.2 hk⟩
    have h1 := hok.1
    rw [hk] at h1
    cases c <;> first | rfl | cases h1
  · refine ⟨periodState s, ?_, ?_⟩
    · rw [step_period s (inv_wellTyped hI)]
      unfold periodOut
      rw [periodClosed_lines (c := .cageBird) (l := s.cageBird) (hI .cageBird).2,
        periodClosed_lines (c := .cageBetterBird) (l := s.cageBetterBird)
          (hI .cageBetterBird).2,
        periodClosed_lines (c := .cageMouse) (l := s.cageMouse) (hI .cageMouse).2,
        periodClosed_lines (c := .cageBetterMouse) (l := s.cageBetterMouse)
          (hI .cageBetterMouse).2,
        periodClosed_lines (c := .aquariumFish) (l := s.aquariumFish) (hI .aquariumFish).2,
        periodClosed_lines (c := .aquariumBetterFish) (l := s.aquariumBetterFish)
          (hI .aquariumBetterFish).2,
        periodClosed_lines (c := .aquariumMouse) (l := s.aquariumMouse)
          (hI .aquariumMouse).2,
        periodClosed_lines (c := .aquariumBetterMouse) (l := s.aquariumBetterMouse)
          (hI .aquariumBetterMouse).2,
        periodClosed_lines (c := .freedom) (l := s.freedom) (hI .freedom).2]
    · intro c a ha
      rw [periodState_get] at ha
      exact periodClosed_no_monster (hI c).2 a ha

theorem step_fuse_tom :
    step ⟨[], [], [], [], [⟨.BetterMouse, "Tom", 2⟩], [], [], [], [], []⟩
        (.APPLY_SUBSTANCE "Cage" "BM" 0) =
      .ok (⟨[], [], [], [], [], [], [], [], [], [⟨.Monster, "Tom", 1⟩]⟩, []) := by
  have h : exec (.APPLY_SUBSTANCE "Cage" "BM" 0)
      ⟨⟨[], [], [], [], [⟨.BetterMouse, "Tom", 2⟩], [], [], [], [], []⟩, []⟩ =
      .ok () ⟨⟨[], [], [], [], [], [], [], [], [], [⟨.Monster, "Tom", 1⟩]⟩, []⟩ :=
    @tryCatch_ok (applyBetter .cageBetterMouse "BM" 0) (print "Animal not found") _ _
      (@applyBetter_ok .cageBetterMouse "BM" 0
        ⟨⟨[], [], [], [], [⟨.BetterMouse, "Tom", 2⟩], [], [], [], [], []⟩, []⟩
        ⟨.BetterMouse, "Tom", 2⟩ rfl rfl (by decide))
  exact step_of_exec_ok h

/-- Witness of C7: the state with the Monster Tom in Freedom, reached by
`CREATE BM Tom IN Cage 2` and `APPLY_SUBSTANCE Cage BM 0`. -/
theorem monster_dies_on_first_period_witness :
    (∀ c a, a ∈ (⟨[], [], [], [], [], [], [], [], [], [⟨.Monster, "Tom", 1⟩]⟩ : State).get c →
      a.kind = .Monster → c = .freedom ∧ a.daysLived = 1) ∧
    ∃ s1, step ⟨[], [], [], [], [], [], [], [], [], [⟨.Monster, "Tom", 1⟩]⟩ .PERIOD =
        .ok (s1, deathNotices [] ++ deathNotices [] ++ deathNotices [] ++ deathNotices [] ++
          deathNotices [] ++ deathNotices [] ++ deathNotices [] ++ deathNotices [] ++
          deathNotices [⟨.Monster, "Tom", 1⟩]) ∧
      (∀ c a, a ∈ s1.get c → a.kind ≠ .Monster) :=
  monster_dies_on_first_period ⟨[], [], [], [], [], [], [], [], [], [⟨.Monster, "Tom", 1⟩]⟩
    (Reachable.step (.APPLY_SUBSTANCE "Cage" "BM" 0)
      (Reachable.step (.CREATE "BM" "Tom" "IN" "Cage" 2) Reachable.init rfl)
      step_fuse_tom)

/-! ## Claim on the round trip -/

theorem roundtrip_effect {s : State} (hs : Inv s) {ct tc ct2 tc2 : String}
    {src dst : Slot} {b1 b2 : String} {better : Animal → Animal} {bk : Kind}
    {pos : Int} {a : Animal}
    (hdisp1 : exec (.APPLY_SUBSTANCE ct tc pos) =
      tryCatchOutOfRange (applyBase src dst b1 b2 better pos) (print "Animal not found"))
    (hdisp2 : ∀ q, exec (.REMOVE_SUBSTANCE ct2 tc2 q) =
      tryCatchOutOfRange (removeBetter dst src bk q) (print "Animal not found"))
    (hsrc : ∀ x, ElemOK src x → x.getType = b1 ∧ ElemOK dst (better x))
    (hkind : ∀ x, ElemOK src x → x.kind = bk)
    (hne : dst ≠ src)
    (hk : ∀ x, (better x).name = x.name ∧
      (better x).daysLived = (wrapInt (x.daysLived + 1)).tdiv 2)
    (hbk : bk.castsTo src.cls = true)
    (h0 : 0 ≤ pos) (hlt : pos < (s.get src).length)
    (ha : (s.get src)[pos.toNat]? = some a)
    (hage0 : 0 ≤ a.daysLived) (hage1 : a.daysLived < INT_MAX) :
    ∃ s1 b, step s (.APPLY_SUBSTANCE ct tc pos) = .ok (s1, []) ∧
      b ∈ s1.get dst ∧ b.name = a.name ∧ b.daysLived = ⌈(a.daysLived : ℚ) / 2⌉ ∧
      ∀ q : Int, 0 ≤ q → q < (s1.get dst).length → (s1.get dst)[q.toNat]? = some b →
        ∃ s2 r, step s1 (.REMOVE_SUBSTANCE ct2 tc2 q) = .ok (s2, []) ∧
          r.kind = a.kind ∧ r.name = a.name ∧
          r.daysLived = 2 * ⌈(a.daysLived : ℚ) / 2⌉ ∧
          (s2.get src).Perm (r :: (s.get src).eraseIdx pos.toNat) ∧
          a.daysLived ≤ r.daysLived ∧
          (r.daysLived ≠ a.daysLived ↔ a.daysLived % 2 = 1) := by
  obtain ⟨s1, h1, h2, h3, _, _⟩ := applyBase_effect hs hdisp1 hsrc hne h0 hlt ha
  have hceil := half_up_eq_ceil hage0 hage1
  have hka : a.kind = bk :=
    hkind a ((hs src).2 a (List.getElem?_mem ha))
  refine ⟨s1, better a, h1, h3.mem_iff.mpr (List.mem_cons_self _ _), (hk a).1, ?_, ?_⟩
  · rw [(hk a).2]
    exact hceil
  · intro q hq0 hqlt hqa
    obtain ⟨s2, r, g1, _, g3, g4, _, _⟩ :=
      removeBetter_effect s1 (hdisp2 q) hbk (Ne.symm hne) hq0 hqlt hqa
    have hd : r.daysLived = 2 * ((a.daysLived + 1) / 2) := by
      rw [g3]
      show wrapInt ((better a).daysLived * 2) = _
      rw [(hk a).2]
      unfold INT_MAX at hage1
      have e1 : wrapInt (a.daysLived + 1) = a.daysLived + 1 :=
        wrapInt_eq (by omega) (by omega)
      have e2 : (a.daysLived + 1).tdiv 2 = (a.daysLived + 1) / 2 :=
        Int.tdiv_eq_ediv (by omega) (by omega)
      rw [e1, e2, wrapInt_eq (by omega) (by omega)]
      omega
    have hc : ⌈(a.daysLived : ℚ) / 2⌉ = (a.daysLived + 1) / 2 := by
      rw [← hceil]
      unfold INT_MAX at hage1
      rw [wrapInt_eq (by omega) (by omega), Int.tdiv_eq_ediv (by omega) (by omega)]
    refine ⟨s2, r, g1, ?_, ?_, ?_, ?_, ?_, ?_⟩
    · rw [g3, hka]
    · rw [g3]
      exact (hk a).1
    · rw [hd, hc]
    · rw [← h2]
      exact g4
    · rw [hd]
      omega
    · rw [hd]
      omega

/-- C8, as stated, fails at the largest `int`: after
`CREATE M a IN Cage 2147483647`, `APPLY_SUBSTANCE Cage M 0` and then
`REMOVE_SUBSTANCE Cage BM 0` put the mouse back with age -2147483648, which is
below the age 2147483647 it started with. -/
theorem roundtrip_int_max_age :
    run State.init [.CREATE "M" "a" "IN" "Cage" 2147483647,
        .APPLY_SUBSTANCE "Cage" "M" 0, .REMOVE_SUBSTANCE "Cage" "BM" 0] =
      .ok (⟨[], [], [], [⟨.Mouse, "a", -2147483648⟩], [], [], [], [], [], []⟩,
        ["My name is a, days lived: 2147483647"]) ∧
      ¬ ((2147483647 : Int) ≤ -2147483648) :=
  ⟨rfl, by decide⟩

/-- C8 (amended): for every reachable state and every base entity of age `a`
with `0 ≤ a < INT_MAX` stored at an in-range position of a Cage or Aquarium
base container, `APPLY_SUBSTANCE` on it puts an entity `b` of the same name
and age `⌈a / 2⌉` into the upgraded container, and `REMOVE_SUBSTANCE` on `b`,
at whatever position `q` it is stored, puts into the original base container
an entity of the same class and name with age `2 * ⌈a / 2⌉`, which is at
least `a` and differs from `a` exactly when `a` is odd. -/
theorem upgrade_then_downgrade (s : State) (hs : Reachable s) (ct tc : String)
    (src dst : Slot) (k : Kind) (hv : (ct, tc, src, dst, k) ∈ baseVariants)
    (ct2 tc2 : String) (bk : Kind) (hv2 : (ct2, tc2, dst, src, bk) ∈ betterVariants)
    (pos : Int) (a : Animal) (h0 : 0 ≤ pos) (hlt : pos < (s.get src).length)
    (ha : (s.get src)[pos.toNat]? = some a)
    (hage0 : 0 ≤ a.daysLived) (hage1 : a.daysLived < INT_MAX) :
    ∃ s1 b, step s (.APPLY_SUBSTANCE ct tc pos) = .ok (s1, []) ∧
      b ∈ s1.get dst ∧ b.name = a.name ∧ b.daysLived = ⌈(a.daysLived : ℚ) / 2⌉ ∧
      ∀ q : Int, 0 ≤ q → q < (s1.get dst).length → (s1.get dst)[q.toNat]? = some b →
        ∃ s2 r, step s1 (.REMOVE_SUBSTANCE ct2 tc2 q) = .ok (s2, []) ∧
          r.kind = a.kind ∧ r.name = a.name ∧
          r.daysLived = 2 * ⌈(a.daysLived : ℚ) / 2⌉ ∧
          (s2.get src).Perm (r :: (s.get src).eraseIdx pos.toNat) ∧
          a.daysLived ≤ r.daysLived ∧
          (r.daysLived ≠ a.daysLived ↔ a.daysLived % 2 = 1) := by
  have hI := reachable_inv hs
  have hkind : ∀ (c : Slot) (k0 : Kind), (∀ k1, c.holds k1 = true → k1 = k0) →
      ∀ x, ElemOK c x → x.kind = k0 := fun c k0 h x hx => h x.kind hx.1
  simp only [baseVariants, List.mem_cons, Prod.mk.injEq, List.mem_singleton,
    List.not_mem_nil, or_false] at hv
  rcases hv with h | h | h | h <;> obtain ⟨hct, htc, hsrc, hdst, hkd⟩ := h <;>
    subst hct htc hsrc hdst hkd
  · simp [betterVariants] at hv2
    obtain ⟨rfl, rfl, rfl⟩ := hv2
    exact roundtrip_effect hI rfl (fun _ => rfl) (elemOK_base_better .Mouse .BetterMouse
      (fun k1 h => by cases k1 <;> first | rfl | cases h) (fun _ _ => rfl)
      (fun _ => rfl) rfl (by decide))
      (hkind _ _ (fun k1 h => by cases k1 <;> first | rfl | cases h))
      (by decide) (fun _ => ⟨rfl, rfl⟩) rfl h0 hlt ha hage0 hage1
  · simp [betterVariants] at hv2
    obtain ⟨rfl, rfl, rfl⟩ := hv2
    exact roundtrip_effect hI rfl (fun _ => rfl) (elemOK_base_better .Bird .BetterBird
      (fun k1 h => by cases k1 <;> first | rfl | cases h) (fun _ _ => rfl)
      (fun _ => rfl) rfl (by decide))
      (hkind _ _ (fun k1 h => by cases k1 <;> first | rfl | cases h))
      (by decide) (fun _ => ⟨rfl, rfl⟩) rfl h0 hlt ha hage0 hage1
  · simp [betterVariants] at hv2
    obtain ⟨rfl, rfl, rfl⟩ := hv2
    exact roundtrip_effect hI rfl (fun _ => rfl) (elemOK_base_better .Fish .BetterFish
      (fun k1 h => by cases k1 <;> first | rfl | cases h) (fun _ _ => rfl)
      (fun _ => rfl) rfl (by decide))
      (hkind _ _ (fun k1 h => by cases k1 <;> first | rfl | cases h))
      (by decide) (fun _ => ⟨rfl, rfl⟩) rfl h0 hlt ha hage0 hage1
  · simp [betterVariants] at hv2
    obtain ⟨rfl, rfl, rfl⟩ := hv2
    exact roundtrip_effect hI rfl (fun _ => rfl) (elemOK_base_better .Mouse .BetterMouse
      (fun k1 h => by cases k1 <;> first | rfl | cases h) (fun _ _ => rfl)
      (fun _ => rfl) rfl (by decide))
      (hkind _ _ (fun k1 h => by cases k1 <;> first | rfl | cases h))
      (by decide) (fun _ => ⟨rfl, rfl⟩) rfl h0 hlt ha hage0 hage1

/-- Witness of C8 (amended): the mouse of age 7 created in the cage, whose
age goes 7, 4, 8. -/
theorem upgrade_then_downgrade_witness :
    ∃ s1 b,
      step ⟨[], [], [], [⟨.Mouse, "x", 7⟩], [], [], [], [], [], []⟩
        (.APPLY_SUBSTANCE "Cage" "M" 0) = .ok (s1, []) ∧
      b ∈ s1.get .cageBetterMouse ∧ b.name = (⟨.Mouse, "x", 7⟩ : Animal).name ∧
      b.daysLived = ⌈((⟨.Mouse, "x", 7⟩ : Animal).daysLived : ℚ) / 2⌉ ∧
      ∀ q : Int, 0 ≤ q → q < (s1.get .cageBetterMouse).length →
        (s1.get .cageBetterMouse)[q.toNat]? = some b →
        ∃ s2 r, step s1 (.REMOVE_SUBSTANCE "Cage" "BM" q) = .ok (s2, []) ∧
          r.kind = (⟨.Mouse, "x", 7⟩ : Animal).kind ∧
          r.name = (⟨.Mouse, "x", 7⟩ : Animal).name ∧
          r.daysLived = 2 * ⌈((⟨.Mouse, "x", 7⟩ : Animal).daysLived : ℚ) / 2⌉ ∧
          (s2.get .cageMouse).Perm
            (r :: ((⟨[], [], [], [⟨.Mouse, "x", 7⟩], [], [], [], [], [], []⟩ :
              State).get .cageMouse).eraseIdx (0 : Int).toNat) ∧
          (⟨.Mouse, "x", 7⟩ : Animal).daysLived ≤ r.daysLived ∧
          (r.daysLived ≠ (⟨.Mouse, "x", 7⟩ : Animal).daysLived ↔
            (⟨.Mouse, "x", 7⟩ : Animal).daysLived % 2 = 1) :=
  upgrade_then_downgrade ⟨[], [], [], [⟨.Mouse, "x", 7⟩], [], [], [], [], [], []⟩
    (Reachable.step (.CREATE "M" "x" "IN" "Cage" 7) Reachable.init rfl)
    "Cage" "M" .cageMouse .cageBetterMouse .BetterMouse (by decide)
    "Cage" "BM" .Mouse (by decide) 0 ⟨.Mouse, "x", 7⟩ (by decide) (by decide) rfl
    (by decide) (by decide)

/-! ## Claim on rejected insertions -/

theorem addAnimal_throw {c : Slot} {a : Animal} {w : World}
    (h : a.kind.castsTo c.cls = false) :
    addAnimal c (some a) w = .throw .invalid_argument w := by
  unfold addAnimal Container.addAnimal
  simp only [h, Bool.false_eq_true, if_false]

/-- C11, as stated, fails for the Monster: `addAnimal` of the cage of mice
accepts a Monster, which derives from `BetterMouse`, and stores it. -/
theorem cage_accepts_monster :
    addAnimal .cageMouse (some ⟨.Monster, "m", 1⟩) ⟨State.init, []⟩ =
      .ok () ⟨⟨[], [], [], [⟨.Monster, "m", 1⟩], [], [], [], [], [], []⟩, []⟩ :=
  rfl

/-- C11 (amended): insertion into a container is rejected with
`invalid_argument`, leaving the globals and the output unchanged, whenever the
class of the entity does not derive from the element class of the container:
every Cage container rejects Fish and BetterFish entities and every Aquarium
container rejects Bird and BetterBird entities. A Monster, which derives from
the three Better classes, is rejected by no container: the insertion succeeds
and stores it. -/
theorem addAnimal_rejects (c : Slot) (a : Animal) (w : World) :
    (a.kind.castsTo c.cls = false →
      addAnimal c (some a) w = .throw .invalid_argument w) ∧
    (c ∈ cageSlots → a.kind = .Fish ∨ a.kind = .BetterFish →
      addAnimal c (some a) w = .throw .invalid_argument w) ∧
    (c ∈ aquariumSlots → a.kind = .Bird ∨ a.kind = .BetterBird →
      addAnimal c (some a) w = .throw .invalid_argument w) ∧
    (a.kind = .Monster →
      ∃ w1, addAnimal c (some a) w = .ok () w1 ∧
        (w1.state.get c).Perm (a :: w.state.get c) ∧
        (∀ d, d ≠ c → w1.state.get d = w.state.get d) ∧ w1.cout = w.cout) := by
  refine ⟨addAnimal_throw, ?_, ?_, ?_⟩
  · intro hc hk
    apply addAnimal_throw
    simp only [cageSlots, List.mem_cons, List.mem_singleton, List.not_mem_nil, or_false] at hc
    rcases hc with h | h | h | h <;> rcases hk with g | g <;> rw [h, g] <;> rfl
  · intro hc hk
    apply addAnimal_throw
    simp only [aquariumSlots, List.mem_cons, List.mem_singleton, List.not_mem_nil,
      or_false] at hc
    rcases hc with h | h | h | h <;> rcases hk with g | g <;> rw [h, g] <;> rfl
  · intro hk
    have hcast : a.kind.castsTo c.cls = true := by
      rw [hk]
      cases c <;> rfl
    refine ⟨_, addAnimal_ok hcast, ?_, ?_, rfl⟩
    · simp only [State.get_set_same]
      exact add_perm _ _
    · intro d hd
      exact State.get_set_ne _ _ hd

/-! ## Claims on CREATE -/

theorem create_effect (s : State) {tc ct name : String} {days : Int} {c : Slot} {k : Kind}
    (hroute : ∀ animal, createRoute tc ct animal =
      (addAnimal c animal >>= fun _ => (pure true : M Bool)))
    (hanimal : createAnimal tc name days = some ⟨k, name, days⟩)
    (hcast : k.castsTo c.cls = true) (inToken : String) :
    step s (.CREATE tc name inToken ct days) =
      .ok (s.set c (Container.add (s.get c) ⟨k, name, days⟩),
        ["My name is " ++ name ++ ", days lived: " ++ toString days]) := by
  have hadd := @addAnimal_ok c ⟨k, name, days⟩ ⟨s, []⟩ hcast
  have hex : exec (.CREATE tc name inToken ct days) ⟨s, []⟩ =
      .ok () ⟨s.set c (Container.add (s.get c) ⟨k, name, days⟩),
        ["My name is " ++ name ++ ", days lived: " ++ toString days]⟩ := by
    show create tc name ct days ⟨s, []⟩ = _
    unfold create
    rw [hroute, hanimal, bind_apply, bind_apply, hadd]
    rfl
  exact step_of_exec_ok hex

/-- C12: for every state and every valid pair of container kind and type code
(Cage with M, BM, B, BB; Aquarium with F, BF, M, BM; Freedom with F, BF, B,
BB, M, BM), `CREATE <code> <name> IN <kind> <days>` succeeds, prints exactly
the line `My name is <name>, days lived: <days>`, and leaves in the container
selected by kind and code a sorted permutation of its prior contents plus one
entity of that class with that name and age `days`; the other eight
containers are unchanged. -/
theorem create_valid (s : State) (ct tc : String) (c : Slot) (k : Kind)
    (hv : (ct, tc, c, k) ∈ createVariants) (name inToken : String) (days : Int) :
    ∃ s1, step s (.CREATE tc name inToken ct days) =
        .ok (s1, ["My name is " ++ name ++ ", days lived: " ++ toString days]) ∧
      (s1.get c).Perm (⟨k, name, days⟩ :: s.get c) ∧ IsSorted (s1.get c) ∧
      (∀ d, d ≠ c → s1.get d = s.get d) := by
  have key : ∀ {c : Slot} {k : Kind},
      (∀ animal, createRoute tc ct animal =
        (addAnimal c animal >>= fun _ => (pure true : M Bool))) →
      createAnimal tc name days = some ⟨k, name, days⟩ → k.castsTo c.cls = true →
      ∃ s1, step s (.CREATE tc name inToken ct days) =
          .ok (s1, ["My name is " ++ name ++ ", days lived: " ++ toString days]) ∧
        (s1.get c).Perm (⟨k, name, days⟩ :: s.get c) ∧ IsSorted (s1.get c) ∧
        (∀ d, d ≠ c → s1.get d = s.get d) := by
    intro c k hr ha hc
    refine ⟨_, create_effect s hr ha hc inToken, ?_, ?_, ?_⟩
    · rw [State.get_set_same]
      exact add_perm _ _
    · rw [State.get_set_same]
      exact add_sorted _ _
    · intro d hd
      exact State.get_set_ne _ _ hd
  simp only [createVariants, List.mem_cons, Prod.mk.injEq, List.mem_singleton,
    List.not_mem_nil, or_false] at hv
  rcases hv with h | h | h | h | h | h | h | h | h | h | h | h | h | h
  all_goals
    obtain ⟨hct, htc, hc, hk⟩ := h
    subst hct htc hc hk
    exact key (fun _ => rfl) rfl rfl

/-- Witness of C12: `CREATE M Tom IN Cage 3` at program start. -/
theorem create_valid_witness :
    ∃ s1, step State.init (.CREATE "M" "Tom" "IN" "Cage" 3) =
        .ok (s1, ["My name is " ++ "Tom" ++ ", days lived: " ++ toString (3 : Int)]) ∧
      (s1.get .cageMouse).Perm (⟨.Mouse, "Tom", 3⟩ :: State.init.get .cageMouse) ∧
      IsSorted (s1.get .cageMouse) ∧
      (∀ d, d ≠ .cageMouse → s1.get d = State.init.get d) :=
  create_valid State.init "Cage" "M" .cageMouse .Mouse (by decide) "Tom" "IN" 3

/-- C13: for every state and every invalid pair with a recognized type code
(F or BF in Cage, B or BB in Aquarium), `CREATE` succeeds, leaves the globals
unchanged and prints nothing. -/
theorem create_invalid (s : State) (ct tc : String) (hv : (ct, tc) ∈ invalidCreates)
    (name inToken : String) (days : Int) :
    step s (.CREATE tc name inToken ct days) = .ok (s, []) := by
  simp only [invalidCreates, List.mem_cons, Prod.mk.injEq, List.mem_singleton,
    List.not_mem_nil, or_false] at hv
  rcases hv with h | h | h | h
  all_goals
    obtain ⟨hct, htc⟩ := h
    subst hct htc
    rfl

/-- Witness of C13: `CREATE F Nemo IN Cage 2` in a state with one mouse. -/
theorem create_invalid_witness :
    step ⟨[], [], [], [⟨.Mouse, "Tom", 3⟩], [], [], [], [], [], []⟩
        (.CREATE "F" "Nemo" "IN" "Cage" 2) =
      .ok (⟨[], [], [], [⟨.Mouse, "Tom", 3⟩], [], [], [], [], [], []⟩, []) :=
  create_invalid ⟨[], [], [], [⟨.Mouse, "Tom", 3⟩], [], [], [], [], [], []⟩
    "Cage" "F" (by decide) "Nemo" "IN" 2

/-! ## Claims on the reported errors -/

theorem tryCatch_caught {body handler : M Unit} {w w1 : World}
    (h : body w = .throw .out_of_range w1) :
    tryCatchOutOfRange body handler w = handler w1 := by
  unfold tryCatchOutOfRange
  rw [h]

theorem step_not_found {s : State} {cmd : Command} {body : M Unit}
    (hthrow : body ⟨s, []⟩ = .throw .out_of_range ⟨s, []⟩)
    (hdisp : exec cmd = tryCatchOutOfRange body (print "Animal not found")) :
    step s cmd = .ok (s, ["Animal not found"]) := by
  have hex : exec cmd ⟨s, []⟩ = .ok () ⟨s, ["Animal not found"]⟩ := by
    rw [hdisp, tryCatch_caught hthrow]
    rfl
  exact step_of_exec_ok hex

/-- C14, as stated, fails for the commands that never look the position up.
With the mouse Tom in the cage of mice and the mouse Jerry in Freedom,
position 99 is outside both containers; `REMOVE_SUBSTANCE Cage M 99` prints
`Invalid substance removal`, and `APPLY_SUBSTANCE Freedom 99`,
`REMOVE_SUBSTANCE Freedom 99` and `ATTACK Freedom 0 99` print their refusals,
none of them `Animal not found`. -/
theorem out_of_range_other_lines :
    ¬ (0 ≤ (99 : Int) ∧ (99 : Int) <
      ((⟨[], [], [], [⟨.Mouse, "Tom", 3⟩], [], [], [], [], [], [⟨.Mouse, "Jerry", 2⟩]⟩ :
        State).get .cageMouse).length) ∧
    ¬ (0 ≤ (99 : Int) ∧ (99 : Int) <
      ((⟨[], [], [], [⟨.Mouse, "Tom", 3⟩], [], [], [], [], [], [⟨.Mouse, "Jerry", 2⟩]⟩ :
        State).get .freedom).length) ∧
    step ⟨[], [], [], [⟨.Mouse, "Tom", 3⟩], [], [], [], [], [], [⟨.Mouse, "Jerry", 2⟩]⟩
        (.REMOVE_SUBSTANCE "Cage" "M" 99) =
      .ok (⟨[], [], [], [⟨.Mouse, "Tom", 3⟩], [], [], [], [], [], [⟨.Mouse, "Jerry", 2⟩]⟩,
        ["Invalid substance removal"]) ∧
    step ⟨[], [], [], [⟨.Mouse, "Tom", 3⟩], [], [], [], [], [], [⟨.Mouse, "Jerry", 2⟩]⟩
        (.APPLY_SUBSTANCE "Freedom" "" 99) =
      .ok (⟨[], [], [], [⟨.Mouse, "Tom", 3⟩], [], [], [], [], [], [⟨.Mouse, "Jerry", 2⟩]⟩,
        ["Substance cannot be applied in freedom"]) ∧
    step ⟨[], [], [], [⟨.Mouse, "Tom", 3⟩], [], [], [], [], [], [⟨.Mouse, "Jerry", 2⟩]⟩
        (.REMOVE_SUBSTANCE "Freedom" "" 99) =
      .ok (⟨[], [], [], [⟨.Mouse, "Tom", 3⟩], [], [], [], [], [], [⟨.Mouse, "Jerry", 2⟩]⟩,
        ["Substance cannot be removed in freedom"]) ∧
    step ⟨[], [], [], [⟨.Mouse, "Tom", 3⟩], [], [], [], [], [], [⟨.Mouse, "Jerry", 2⟩]⟩
        (.ATTACK "Freedom" "" 0 99) =
      .ok (⟨[], [], [], [⟨.Mouse, "Tom", 3⟩], [], [], [], [], [], [⟨.Mouse, "Jerry", 2⟩]⟩,
        ["Animals cannot attack in Freedom"]) ∧
    "Invalid substance removal" ≠ "Animal not found" ∧
    "Substance cannot be applied in freedom" ≠ "Animal not found" ∧
    "Substance cannot be removed in freedom" ≠ "Animal not found" ∧
    "Animals cannot attack in Freedom" ≠ "Animal not found" :=
  ⟨by decide, by decide, rfl, rfl, rfl, rfl, by decide, by decide, by decide, by decide⟩

/-- C14 (amended): for every state, a position outside `[0, size)` of the
container in which the command looks it up is reported by exactly the line
`Animal not found` and changes nothing. This holds for `APPLY_SUBSTANCE` and
`TALK` on each Cage or Aquarium container addressed with its kind and code,
for `TALK` on Freedom, for `REMOVE_SUBSTANCE` on each upgraded container, and
for `ATTACK` on each Cage or Aquarium container with two distinct positions of
which at least one is outside `[0, size)`. -/
theorem out_of_range_reported (s : State) :
    (∀ ct tc c (pos : Int), (ct, tc, c) ∈ typedContainers →
      ¬ (0 ≤ pos ∧ pos < (s.get c).length) →
      step s (.APPLY_SUBSTANCE ct tc pos) = .ok (s, ["Animal not found"])) ∧
    (∀ ct tc c base k (pos : Int), (ct, tc, c, base, k) ∈ betterVariants →
      ¬ (0 ≤ pos ∧ pos < (s.get c).length) →
      step s (.REMOVE_SUBSTANCE ct tc pos) = .ok (s, ["Animal not found"])) ∧
    (∀ ct tc c (pos : Int), (ct, tc, c) ∈ typedContainers →
      ¬ (0 ≤ pos ∧ pos < (s.get c).length) →
      step s (.TALK ct tc pos) = .ok (s, ["Animal not found"])) ∧
    (∀ tc (pos : Int), ¬ (0 ≤ pos ∧ pos < (s.get .freedom).length) →
      step s (.TALK "Freedom" tc pos) = .ok (s, ["Animal not found"])) ∧
    (∀ ct tc c (pos1 pos2 : Int), (ct, tc, c) ∈ typedContainers → pos1 ≠ pos2 →
      ¬ (0 ≤ pos1 ∧ pos1 < (s.get c).length) ∨ ¬ (0 ≤ pos2 ∧ pos2 < (s.get c).length) →
      step s (.ATTACK ct tc pos1 pos2) = .ok (s, ["Animal not found"])) := by
  refine ⟨?_, ?_, ?_, ?_, ?_⟩
  · intro ct tc c pos hv hout
    simp only [typedContainers, List.mem_cons, Prod.mk.injEq, List.mem_singleton,
      List.not_mem_nil, or_false] at hv
    rcases hv with h | h | h | h | h | h | h | h <;> obtain ⟨hct, htc, hc⟩ := h <;>
      subst hct htc hc
    · exact step_not_found (applyBase_throw hout) rfl
    · exact step_not_found (applyBase_throw hout) rfl
    · exact step_not_found (applyBetter_throw hout) rfl
    · exact step_not_found (applyBetter_throw hout) rfl
    · exact step_not_found (applyBase_throw hout) rfl
    · exact step_not_found (applyBetter_throw hout) rfl
    · exact step_not_found (applyBase_throw hout) rfl
    · exact step_not_found (applyBetter_throw hout) rfl
  · intro ct tc c base k pos hv hout
    simp only [betterVariants, List.mem_cons, Prod.mk.injEq, List.mem_singleton,
      List.not_mem_nil, or_false] at hv
    rcases hv with h | h | h | h <;> obtain ⟨hct, htc, hc, hb, hk⟩ := h <;>
      subst hct htc hc hb hk <;>
      exact step_not_found (removeBetter_throw hout) rfl
  · intro ct tc c pos hv hout
    simp only [typedContainers, List.mem_cons, Prod.mk.injEq, List.mem_singleton,
      List.not_mem_nil, or_false] at hv
    rcases hv with h | h | h | h | h | h | h | h <;> obtain ⟨hct, htc, hc⟩ := h <;>
      subst hct htc hc <;>
      exact step_not_found (talkIn_throw hout) rfl
  · intro tc pos hout
    exact step_not_found (talkIn_throw hout) rfl
  · intro ct tc c pos1 pos2 hv hne hout
    have key : exec (.ATTACK ct tc pos1 pos2) =
        (if pos1 = pos2 then pure ()
          else tryCatchOutOfRange (attackIn c pos1 pos2) (print "Animal not found")) →
        step s (.ATTACK ct tc pos1 pos2) = .ok (s, ["Animal not found"]) := by
      intro hd
      rw [if_neg hne] at hd
      exact step_not_found (attackIn_throw hout) hd
    simp only [typedContainers, List.mem_cons, Prod.mk.injEq, List.mem_singleton,
      List.not_mem_nil, or_false] at hv
    rcases hv with h | h | h | h | h | h | h | h <;> obtain ⟨hct, htc, hc⟩ := h <;>
      subst hct htc hc <;>
      exact key rfl

/-- Witness of C14 (amended): with the mouse Tom alone in the cage of mice,
`TALK Cage M 99` prints `Animal not found` and changes nothing. -/
theorem out_of_range_reported_witness :
    step ⟨[], [], [], [⟨.Mouse, "Tom", 3⟩], [], [], [], [], [], []⟩ (.TALK "Cage" "M" 99) =
      .ok (⟨[], [], [], [⟨.Mouse, "Tom", 3⟩], [], [], [], [], [], []⟩, ["Animal not found"]) :=
  (out_of_range_reported ⟨[], [], [], [⟨.Mouse, "Tom", 3⟩], [], [], [], [], [], []⟩).2.2.1
    "Cage" "M" .cageMouse 99 (by decide) (by decide)

/-- C15: for every state and all position arguments, `APPLY_SUBSTANCE`,
`REMOVE_SUBSTANCE` and `ATTACK` on Freedom print exactly their refusal line
and leave the globals unchanged. -/
theorem freedom_refusals (s : State) (tc : String) (pos pos1 pos2 : Int) :
    step s (.APPLY_SUBSTANCE "Freedom" tc pos) =
        .ok (s, ["Substance cannot be applied in freedom"]) ∧
      step s (.REMOVE_SUBSTANCE "Freedom" tc pos) =
        .ok (s, ["Substance cannot be removed in freedom"]) ∧
      step s (.ATTACK "Freedom" tc pos1 pos2) =
        .ok (s, ["Animals cannot attack in Freedom"]) :=
  ⟨rfl, rfl, rfl⟩

/-- C16: for every state and every position, in range or not,
`REMOVE_SUBSTANCE` on Cage with a type code other than BM and BB, and on
Aquarium with a type code other than BF and BM, prints exactly
`Invalid substance removal` and leaves the globals unchanged. -/
theorem invalid_substance_removal (s : State) (tc : String) (pos : Int) :
    (tc ≠ "BM" → tc ≠ "BB" →
      step s (.REMOVE_SUBSTANCE "Cage" tc pos) =
        .ok (s, ["Invalid substance removal"])) ∧
    (tc ≠ "BF" → tc ≠ "BM" →
      step s (.REMOVE_SUBSTANCE "Aquarium" tc pos) =
        .ok (s, ["Invalid substance removal"])) := by
  constructor
  · intro h1 h2
    have hex : exec (.REMOVE_SUBSTANCE "Cage" tc pos) ⟨s, []⟩ =
        .ok () ⟨s, ["Invalid substance removal"]⟩ := by
      show removeSubstance "Cage" tc pos ⟨s, []⟩ = _
      unfold removeSubstance
      simp only [h1, h2, if_false, if_true, String.reduceEq]
      rfl
    exact step_of_exec_ok hex
  · intro h1 h2
    have hex : exec (.REMOVE_SUBSTANCE "Aquarium" tc pos) ⟨s, []⟩ =
        .ok () ⟨s, ["Invalid substance removal"]⟩ := by
      show removeSubstance "Aquarium" tc pos ⟨s, []⟩ = _
      unfold removeSubstance
      simp only [h1, h2, if_false, if_true, String.reduceEq]
      rfl
    exact step_of_exec_ok hex

/-! ## Claim on self-attack -/

/-- C17, as stated, fails on Freedom: after `CREATE M Tom IN Freedom 3`, the
line `ATTACK Freedom 0 0`, whose two positions are equal and in range, prints
the refusal `Animals cannot attack in Freedom`. -/
theorem self_attack_in_freedom_prints :
    run State.init [.CREATE "M" "Tom" "IN" "Freedom" 3, .ATTACK "Freedom" "" 0 0] =
      .ok (⟨[], [], [], [], [], [], [], [], [], [⟨.Mouse, "Tom", 3⟩]⟩,
        ["My name is Tom, days lived: 3", "Animals cannot attack in Freedom"]) :=
  rfl

/-- C17 (amended): for every state and every `ATTACK` command whose two
positions are equal, on any container kind other than Freedom (Cage, Aquarium
or an unknown kind), with any type code and whether or not the position is in
range, the globals are unchanged and nothing is printed. -/
theorem self_attack_silent (s : State) (ct tc : String) (pos : Int)
    (h : ct ≠ "Freedom") : step s (.ATTACK ct tc pos pos) = .ok (s, []) := by
  have hex : exec (.ATTACK ct tc pos pos) ⟨s, []⟩ = .ok () ⟨s, []⟩ := by
    show attack ct tc pos pos ⟨s, []⟩ = _
    unfold attack
    rw [if_neg h, if_pos rfl]
    rfl
  exact step_of_exec_ok hex

/-- Witness of C17 (amended): `ATTACK Cage M 0 0` with two mice in the cage. -/
theorem self_attack_silent_witness :
    step ⟨[], [], [], [⟨.Mouse, "a", 2⟩, ⟨.Mouse, "b", 5⟩], [], [], [], [], [], []⟩
        (.ATTACK "Cage" "M" 0 0) =
      .ok (⟨[], [], [], [⟨.Mouse, "a", 2⟩, ⟨.Mouse, "b", 5⟩], [], [], [], [], [], []⟩, []) :=
  self_attack_silent
    ⟨[], [], [], [⟨.Mouse, "a", 2⟩, ⟨.Mouse, "b", 5⟩], [], [], [], [], [], []⟩
    "Cage" "M" 0 (by decide)

/-! ## Claim on fatal errors -/

theorem recoverable_pure : Recoverable (pure () : M Unit) :=
  fun w _ => Or.inl ⟨w, rfl⟩

theorem recoverable_print (line : String) : Recoverable (print line) :=
  fun _ _ => Or.inl ⟨_, rfl⟩

theorem recoverable_ite (p : Prop) [Decidable p] {m1 m2 : M Unit} (h1 : Recoverable m1)
    (h2 : Recoverable m2) : Recoverable (if p then m1 else m2) := by
  split
  · exact h1
  · exact h2

theorem completes_pure : Completes (pure () : M Unit) :=
  fun w _ => ⟨w, rfl⟩

theorem completes_print (line : String) : Completes (print line) :=
  fun _ _ => ⟨_, rfl⟩

theorem completes_ite (p : Prop) [Decidable p] {m1 m2 : M Unit} (h1 : Completes m1)
    (h2 : Completes m2) : Completes (if p then m1 else m2) := by
  split
  · exact h1
  · exact h2

theorem completes_tryCatch {body : M Unit} (line : String) (h : Recoverable body) :
    Completes (tryCatchOutOfRange body (print line)) := by
  intro w hw
  rcases h w hw with ⟨w1, h1⟩ | ⟨w1, h1⟩
  · exact ⟨w1, tryCatch_ok h1⟩
  · exact ⟨_, by rw [tryCatch_caught h1]; rfl⟩

theorem completes_seq {m f : M Unit} (hm : Completes m) (hk : Keeps m) (hf : Completes f) :
    Completes (m >>= fun _ => f) := by
  intro w hw
  obtain ⟨w1, h1⟩ := hm w hw
  have h2 := hk w hw
  rw [h1] at h2
  rw [bind_ok h1]
  exact hf w1 h2

theorem recoverable_applyBase {src dst : Slot} {baseCode betterCode : String}
    {better : Animal → Animal} {pos : Int}
    (hsrc : ∀ a, ElemOK src a → a.getType = baseCode ∧ ElemOK dst (better a)) :
    Recoverable (applyBase src dst baseCode betterCode better pos) := by
  intro w hw
  rcases getAnimal_cases (w.state.get src) pos with ⟨a, ha⟩ | ⟨_, h1⟩
  · obtain ⟨ht, hb⟩ := hsrc a ((hw src).2 a (mem_of_getAnimal ha))
    exact Or.inl ⟨_, applyBase_ok ha ht (elemOK_castsTo hb)⟩
  · exact Or.inr ⟨_, applyBase_throw h1⟩

theorem recoverable_applyBetter {c : Slot} {betterCode : String} {pos : Int}
    (hc : c ≠ .freedom) : Recoverable (applyBetter c betterCode pos) := by
  intro w _
  rcases getAnimal_cases (w.state.get c) pos with ⟨a, ha⟩ | ⟨_, h1⟩
  · by_cases ht : a.getType = betterCode
    · exact Or.inl ⟨_, applyBetter_ok ha ht hc⟩
    · exact Or.inl ⟨_, applyBetter_skip ha ht⟩
  · exact Or.inr ⟨_, applyBetter_throw h1⟩

theorem recoverable_removeBetter {src dst : Slot} {k : Kind} {pos : Int}
    (hk : k.castsTo dst.cls = true) : Recoverable (removeBetter src dst k pos) := by
  intro w _
  rcases getAnimal_cases (w.state.get src) pos with ⟨a, ha⟩ | ⟨_, h1⟩
  · exact Or.inl ⟨_, removeBetter_ok ha hk⟩
  · exact Or.inr ⟨_, removeBetter_throw h1⟩

theorem recoverable_attackIn (c : Slot) (pos1 pos2 : Int) :
    Recoverable (attackIn c pos1 pos2) := by
  intro w _
  rcases getAnimal_cases (w.state.get c) pos1 with ⟨a, ha⟩ | ⟨_, h1⟩
  · rcases getAnimal_cases (w.state.get c) pos2 with ⟨d, hd⟩ | ⟨_, h2⟩
    · exact Or.inl ⟨_, attackIn_ok ha hd⟩
    · exact Or.inr ⟨_, attackIn_throw (Or.inr h2)⟩
  · exact Or.inr ⟨_, attackIn_throw (Or.inl h1)⟩

theorem recoverable_talkIn (c : Slot) (pos : Int) : Recoverable (talkIn c pos) := by
  intro w _
  rcases getAnimal_cases (w.state.get c) pos with ⟨a, ha⟩ | ⟨_, h1⟩
  · exact Or.inl ⟨_, talkIn_ok ha⟩
  · exact Or.inr ⟨_, talkIn_throw h1⟩

theorem completes_applySubstance (containerType typeCode : String) (pos : Int) :
    Completes (applySubstance containerType typeCode pos) := by
  unfold applySubstance
  refine completes_ite _ (completes_print _) (completes_tryCatch _ ?_)
  refine recoverable_ite _ ?_ (recoverable_ite _ ?_ recoverable_pure)
  · refine recoverable_ite _ ?_ (recoverable_ite _ ?_ (recoverable_ite _ ?_
      (recoverable_ite _ ?_ recoverable_pure)))
    · exact recoverable_applyBase (elemOK_base_better .Mouse .BetterMouse
        (fun k1 h => by cases k1 <;> first | rfl | cases h) (fun _ _ => rfl)
        (fun _ => rfl) rfl (by decide))
    · exact recoverable_applyBase (elemOK_base_better .Bird .BetterBird
        (fun k1 h => by cases k1 <;> first | rfl | cases h) (fun _ _ => rfl)
        (fun _ => rfl) rfl (by decide))
    · exact recoverable_applyBetter (by decide)
    · exact recoverable_applyBetter (by decide)
  · refine recoverable_ite _ ?_ (recoverable_ite _ ?_ (recoverable_ite _ ?_
      (recoverable_ite _ ?_ recoverable_pure)))
    · exact recoverable_applyBase (elemOK_base_better .Fish .BetterFish
        (fun k1 h => by cases k1 <;> first | rfl | cases h) (fun _ _ => rfl)
        (fun _ => rfl) rfl (by decide))
    · exact recoverable_applyBase (elemOK_base_better .Mouse .BetterMouse
        (fun k1 h => by cases k1 <;> first | rfl | cases h) (fun _ _ => rfl)
        (fun _ => rfl) rfl (by decide))
    · exact recoverable_applyBetter (by decide)
    · exact recoverable_applyBetter (by decide)

theorem completes_removeSubstance (containerType typeCode : String) (pos : Int) :
    Completes (removeSubstance containerType typeCode pos) := by
  unfold removeSubstance
  refine completes_ite _ (completes_print _) (completes_tryCatch _ ?_)
  refine recoverable_ite _ ?_ (recoverable_ite _ ?_ recoverable_pure)
  · exact recoverable_ite _ (recoverable_removeBetter rfl)
      (recoverable_ite _ (recoverable_removeBetter rfl) (recoverable_print _))
  · exact recoverable_ite _ (recoverable_removeBetter rfl)
      (recoverable_ite _ (recoverable_removeBetter rfl) (recoverable_print _))

theorem completes_attack (containerType typeCode : String) (pos1 pos2 : Int) :
    Completes (attack containerType typeCode pos1 pos2) := by
  unfold attack
  refine completes_ite _ (completes_print _) (completes_ite _ completes_pure
    (completes_tryCatch _ ?_))
  refine recoverable_ite _ ?_ (recoverable_ite _ ?_ recoverable_pure)
  · exact recoverable_ite _ (recoverable_attackIn _ _ _)
      (recoverable_ite _ (recoverable_attackIn _ _ _)
        (recoverable_ite _ (recoverable_attackIn _ _ _)
          (recoverable_ite _ (recoverable_attackIn _ _ _) recoverable_pure)))
  · exact recoverable_ite _ (recoverable_attackIn _ _ _)
      (recoverable_ite _ (recoverable_attackIn _ _ _)
        (recoverable_ite _ (recoverable_attackIn _ _ _)
          (recoverable_ite _ (recoverable_attackIn _ _ _) recoverable_pure)))

theorem completes_talk (containerType typeCode : String) (pos : Int) :
    Completes (talk containerType typeCode pos) := by
  unfold talk
  refine completes_ite _ (completes_tryCatch _ (recoverable_talkIn _ _))
    (completes_tryCatch _ ?_)
  refine recoverable_ite _ ?_ (recoverable_ite _ ?_ recoverable_pure)
  · exact recoverable_ite _ (recoverable_talkIn _ _)
      (recoverable_ite _ (recoverable_talkIn _ _)
        (recoverable_ite _ (recoverable_talkIn _ _)
          (recoverable_ite _ (recoverable_talkIn _ _) recoverable_pure)))
  · exact recoverable_ite _ (recoverable_talkIn _ _)
      (recoverable_ite _ (recoverable_talkIn _ _)
        (recoverable_ite _ (recoverable_talkIn _ _)
          (recoverable_ite _ (recoverable_talkIn _ _) recoverable_pure)))

theorem completes_periodUpdate (c : Slot) : Completes (periodUpdate c) :=
  fun w hw => ⟨_, periodUpdate_ok c w (inv_wellTyped hw c)⟩

theorem completes_period : Completes period := by
  unfold period
  refine completes_seq (completes_periodUpdate _) (keeps_periodUpdate _) ?_
  refine completes_seq (completes_periodUpdate _) (keeps_periodUpdate _) ?_
  refine completes_seq (completes_periodUpdate _) (keeps_periodUpdate _) ?_
  refine completes_seq (completes_periodUpdate _) (keeps_periodUpdate _) ?_
  refine completes_seq (completes_periodUpdate _) (keeps_periodUpdate _) ?_
  refine completes_seq (completes_periodUpdate _) (keeps_periodUpdate _) ?_
  refine completes_seq (completes_periodUpdate _) (keeps_periodUpdate _) ?_
  refine completes_seq (completes_periodUpdate _) (keeps_periodUpdate _) ?_
  exact completes_periodUpdate _

theorem createAnimal_none_iff (typeCode name : String) (days : Int) :
    createAnimal typeCode name days = none ↔ typeCode ∉ typeCodes := by
  unfold createAnimal typeCodes
  simp only [List.mem_cons, List.mem_singleton, List.not_mem_nil, or_false, not_or]
  split_ifs <;> simp_all

theorem createTalk_ok (flag : Bool) (animal : Option Animal) (w : World) :
    ∃ w1, createTalk flag animal w = .ok () w1 := by
  unfold createTalk
  split
  · split
    · exact ⟨_, rfl⟩
    · exact ⟨_, rfl⟩
  · exact ⟨_, rfl⟩

theorem create_route_ok (c : Slot) (animal : Option Animal) (w : World) (a : Animal)
    (ha : animal = some a) (hc : a.kind.castsTo c.cls = true) :
    ∃ w1, ((addAnimal c animal >>= fun _ => (pure true : M Bool)) >>=
      fun flag => createTalk flag animal) w = .ok () w1 := by
  subst ha
  rw [bind_apply, bind_ok (addAnimal_ok hc)]
  exact createTalk_ok _ _ _

theorem create_skip_ok (animal : Option Animal) (w : World) :
    ∃ w1, ((pure false : M Bool) >>= fun flag => createTalk flag animal) w = .ok () w1 :=
  createTalk_ok false animal w

theorem castsTo_animal (k : Kind) : k.castsTo .Animal = true := by
  cases k <;> rfl

theorem create_ok (typeCode name containerType : String) (days : Int) (w : World)
    (h : ¬ (containerType = "Freedom" ∧ createAnimal typeCode name days = none)) :
    ∃ w1, create typeCode name containerType days w = .ok () w1 := by
  unfold create createRoute
  split_ifs with h1 h2 h3 h4 h5 h6 h7 h8 h9 h10 h11
  · subst h2
    exact create_route_ok _ _ w ⟨.Mouse, name, days⟩ rfl rfl
  · subst h3
    exact create_route_ok _ _ w ⟨.BetterMouse, name, days⟩ rfl rfl
  · subst h4
    exact create_route_ok _ _ w ⟨.Bird, name, days⟩ rfl rfl
  · subst h5
    exact create_route_ok _ _ w ⟨.BetterBird, name, days⟩ rfl rfl
  · exact create_skip_ok _ w
  · subst h7
    exact create_route_ok _ _ w ⟨.Fish, name, days⟩ rfl rfl
  · subst h8
    exact create_route_ok _ _ w ⟨.BetterFish, name, days⟩ rfl rfl
  · subst h9
    exact create_route_ok _ _ w ⟨.Mouse, name, days⟩ rfl rfl
  · subst h10
    exact create_route_ok _ _ w ⟨.BetterMouse, name, days⟩ rfl rfl
  · exact create_skip_ok _ w
  · cases hc : createAnimal typeCode name days with
    | none => exact absurd ⟨h11, hc⟩ h
    | some a => exact create_route_ok _ _ w a rfl (castsTo_animal _)
  · exact create_skip_ok _ w

theorem create_throw (typeCode name : String) (days : Int) (w : World)
    (h : createAnimal typeCode name days = none) :
    create typeCode name "Freedom" days w = .throw .invalid_argument w := by
  have hr : createRoute typeCode "Freedom" (createAnimal typeCode name days) =
      (addAnimal .freedom (createAnimal typeCode name days) >>=
        fun _ => (pure true : M Bool)) := rfl
  unfold create
  rw [hr, h]
  rfl

theorem exec_completes (cmd : Command)
    (h : ∀ tc name tok days, cmd = .CREATE tc name tok "Freedom" days →
      createAnimal tc name days ≠ none) :
    Completes (exec cmd) := by
  cases cmd with
  | CREATE typeCode name inToken containerType days =>
    intro w _
    refine create_ok typeCode name containerType days w ?_
    rintro ⟨h1, h2⟩
    subst h1
    exact h typeCode name inToken days rfl h2
  | APPLY_SUBSTANCE containerType typeCode pos => exact completes_applySubstance _ _ _
  | REMOVE_SUBSTANCE containerType typeCode pos => exact completes_removeSubstance _ _ _
  | ATTACK containerType typeCode pos1 pos2 => exact completes_attack _ _ _ _
  | TALK containerType typeCode pos => exact completes_talk _ _ _
  | PERIOD => exact completes_period
  | other cmd => exact completes_pure

/-- In a reachable state a command fails exactly when it is a `CREATE` into
Freedom with a type code that is none of the six recognized ones, and the
failure is `invalid_argument`; every other command ends normally. -/
theorem step_error_iff (s : State) (hs : Reachable s) (cmd : Command) (e : Exn) :
    step s cmd = .error e ↔
      e = .invalid_argument ∧
        ∃ tc name tok days, cmd = .CREATE tc name tok "Freedom" days ∧ tc ∉ typeCodes := by
  constructor
  · intro herr
    by_cases hc : ∀ tc name tok days, cmd = .CREATE tc name tok "Freedom" days →
        createAnimal tc name days ≠ none
    · obtain ⟨w1, h1⟩ := exec_completes cmd hc ⟨s, []⟩ (reachable_inv hs)
      rw [step_of_exec_ok h1] at herr
      cases herr
    · push_neg at hc
      obtain ⟨tc, name, tok, days, hcmd, hnone⟩ := hc
      subst hcmd
      have hex : exec (.CREATE tc name tok "Freedom" days) ⟨s, []⟩ =
          .throw .invalid_argument ⟨s, []⟩ := create_throw tc name days _ hnone
      unfold step at herr
      rw [hex] at herr
      injection herr with herr
      exact ⟨herr.symm, tc, name, tok, days, rfl, (createAnimal_none_iff tc name days).mp hnone⟩
  · rintro ⟨he, tc, name, tok, days, hcmd, htc⟩
    subst he hcmd
    have hex : exec (.CREATE tc name tok "Freedom" days) ⟨s, []⟩ =
        .throw .invalid_argument ⟨s, []⟩ :=
      create_throw tc name days _ ((createAnimal_none_iff tc name days).mpr htc)
    unfold step
    rw [hex]

/-- C18 at its failing input: `CREATE X Tom IN Freedom 3`, with a type code
that is none of the six, hands a null pointer to `freedom.addAnimal`, whose
`invalid_argument` is caught nowhere; the command loop ends there and the
following line is not processed. -/
theorem create_unknown_in_freedom_throws :
    step State.init (.CREATE "X" "Tom" "IN" "Freedom" 3) = .error .invalid_argument ∧
      run State.init
        [.CREATE "X" "Tom" "IN" "Freedom" 3, .CREATE "M" "Jerry" "IN" "Cage" 1] =
        .error .invalid_argument :=
  ⟨rfl, rfl⟩

/-! ## Claim on TALK -/

theorem talk_block_quiet (c : Slot) (pos : Int) (w : World) :
    (∃ out, talkIn c pos w = .ok () ⟨w.state, w.cout ++ out⟩) ∨
      talkIn c pos w = .throw .out_of_range w := by
  rcases getAnimal_cases (w.state.get c) pos with ⟨a, ha⟩ | ⟨_, h1⟩
  · exact Or.inl ⟨[a.talk], talkIn_ok ha⟩
  · exact Or.inr (talkIn_throw h1)

theorem pure_quiet (w : World) :
    (∃ out, (pure () : M Unit) w = .ok () ⟨w.state, w.cout ++ out⟩) ∨
      (pure () : M Unit) w = .throw .out_of_range w :=
  Or.inl ⟨[], by simp⟩

theorem tryCatch_quiet {body : M Unit} {w : World}
    (h : (∃ out, body w = .ok () ⟨w.state, w.cout ++ out⟩) ∨
      body w = .throw .out_of_range w) :
    ∃ out, tryCatchOutOfRange body (print "Animal not found") w =
      .ok () ⟨w.state, w.cout ++ out⟩ := by
  rcases h with ⟨out, h⟩ | h
  · exact ⟨out, tryCatch_ok h⟩
  · exact ⟨["Animal not found"], by rw [tryCatch_caught h]; rfl⟩

theorem talk_quiet (ct tc : String) (pos : Int) (w : World) :
    ∃ out, talk ct tc pos w = .ok () ⟨w.state, w.cout ++ out⟩ := by
  unfold talk
  split
  · exact tryCatch_quiet (talk_block_quiet _ _ _)
  · apply tryCatch_quiet
    split_ifs
    all_goals first
      | exact talk_block_quiet _ _ _
      | exact pure_quiet _

theorem talk_effect (s : State) {ct tc : String} {c : Slot} {pos : Int} {a : Animal}
    (hdisp : exec (.TALK ct tc pos) =
      tryCatchOutOfRange (talkIn c pos) (print "Animal not found"))
    (h0 : 0 ≤ pos) (hlt : pos < (s.get c).length)
    (ha : (s.get c)[pos.toNat]? = some a) :
    step s (.TALK ct tc pos) =
      .ok (s, ["My name is " ++ a.name ++ ", days lived: " ++ toString a.daysLived]) := by
  have hg := getAnimal_of_getElem? h0 hlt ha
  have hbody := @talkIn_ok c pos ⟨s, []⟩ a hg
  have hex : exec (.TALK ct tc pos) ⟨s, []⟩ =
      .ok () ⟨s, ["My name is " ++ a.name ++ ", days lived: " ++ toString a.daysLived]⟩ := by
    rw [hdisp, tryCatch_ok hbody]
    rfl
  exact step_of_exec_ok hex

/-- C19: for every state, `TALK` on a Cage or Aquarium container addressed
with its kind and code, or on Freedom, at an in-range position prints exactly
`My name is <name>, days lived: <age>` for the entity stored at that position
and leaves the globals unchanged; and every `TALK` command, whatever its
container kind, type code and position, succeeds and leaves the globals
unchanged. -/
theorem talk_read_only (s : State) :
    (∀ ct tc c (pos : Int) a,
      (ct, tc, c) ∈ typedContainers ∨ (ct = "Freedom" ∧ c = .freedom) →
      0 ≤ pos → pos < (s.get c).length → (s.get c)[pos.toNat]? = some a →
      step s (.TALK ct tc pos) =
        .ok (s, ["My name is " ++ a.name ++ ", days lived: " ++ toString a.daysLived])) ∧
    (∀ ct tc (pos : Int), ∃ out, step s (.TALK ct tc pos) = .ok (s, out)) := by
  constructor
  · intro ct tc c pos a hv h0 hlt ha
    rcases hv with hv | ⟨hct, hc⟩
    · simp only [typedContainers, List.mem_cons, Prod.mk.injEq, List.mem_singleton,
        List.not_mem_nil, or_false] at hv
      rcases hv with h | h | h | h | h | h | h | h <;> obtain ⟨hct, htc, hc⟩ := h <;>
        subst hct htc hc <;>
        exact talk_effect s rfl h0 hlt ha
    · subst hct hc
      exact talk_effect s rfl h0 hlt ha
  · intro ct tc pos
    obtain ⟨out, h⟩ := talk_quiet ct tc pos ⟨s, []⟩
    have hex : exec (.TALK ct tc pos) ⟨s, []⟩ = .ok () ⟨s, [] ++ out⟩ := h
    exact ⟨[] ++ out, step_of_exec_ok hex⟩

/-! ## Claim on the scenario of Tom -/

/-- C20: from the initial state, `CREATE M Tom IN Cage 3` leaves the mouse Tom
of age 3 in Cage-Mouse and prints `My name is Tom, days lived: 3`;
`APPLY_SUBSTANCE Cage M 0` leaves Cage-Mouse empty and Tom of age 2 in
Cage-BetterMouse; `APPLY_SUBSTANCE Cage BM 0` leaves Cage-BetterMouse empty and
the Monster Tom of age 1 in Freedom; `PERIOD` leaves every container empty and
prints `Tom has died of old days`; the whole output is exactly these two
lines. -/
theorem tom_scenario :
    step State.init (.CREATE "M" "Tom" "IN" "Cage" 3) =
        .ok (⟨[], [], [], [⟨.Mouse, "Tom", 3⟩], [], [], [], [], [], []⟩,
          ["My name is Tom, days lived: 3"]) ∧
      step ⟨[], [], [], [⟨.Mouse, "Tom", 3⟩], [], [], [], [], [], []⟩
          (.APPLY_SUBSTANCE "Cage" "M" 0) =
        .ok (⟨[], [], [], [], [⟨.BetterMouse, "Tom", 2⟩], [], [], [], [], []⟩, []) ∧
      step ⟨[], [], [], [], [⟨.BetterMouse, "Tom", 2⟩], [], [], [], [], []⟩
          (.APPLY_SUBSTANCE "Cage" "BM" 0) =
        .ok (⟨[], [], [], [], [], [], [], [], [], [⟨.Monster, "Tom", 1⟩]⟩, []) ∧
      step ⟨[], [], [], [], [], [], [], [], [], [⟨.Monster, "Tom", 1⟩]⟩ .PERIOD =
        .ok (⟨[], [], [], [], [], [], [], [], [], []⟩, ["Tom has died of old days"]) ∧
      run State.init [.CREATE "M" "Tom" "IN" "Cage" 3, .APPLY_SUBSTANCE "Cage" "M" 0,
          .APPLY_SUBSTANCE "Cage" "BM" 0, .PERIOD] =
        .ok (⟨[], [], [], [], [], [], [], [], [], []⟩,
          ["My name is Tom, days lived: 3", "Tom has died of old days"]) := by
  have h1 : step State.init (.CREATE "M" "Tom" "IN" "Cage" 3) =
      .ok (⟨[], [], [], [⟨.Mouse, "Tom", 3⟩], [], [], [], [], [], []⟩,
        ["My name is Tom, days lived: 3"]) := rfl
  have h2 : step ⟨[], [], [], [⟨.Mouse, "Tom", 3⟩], [], [], [], [], [], []⟩
      (.APPLY_SUBSTANCE "Cage" "M" 0) =
      .ok (⟨[], [], [], [], [⟨.BetterMouse, "Tom", 2⟩], [], [], [], [], []⟩, []) := rfl
  have h3 := step_fuse_tom
  have h4 : step ⟨[], [], [], [], [], [], [], [], [], [⟨.Monster, "Tom", 1⟩]⟩ .PERIOD =
      .ok (⟨[], [], [], [], [], [], [], [], [], []⟩, ["Tom has died of old days"]) := by
    rw [step_period _ (by decide)]
    rfl
  refine ⟨h1, h2, h3, h4, ?_⟩
  simp only [run, h1, h2, h3, h4]
  rfl

/-! ## Claim on the death promised by REMOVE_SUBSTANCE -/

/-- C21 at its failing input: after `CREATE BF f IN Aquarium 6`,
`REMOVE_SUBSTANCE Aquarium BF 0` doubles the days to 12, which exceeds 10, and
the animal is stored in Aquarium-Fish with age 12; no death notice is
printed. -/
theorem removeSubstance_stores_above_ten :
    run State.init
        [.CREATE "BF" "f" "IN" "Aquarium" 6, .REMOVE_SUBSTANCE "Aquarium" "BF" 0] =
      .ok (⟨[], [], [], [], [], [⟨.Fish, "f", 12⟩], [], [], [], []⟩,
        ["My name is f, days lived: 6"]) :=
  rfl

/-! ## Claim on unknown commands -/

/-- C22: for every state and every command line whose first token is none of
`CREATE`, `APPLY_SUBSTANCE`, `REMOVE_SUBSTANCE`, `ATTACK`, `TALK`, `PERIOD`,
the line succeeds, leaves the globals unchanged and prints nothing. -/
theorem unknown_command_ignored (s : State) (c : Command)
    (h : c.firstToken ∉ commandNames) : step s c = .ok (s, []) := by
  cases c with
  | other cmd => rfl
  | CREATE _ _ _ _ _ => exact absurd (show "CREATE" ∈ commandNames by decide) h
  | APPLY_SUBSTANCE _ _ _ => exact absurd (show "APPLY_SUBSTANCE" ∈ commandNames by decide) h
  | REMOVE_SUBSTANCE _ _ _ =>
    exact absurd (show "REMOVE_SUBSTANCE" ∈ commandNames by decide) h
  | ATTACK _ _ _ _ => exact absurd (show "ATTACK" ∈ commandNames by decide) h
  | TALK _ _ _ => exact absurd (show "TALK" ∈ commandNames by decide) h
  | PERIOD => exact absurd (show "PERIOD" ∈ commandNames by decide) h

/-- Witness of C22: the line `FEED Tom` in a state with one mouse. -/
theorem unknown_command_ignored_witness :
    step ⟨[], [], [], [⟨.Mouse, "Tom", 3⟩], [], [], [], [], [], []⟩ (.other "FEED") =
      .ok (⟨[], [], [], [⟨.Mouse, "Tom", 3⟩], [], [], [], [], [], []⟩, []) :=
  unknown_command_ignored ⟨[], [], [], [⟨.Mouse, "Tom", 3⟩], [], [], [], [], [], []⟩
    (.other "FEED") (by decide)

/-! ## Claim on the directory of entities -/

theorem frames_pure {α : Type} (a : α) : Frames (pure a : M α) := fun _ => rfl

theorem frames_print (line : String) : Frames (print line) := fun _ => rfl

theorem frames_bind {α β : Type} {m : M α} {f : α → M β} (hm : Frames m)
    (hf : ∀ a, Frames (f a)) : Frames (m >>= f) := by
  intro w
  have h1 := hm w
  rw [bind_apply]
  cases hmw : m w with
  | ok a w1 =>
    rw [hmw] at h1
    exact (hf a w1).trans h1
  | throw e w1 =>
    rw [hmw] at h1
    exact h1

theorem frames_ite {α : Type} (p : Prop) [Decidable p] {m1 m2 : M α} (h1 : Frames m1)
    (h2 : Frames m2) : Frames (if p then m1 else m2) := by
  split
  · exact h1
  · exact h2

theorem frames_tryCatch {body handler : M Unit} (hb : Frames body) (hh : Frames handler) :
    Frames (tryCatchOutOfRange body handler) := by
  intro w
  have h1 := hb w
  unfold tryCatchOutOfRange
  cases hbw : body w with
  | ok a w1 =>
    rw [hbw] at h1
    exact h1
  | throw e w1 =>
    rw [hbw] at h1
    cases e with
    | out_of_range => exact (hh w1).trans h1
    | invalid_argument => exact h1

theorem frames_getAnimalAt (c : Slot) (pos : Int) : Frames (getAnimalAt c pos) := by
  intro w
  unfold getAnimalAt
  split <;> rfl

theorem frames_removeAtIndex (c : Slot) (pos : Int) : Frames (removeAtIndex c pos) := by
  intro w
  unfold removeAtIndex
  split
  · exact State.allAnimals_set _ _ _
  · rfl

theorem frames_addAnimal (c : Slot) (animal : Option Animal) :
    Frames (addAnimal c animal) := by
  intro w
  unfold addAnimal
  split
  · exact State.allAnimals_set _ _ _
  · rfl

theorem frames_store (c : Slot) (pos : Int) (a : Animal) : Frames (store c pos a) :=
  fun _ => State.allAnimals_set _ _ _

theorem frames_drain (c : Slot) : Frames (drain c) := by
  intro w
  rw [drain_ok]
  exact State.allAnimals_set _ _ _

theorem frames_periodUpdate (c : Slot) : Frames (periodUpdate c) := by
  intro w
  unfold periodUpdate
  split
  · exact State.allAnimals_set _ _ _
  · rfl

theorem frames_applyBase (src dst : Slot) (b1 b2 : String) (better : Animal → Animal)
    (pos : Int) : Frames (applyBase src dst b1 b2 better pos) := by
  unfold applyBase
  refine frames_bind (frames_getAnimalAt _ _) (fun animal => ?_)
  refine frames_ite _ ?_ (frames_ite _ ?_ (frames_pure _))
  · exact frames_bind (frames_removeAtIndex _ _) (fun _ => frames_addAnimal _ _)
  · exact frames_bind (frames_removeAtIndex _ _)
      (fun _ => frames_bind (frames_drain _) (fun _ => frames_addAnimal _ _))

theorem frames_applyBetter (c : Slot) (code : String) (pos : Int) :
    Frames (applyBetter c code pos) := by
  unfold applyBetter
  refine frames_bind (frames_getAnimalAt _ _) (fun animal => ?_)
  refine frames_ite _ ?_ (frames_pure _)
  exact frames_bind (frames_removeAtIndex _ _)
    (fun _ => frames_bind (frames_drain _) (fun _ => frames_addAnimal _ _))

theorem frames_removeBetter (src dst : Slot) (k : Kind) (pos : Int) :
    Frames (removeBetter src dst k pos) := by
  unfold removeBetter
  refine frames_bind (frames_getAnimalAt _ _) (fun animal => ?_)
  exact frames_bind (frames_removeAtIndex _ _) (fun _ => frames_addAnimal _ _)

theorem frames_attackIn (c : Slot) (pos1 pos2 : Int) : Frames (attackIn c pos1 pos2) := by
  unfold attackIn
  refine frames_bind (frames_getAnimalAt _ _) (fun attacker => ?_)
  refine frames_bind (frames_getAnimalAt _ _) (fun defender => ?_)
  refine frames_bind (frames_print _) (fun _ => ?_)
  refine frames_bind (frames_store _ _ _) (fun _ => ?_)
  refine frames_ite _ ?_ (frames_pure _)
  exact frames_bind (frames_removeAtIndex _ _) (fun _ => frames_pure _)

theorem frames_talkIn (c : Slot) (pos : Int) : Frames (talkIn c pos) := by
  unfold talkIn
  exact frames_bind (frames_getAnimalAt _ _) (fun _ => frames_print _)

theorem frames_exec (cmd : Command) : Frames (exec cmd) := by
  cases cmd with
  | CREATE typeCode name inToken containerType days =>
    show Frames (create typeCode name containerType days)
    unfold create
    refine frames_bind ?_ (fun flag => ?_)
    · unfold createRoute
      split_ifs
      all_goals first
        | exact frames_pure _
        | exact frames_bind (frames_addAnimal _ _) (fun _ => frames_pure _)
    · unfold createTalk
      split
      · split
        · exact frames_print _
        · exact frames_pure _
      · exact frames_pure _
  | APPLY_SUBSTANCE containerType typeCode pos =>
    show Frames (applySubstance containerType typeCode pos)
    unfold applySubstance
    refine frames_ite _ (frames_print _) (frames_tryCatch ?_ (frames_print _))
    split_ifs
    all_goals first
      | exact frames_pure _
      | exact frames_applyBase _ _ _ _ _ _
      | exact frames_applyBetter _ _ _
  | REMOVE_SUBSTANCE containerType typeCode pos =>
    show Frames (removeSubstance containerType typeCode pos)
    unfold removeSubstance
    refine frames_ite _ (frames_print _) (frames_tryCatch ?_ (frames_print _))
    split_ifs
    all_goals first
      | exact frames_pure _
      | exact frames_print _
      | exact frames_removeBetter _ _ _ _
  | ATTACK containerType typeCode pos1 pos2 =>
    show Frames (attack containerType typeCode pos1 pos2)
    unfold attack
    refine frames_ite _ (frames_print _) (frames_ite _ (frames_pure _)
      (frames_tryCatch ?_ (frames_print _)))
    split_ifs
    all_goals first
      | exact frames_pure _
      | exact frames_attackIn _ _ _
  | TALK containerType typeCode pos =>
    show Frames (talk containerType typeCode pos)
    unfold talk
    refine frames_ite _ (frames_tryCatch (frames_talkIn _ _) (frames_print _))
      (frames_tryCatch ?_ (frames_print _))
    split_ifs
    all_goals first
      | exact frames_pure _
      | exact frames_talkIn _ _
  | PERIOD =>
    show Frames period
    unfold period
    refine frames_bind (frames_periodUpdate _) (fun _ => ?_)
    refine frames_bind (frames_periodUpdate _) (fun _ => ?_)
    refine frames_bind (frames_periodUpdate _) (fun _ => ?_)
    refine frames_bind (frames_periodUpdate _) (fun _ => ?_)
    refine frames_bind (frames_periodUpdate _) (fun _ => ?_)
    refine frames_bind (frames_periodUpdate _) (fun _ => ?_)
    refine frames_bind (frames_periodUpdate _) (fun _ => ?_)
    refine frames_bind (frames_periodUpdate _) (fun _ => ?_)
    exact frames_periodUpdate _
  | other cmd => exact frames_pure _

theorem step_allAnimals {s s1 : State} {cmd : Command} {out : List String}
    (h : step s cmd = .ok (s1, out)) : s1.allAnimals = s.allAnimals := by
  have h1 := frames_exec cmd ⟨s, []⟩
  rw [step_world h] at h1
  exact h1

/-- C28, as stated, fails: after `CREATE M Tom IN Cage 3` the mouse Tom is
stored in Cage-Mouse and the map `allAnimals` has no entry at all, so none
for the name Tom. -/
theorem directory_misses_tom :
    ∃ s, run State.init [.CREATE "M" "Tom" "IN" "Cage" 3] =
        .ok (s, ["My name is Tom, days lived: 3"]) ∧
      (⟨.Mouse, "Tom", 3⟩ : Animal) ∈ s.get .cageMouse ∧
      ¬ ∃ e ∈ s.allAnimals, e.1 = "Tom" :=
  ⟨⟨[], [], [], [⟨.Mouse, "Tom", 3⟩], [], [], [], [], [], []⟩, rfl, by decide, by simp⟩

/-- C28 (amended): no command writes the map `allAnimals`: in every reachable
state it is empty, whatever the containers hold, so it tracks no entity. -/
theorem directory_never_written (s : State) (hs : Reachable s) : s.allAnimals = [] := by
  induction hs with
  | init => rfl
  | step cmd _ hstep ih => rw [step_allAnimals hstep, ih]

/-- Witness of C28 (amended): the state after `CREATE M Tom IN Cage 3`. -/
theorem directory_never_written_witness :
    (⟨[], [], [], [⟨.Mouse, "Tom", 3⟩], [], [], [], [], [], []⟩ : State).allAnimals = [] :=
  directory_never_written ⟨[], [], [], [⟨.Mouse, "Tom", 3⟩], [], [], [], [], [], []⟩
    (Reachable.step (.CREATE "M" "Tom" "IN" "Cage" 3) Reachable.init rfl)

/-! ## Claim on the variants stored in the typed containers -/

theorem inv_typed {s : State} (hs : Inv s) {ct tc : String} {c : Slot}
    (hv : (ct, tc, c) ∈ typedContainers) {a : Animal} (ha : a ∈ s.get c) :
    a.getType = tc := by
  have h1 := ((hs c).2 a ha).1
  obtain ⟨k, n, d⟩ := a
  simp only [typedContainers, List.mem_cons, Prod.mk.injEq, List.mem_singleton,
    List.not_mem_nil, or_false] at hv
  rcases hv with h | h | h | h | h | h | h | h <;> obtain ⟨h2, h3, h4⟩ := h <;>
    subst h2 h3 h4 <;> cases k <;> first | rfl | cases h1

theorem inv_monster {s : State} (hs : Inv s) {c : Slot} {a : Animal} (ha : a ∈ s.get c)
    (hk : a.kind = .Monster) : c = .freedom := by
  have h1 := ((hs c).2 a ha).1
  rw [hk] at h1
  cases c <;> first | rfl | cases h1

theorem applyBase_no_fuse {src dst : Slot} {baseCode betterCode : String}
    (better : Animal → Animal) (pos : Int) {w : World}
    (h : ∀ a ∈ w.state.get src, a.getType ≠ betterCode) :
    applyBase src dst baseCode betterCode better pos w =
      upgradeOnly src dst baseCode better pos w := by
  unfold applyBase upgradeOnly
  rcases getAnimal_cases (w.state.get src) pos with ⟨a, ha⟩ | ⟨_, h1⟩
  · rw [bind_ok (getAnimalAt_ok ha), bind_ok (getAnimalAt_ok ha)]
    simp only [h a (mem_of_getAnimal ha), if_false]
  · rw [bind_throw (getAnimalAt_throw h1), bind_throw (getAnimalAt_throw h1)]

/-- C24: in every state reachable from the initial state by commands that
complete, each of the eight typed containers holds only entities whose type
code is the container's own, a Monster is stored only in Freedom, and at each
of the four places where `APPLY_SUBSTANCE` under a base type code has a fuse
branch the entity read has the base type code and not the better one, so the
block runs as the block without that branch. -/
theorem reachable_variant_typed (s : State) (hs : Reachable s) :
    (∀ ct tc c, (ct, tc, c) ∈ typedContainers → ∀ a ∈ s.get c, a.getType = tc) ∧
    (∀ c, ∀ a ∈ s.get c, a.kind = .Monster → c = .freedom) ∧
    (∀ src dst baseCode betterCode, (src, dst, baseCode, betterCode) ∈ fuseSites →
      ∀ (pos : Int) (out : List String),
        (∀ a, getAnimalAt src pos ⟨s, out⟩ = .ok a ⟨s, out⟩ →
          a.getType = baseCode ∧ a.getType ≠ betterCode) ∧
        ∀ better : Animal → Animal,
          applyBase src dst baseCode betterCode better pos ⟨s, out⟩ =
            upgradeOnly src dst baseCode better pos ⟨s, out⟩) := by
  have hi := reachable_inv hs
  refine ⟨fun ct tc c hv a ha => inv_typed hi hv ha, fun c a ha hk => inv_monster hi ha hk, ?_⟩
  intro src dst baseCode betterCode hv pos out
  have key : ∀ a ∈ s.get src, a.getType = baseCode ∧ a.getType ≠ betterCode := by
    intro a ha
    simp only [fuseSites, List.mem_cons, Prod.mk.injEq, List.mem_singleton,
      List.not_mem_nil, or_false] at hv
    rcases hv with h | h | h | h <;> obtain ⟨h2, h3, h4, h5⟩ := h <;> subst h2 h3 h4 h5
    · have e := inv_typed hi (show ("Cage", "M", Slot.cageMouse) ∈ typedContainers by decide) ha
      exact ⟨e, by rw [e]; decide⟩
    · have e := inv_typed hi (show ("Cage", "B", Slot.cageBird) ∈ typedContainers by decide) ha
      exact ⟨e, by rw [e]; decide⟩
    · have e := inv_typed hi
        (show ("Aquarium", "F", Slot.aquariumFish) ∈ typedContainers by decide) ha
      exact ⟨e, by rw [e]; decide⟩
    · have e := inv_typed hi
        (show ("Aquarium", "M", Slot.aquariumMouse) ∈ typedContainers by decide) ha
      exact ⟨e, by rw [e]; decide⟩
  refine ⟨fun a hget => ?_, fun better => applyBase_no_fuse better pos (fun a ha => (key a ha).2)⟩
  rcases getAnimal_cases (s.get src) pos with ⟨a1, ha1⟩ | ⟨_, h1⟩
  · have h2 : getAnimalAt src pos ⟨s, out⟩ = .ok a1 ⟨s, out⟩ := getAnimalAt_ok ha1
    rw [h2] at hget
    injection hget with h3 _
    subst h3
    exact key _ (mem_of_getAnimal ha1)
  · have h2 : getAnimalAt src pos ⟨s, out⟩ = .throw .out_of_range ⟨s, out⟩ :=
      getAnimalAt_throw h1
    rw [h2] at hget
    cases hget

/-- Witness of C24: the state after `CREATE M Tom IN Cage 3` and
`APPLY_SUBSTANCE Cage M 0`, with the better mouse Tom of age 2. -/
theorem reachable_variant_typed_witness :
    (⟨.BetterMouse, "Tom", 2⟩ : Animal) ∈
        (⟨[], [], [], [], [⟨.BetterMouse, "Tom", 2⟩], [], [], [], [], []⟩ : State).get
          .cageBetterMouse ∧
      (⟨.BetterMouse, "Tom", 2⟩ : Animal).getType = "BM" :=
  ⟨by decide,
    (reachable_variant_typed ⟨[], [], [], [], [⟨.BetterMouse, "Tom", 2⟩], [], [], [], [], []⟩
      (Reachable.step (.APPLY_SUBSTANCE "Cage" "M" 0)
        (Reachable.step (.CREATE "M" "Tom" "IN" "Cage" 3) Reachable.init rfl) rfl)).1
      "Cage" "BM" .cageBetterMouse (by decide) _ (by decide)⟩

/-! ## Claim on the line printed by ATTACK -/

theorem attackLine_ne_notice (v n : String) :
    v ++ " is attacking" ≠ n ++ " has died of old days" := by
  intro h
  have h1 := congrArg (fun x : String => x.data.getLast?) h
  simp only [String.data_append] at h1
  rw [List.getLast?_append_of_ne_nil _ (by decide),
    List.getLast?_append_of_ne_nil _ (by decide)] at h1
  revert h1
  decide

theorem inv_attackLine {s : State} (hs : Inv s) {ct tc v : String} {c : Slot}
    (hv : (ct, tc, c, v) ∈ variantNames) {a : Animal} (ha : a ∈ s.get c) :
    a.attackLine = v ++ " is attacking" := by
  have h1 := ((hs c).2 a ha).1
  obtain ⟨k, n, d⟩ := a
  simp only [variantNames, List.mem_cons, Prod.mk.injEq, List.mem_singleton,
    List.not_mem_nil, or_false] at hv
  rcases hv with h | h | h | h | h | h | h | h <;> obtain ⟨h2, h3, h4, h5⟩ := h <;>
    subst h2 h3 h4 h5 <;> cases k <;> first | rfl | cases h1

theorem variantNames_typed {ct tc v : String} {c : Slot}
    (hv : (ct, tc, c, v) ∈ variantNames) : (ct, tc, c) ∈ typedContainers := by
  simp only [variantNames, List.mem_cons, Prod.mk.injEq, List.mem_singleton,
    List.not_mem_nil, or_false] at hv
  rcases hv with h | h | h | h | h | h | h | h <;> obtain ⟨h2, h3, h4, _⟩ := h <;>
    subst h2 h3 h4 <;> decide

/-- C27: in every reachable state, `ATTACK` on a Cage or Aquarium container
addressed with its variant code, at two distinct in-range positions, ends
normally with an output of exactly one line, `<Variant> is attacking` with
the class name of the container's variant, and that line is the death notice
of no name. -/
theorem attack_prints_variant (s : State) (hs : Reachable s) (ct tc : String) (c : Slot)
    (v : String) (hv : (ct, tc, c, v) ∈ variantNames) (pos1 pos2 : Int) (hne : pos1 ≠ pos2)
    (h1 : 0 ≤ pos1 ∧ pos1 < (s.get c).length) (h2 : 0 ≤ pos2 ∧ pos2 < (s.get c).length) :
    ∃ s1, step s (.ATTACK ct tc pos1 pos2) = .ok (s1, [v ++ " is attacking"]) ∧
      ∀ line ∈ [v ++ " is attacking"], ∀ n : String, line ≠ n ++ " has died of old days" := by
  have hi := reachable_inv hs
  have hline : ∀ a ∈ s.get c, a.attackLine = v ++ " is attacking" :=
    fun a ha => inv_attackLine hi hv ha
  have ht := variantNames_typed hv
  have hd : exec (.ATTACK ct tc pos1 pos2) =
      if pos1 = pos2 then pure ()
      else tryCatchOutOfRange (attackIn c pos1 pos2) (print "Animal not found") := by
    simp only [typedContainers, List.mem_cons, Prod.mk.injEq, List.mem_singleton,
      List.not_mem_nil, or_false] at ht
    rcases ht with h | h | h | h | h | h | h | h
    all_goals
      obtain ⟨hct, htc, hc⟩ := h
      subst hct htc hc
      rfl
  obtain ⟨att, s1, e1, e2, _⟩ := attackIn_effect s hd hne h1 h2
  refine ⟨s1, ?_, ?_⟩
  · rw [e2, hline att (List.getElem?_mem e1)]
  · intro line hl n
    rw [List.mem_singleton] at hl
    rw [hl]
    exact attackLine_ne_notice v n

/-- Witness of C27: two better mice in the cage after two `CREATE` commands,
and `ATTACK Cage BM 0 1`. -/
theorem attack_prints_variant_witness :
    ∃ s1, step ⟨[], [], [], [], [⟨.BetterMouse, "a", 2⟩, ⟨.BetterMouse, "b", 5⟩], [], [], [],
        [], []⟩ (.ATTACK "Cage" "BM" 0 1) = .ok (s1, ["BetterMouse" ++ " is attacking"]) ∧
      ∀ line ∈ ["BetterMouse" ++ " is attacking"], ∀ n : String,
        line ≠ n ++ " has died of old days" :=
  attack_prints_variant
    ⟨[], [], [], [], [⟨.BetterMouse, "a", 2⟩, ⟨.BetterMouse, "b", 5⟩], [], [], [], [], []⟩
    (Reachable.step (.CREATE "BM" "b" "IN" "Cage" 5)
      (Reachable.step (.CREATE "BM" "a" "IN" "Cage" 2) Reachable.init rfl) rfl)
    "Cage" "BM" .cageBetterMouse "BetterMouse" (by decide) 0 1 (by decide)
    ⟨by decide, by decide⟩ ⟨by decide, by decide⟩

/-! ## Claim on the passes of the aging loop -/

theorem agingStep_append (pre suf : List Animal) (a : Animal) (out : List String) :
    Container.agingStep (pre ++ a :: suf) pre.length out =
      .ok (if a.expires then (pre ++ suf, pre.length, out ++ [deathLine a])
        else (pre ++ a.aged :: suf, pre.length + 1, out)) := by
  unfold Container.agingStep
  rw [getAnimal_append_length]
  have hset : (pre ++ a :: suf).set pre.length
      (a.setDaysLived (wrapInt (a.daysLived + 1))) = pre ++ a.aged :: suf := by
    rw [List.set_append]
    simp [Animal.aged]
  have hrem : Container.removeAt (pre ++ a.aged :: suf) (pre.length : Int) =
      .ok (a.aged, pre ++ suf) := by
    rw [removeAt_of_getAnimal (getAnimal_append_length pre suf a.aged)]
    simp [List.eraseIdx_append_of_length_le]
  simp only [hset, hrem]
  by_cases h1 : a.getType = "MON" ∧ wrapInt (a.daysLived + 1) > 0
  · have he : a.expires = true := by
      unfold Animal.expires
      exact decide_eq_true (Or.inl h1)
    rw [if_pos h1, he]
    rfl
  · rw [if_neg h1]
    by_cases h2 : wrapInt (a.daysLived + 1) > 10
    · have he : a.expires = true := by
        unfold Animal.expires
        exact decide_eq_true (Or.inr h2)
      rw [if_pos h2, he]
      rfl
    · have he : a.expires = false := by
        unfold Animal.expires
        exact decide_eq_false (fun h => h.elim h1 h2)
      rw [if_neg h2, he]
      rfl

theorem split_at_index (cont : List Animal) (i : Nat) (h : i < cont.length) :
    ∃ pre a suf, cont = pre ++ a :: suf ∧ pre.length = i ∧ cont[i]? = some a ∧
      cont.eraseIdx i = pre ++ suf ∧ cont.set i a.aged = pre ++ a.aged :: suf := by
  refine ⟨cont.take i, cont[i], cont.drop (i + 1), ?_, ?_, ?_, ?_, ?_⟩
  · simp
  · rw [List.length_take]
    omega
  · exact List.getElem?_eq_getElem h
  · exact List.eraseIdx_eq_take_drop_succ cont i
  · rw [List.set_eq_take_append_cons_drop, if_pos h]

theorem agingStep_cases (cont : List Animal) (i : Nat) (o : List String) (h : i < cont.length) :
    ∃ a, cont[i]? = some a ∧
      Container.agingStep cont i o =
        .ok (if a.expires then (cont.eraseIdx i, i, o ++ [deathLine a])
          else (cont.set i a.aged, i + 1, o)) := by
  obtain ⟨pre, a, suf, hc, hl, hget, her, hset⟩ := split_at_index cont i h
  refine ⟨a, hget, ?_⟩
  rw [her, hset, hc, ← hl]
  exact agingStep_append pre suf a o

theorem agingIter_append :
    ∀ (k : Nat) (pre suf : List Animal) (out : List String), k ≤ suf.length →
      Container.agingIter k (pre ++ suf) pre.length out =
        .ok (pre ++ ((suf.take k).filter (fun a => !a.expires)).map Animal.aged ++ suf.drop k,
          pre.length + ((suf.take k).filter (fun a => !a.expires)).length,
          out ++ ((suf.take k).filter Animal.expires).map deathLine) := by
  intro k
  induction k with
  | zero =>
    intro pre suf out _
    simp [Container.agingIter]
  | succ k ih =>
    intro pre suf out hk
    cases suf with
    | nil => simp at hk
    | cons a suf =>
      have hk1 : k ≤ suf.length := by simpa using hk
      rw [Container.agingIter, agingStep_append]
      by_cases he : a.expires = true
      · simp only [he, if_true]
        rw [ih pre suf _ hk1]
        simp [he, deathLine]
      · have he1 : a.expires = false := by simpa using he
        simp only [he1]
        have hl : pre.length + 1 = (pre ++ [a.aged]).length := by simp
        have happ : pre ++ a.aged :: suf = (pre ++ [a.aged]) ++ suf := by simp
        simp only [Bool.false_eq_true, if_false]
        rw [hl, happ, ih _ suf _ hk1]
        simp [he1]
        omega

theorem agingWhile_eq (cont : List Animal) (i : Nat) (o : List String) :
    Container.agingLoop cont i o = Container.agingWhile cont i o := by
  unfold Container.agingWhile
  by_cases h : i < cont.length
  · rw [if_pos h]
    obtain ⟨pre, a, suf, hc, hl, -, -, -⟩ := split_at_index cont i h
    subst hc hl
    rw [agingLoop_append, agingStep_append]
    by_cases he : a.expires = true
    · simp only [he, if_true]
      rw [agingLoop_append]
      simp [he, deathLine]
    · have he1 : a.expires = false := by simpa using he
      have hl : pre.length + 1 = (pre ++ [a.aged]).length := by simp
      have happ : pre ++ a.aged :: suf = (pre ++ [a.aged]) ++ suf := by simp
      simp only [he1, Bool.false_eq_true, if_false]
      rw [hl, happ, agingLoop_append]
      simp [he1]
  · rw [if_neg h, Container.agingLoop, dif_neg h]

/-- C26: the first loop of `periodUpdate` is the `while` over one pass of its
body; a pass entered with `i` below the size ends normally and either
advances `i` and keeps the size or keeps `i` and removes the entity at `i`,
so the size minus `i` strictly decreases; on a container of `n` entities the
loop condition holds before each of the first `n` passes, pass `k + 1` reads
the entity that the container held at index `k` with the age stored before
the loop, and after `n` passes the condition fails and the loop ends with
the survivors, each aged once, and one notice for every entity removed. -/
theorem agingLoop_visits_once (cont : List Animal) :
    (∀ (l : List Animal) (i : Nat) (o : List String),
      Container.agingLoop l i o = Container.agingWhile l i o) ∧
    (∀ (l : List Animal) (i : Nat) (o : List String), i < l.length →
      ∃ l1 i1 o1, Container.agingStep l i o = .ok (l1, i1, o1) ∧
        ((i1 = i + 1 ∧ l1.length = l.length) ∨ (i1 = i ∧ l1 = l.eraseIdx i)) ∧
        l1.length - i1 < l.length - i) ∧
    (∀ k, k < cont.length →
      ∃ l i o, Container.agingIter k cont 0 [] = .ok (l, i, o) ∧ i < l.length ∧
        l[i]? = cont[k]?) ∧
    (∃ l o, Container.agingIter cont.length cont 0 [] = .ok (l, l.length, o) ∧
      Container.agingLoop cont 0 [] = .ok (l, o) ∧
      l = (cont.filter (fun a => !a.expires)).map Animal.aged ∧
      o = (cont.filter Animal.expires).map deathLine) := by
  refine ⟨agingWhile_eq, ?_, ?_, ?_⟩
  · intro l i o h
    obtain ⟨a, _, hstep⟩ := agingStep_cases l i o h
    by_cases he : a.expires = true
    · refine ⟨l.eraseIdx i, i, o ++ [deathLine a], ?_, Or.inr ⟨rfl, rfl⟩, ?_⟩
      · rw [hstep, he]
        rfl
      · rw [List.length_eraseIdx, if_pos h]
        omega
    · have he1 : a.expires = false := by simpa using he
      refine ⟨l.set i a.aged, i + 1, o, ?_, Or.inl ⟨rfl, List.length_set _ _ _⟩, ?_⟩
      · rw [hstep, he1]
        rfl
      · rw [List.length_set]
        omega
  · intro k hk
    have h := agingIter_append k [] cont [] (le_of_lt hk)
    refine ⟨_, _, _, h, ?_, ?_⟩
    · simp only [List.nil_append, List.length_nil, Nat.zero_add, List.length_append,
        List.length_map, List.length_drop]
      omega
    · simp only [List.nil_append, List.length_nil, Nat.zero_add]
      rw [List.getElem?_append_right (by simp)]
      simp
  · have h := agingIter_append cont.length [] cont [] le_rfl
    simp only [List.take_length, List.drop_length, List.append_nil, List.nil_append,
      List.length_nil, Nat.zero_add] at h
    refine ⟨_, _, ?_, agingLoop_eq cont, rfl, rfl⟩
    rw [h, List.length_map]

/-- Witness of C26: a mouse of age 10 before a mouse of age 3; the second
pass reads the mouse of age 3 at index 0, and two passes end the loop. -/
theorem agingLoop_visits_once_witness :
    (1 < [(⟨.Mouse, "a", 10⟩ : Animal), ⟨.Mouse, "b", 3⟩].length ∧
      ∃ l i o, Container.agingIter 1 [(⟨.Mouse, "a", 10⟩ : Animal), ⟨.Mouse, "b", 3⟩] 0 [] =
          .ok (l, i, o) ∧ i < l.length ∧
        l[i]? = [(⟨.Mouse, "a", 10⟩ : Animal), ⟨.Mouse, "b", 3⟩][1]?) ∧
      Container.agingIter 2 [(⟨.Mouse, "a", 10⟩ : Animal), ⟨.Mouse, "b", 3⟩] 0 [] =
        .ok ([⟨.Mouse, "b", 4⟩], 1, ["a has died of old days"]) :=
  ⟨⟨by decide,
    (agingLoop_visits_once [⟨.Mouse, "a", 10⟩, ⟨.Mouse, "b", 3⟩]).2.2.1 1 (by decide)⟩, rfl⟩

/-! ## Claim on the sign of the stored ages -/

theorem ageInv_set {s : State} (h : AgeInv s) (c : Slot) (l : List Animal)
    (h1 : ∀ a ∈ l, AgeOK c a) : AgeInv (s.set c l) := by
  intro d
  rw [State.get_set]
  by_cases hd : d = c
  · subst hd
    simp only [if_true]
    exact h1
  · simp only [hd, if_false]
    exact h d

theorem tri_pure {α : Type} {Q : α → Prop} (a : α) (h : Q a) : Tri (pure a : M α) Q := by
  intro w hw
  refine ⟨hw, ?_⟩
  intro b w1 hb
  rw [pure_apply] at hb
  injection hb with hb _
  rw [← hb]
  exact h

theorem tri_print (line : String) : Tri (print line) (fun _ => True) :=
  fun _ hw => ⟨hw, fun _ _ _ => trivial⟩

theorem tri_weaken {α : Type} {m : M α} {Q R : α → Prop} (hm : Tri m Q)
    (h : ∀ a, Q a → R a) : Tri m R :=
  fun w hw => ⟨(hm w hw).1, fun a w1 e => h a ((hm w hw).2 a w1 e)⟩

theorem tri_bind {α β : Type} {m : M α} {f : α → M β} {Q : α → Prop} {R : β → Prop}
    (hm : Tri m Q) (hf : ∀ a, Q a → Tri (f a) R) : Tri (m >>= f) R := by
  intro w hw
  obtain ⟨h1, h2⟩ := hm w hw
  rw [bind_apply]
  cases hmw : m w with
  | ok a w1 =>
    rw [hmw] at h1
    exact hf a (h2 a w1 hmw) w1 h1
  | throw e w1 =>
    rw [hmw] at h1
    exact ⟨h1, fun _ _ e1 => by cases e1⟩

theorem tri_ite {α : Type} {Q : α → Prop} (p : Prop) [Decidable p] {m1 m2 : M α}
    (h1 : Tri m1 Q) (h2 : Tri m2 Q) : Tri (if p then m1 else m2) Q := by
  split
  · exact h1
  · exact h2

theorem tri_tryCatch {body handler : M Unit} (hb : Tri body (fun _ => True))
    (hh : Tri handler (fun _ => True)) :
    Tri (tryCatchOutOfRange body handler) (fun _ => True) := by
  intro w hw
  have h1 := (hb w hw).1
  refine ⟨?_, fun _ _ _ => trivial⟩
  unfold tryCatchOutOfRange
  cases hbw : body w with
  | ok a w1 =>
    rw [hbw] at h1
    exact h1
  | throw e w1 =>
    rw [hbw] at h1
    cases e with
    | out_of_range => exact (hh w1 h1).1
    | invalid_argument => exact h1

theorem tri_getAnimalAt (c : Slot) (pos : Int) : Tri (getAnimalAt c pos) (AgeOK c) := by
  intro w hw
  rcases getAnimal_cases (w.state.get c) pos with ⟨a, ha⟩ | ⟨_, h1⟩
  · rw [getAnimalAt_ok ha]
    refine ⟨hw, ?_⟩
    intro b w1 hb
    injection hb with hb _
    rw [← hb]
    exact hw c a (mem_of_getAnimal ha)
  · rw [getAnimalAt_throw h1]
    exact ⟨hw, fun _ _ e1 => by cases e1⟩

theorem tri_removeAtIndex (c : Slot) (pos : Int) : Tri (removeAtIndex c pos) (AgeOK c) := by
  intro w hw
  rcases getAnimal_cases (w.state.get c) pos with ⟨a, ha⟩ | ⟨_, h1⟩
  · rw [removeAtIndex_ok ha]
    refine ⟨?_, ?_⟩
    · exact ageInv_set hw c _
        (fun b hb => hw c b ((List.eraseIdx_sublist _ _).subset hb))
    · intro b w1 hb
      injection hb with hb _
      rw [← hb]
      exact hw c a (mem_of_getAnimal ha)
  · rw [removeAtIndex_throw h1]
    exact ⟨hw, fun _ _ e1 => by cases e1⟩

theorem tri_addAnimal (c : Slot) (animal : Option Animal)
    (h : ∀ a, animal = some a → AgeOK c a) : Tri (addAnimal c animal) (fun _ => True) := by
  intro w hw
  refine ⟨?_, fun _ _ _ => trivial⟩
  cases animal with
  | none => exact hw
  | some a =>
    by_cases hc : a.kind.castsTo c.cls = true
    · rw [addAnimal_ok hc]
      refine ageInv_set hw c _ ?_
      intro b hb
      rcases mem_add.mp hb with hb1 | hb1
      · rw [hb1]
        exact h a rfl
      · exact hw c b hb1
    · have hc1 : a.kind.castsTo c.cls = false := by simpa using hc
      rw [addAnimal_throw hc1]
      exact hw

theorem tri_store (c : Slot) (pos : Int) (a : Animal) (h : AgeOK c a) :
    Tri (store c pos a) (fun _ => True) := by
  intro w hw
  refine ⟨?_, fun _ _ _ => trivial⟩
  refine ageInv_set hw c _ ?_
  intro b hb
  rcases List.mem_or_eq_of_mem_set hb with hb1 | hb1
  · exact hw c b hb1
  · rw [hb1]
    exact h

theorem tri_drain (c : Slot) : Tri (drain c) (fun _ => True) := by
  intro w hw
  refine ⟨?_, fun _ _ _ => trivial⟩
  rw [drain_ok]
  exact ageInv_set hw c _ (fun b hb => by cases hb)

theorem ageOK_monster (c : Slot) (a : Animal) : AgeOK c (Monster.ofAnimal a) := by
  unfold AgeOK Monster.ofAnimal INT_MAX
  simp

theorem ageOK_half {src : Slot} (dst : Slot) (k : Kind) {a : Animal} (h : AgeOK src a) :
    AgeOK dst ⟨k, a.name, (wrapInt (a.daysLived + 1)).tdiv 2⟩ := by
  obtain ⟨h0, h1, _⟩ := h
  unfold INT_MAX at h1
  unfold AgeOK INT_MAX
  simp only
  rw [wrapInt_eq (by omega) (by omega), Int.tdiv_eq_ediv (by omega) (by omega)]
  refine ⟨by omega, by omega, fun _ => by omega⟩

theorem ageOK_ofMouse {src : Slot} (dst : Slot) {a : Animal} (h : AgeOK src a) :
    AgeOK dst (BetterMouse.ofMouse a) :=
  ageOK_half dst .BetterMouse h

theorem ageOK_ofBird {src : Slot} (dst : Slot) {a : Animal} (h : AgeOK src a) :
    AgeOK dst (BetterBird.ofBird a) :=
  ageOK_half dst .BetterBird h

theorem ageOK_ofFish {src : Slot} (dst : Slot) {a : Animal} (h : AgeOK src a) :
    AgeOK dst (BetterFish.ofFish a) :=
  ageOK_half dst .BetterFish h

theorem ageOK_double {src dst : Slot} (hs : src.upgraded = true) (hd : dst.upgraded = false)
    (k : Kind) {a : Animal} (h : AgeOK src a) :
    AgeOK dst ⟨k, a.name, wrapInt (a.daysLived * 2)⟩ := by
  obtain ⟨h0, _, h2⟩ := h
  have h3 := h2 hs
  unfold AgeOK INT_MAX
  simp only
  rw [wrapInt_eq (by omega) (by omega), hd]
  refine ⟨by omega, by omega, fun e => by cases e⟩

theorem tri_applyBase (src dst : Slot) (baseCode betterCode : String)
    (better : Animal → Animal) (pos : Int)
    (hb : ∀ a, AgeOK src a → AgeOK dst (better a)) :
    Tri (applyBase src dst baseCode betterCode better pos) (fun _ => True) := by
  unfold applyBase
  refine tri_bind (tri_getAnimalAt _ _) (fun animal ha => ?_)
  refine tri_ite _ ?_ (tri_ite _ ?_ (tri_pure _ trivial))
  · exact tri_bind (tri_removeAtIndex _ _)
      (fun _ _ => tri_addAnimal _ _ (fun a e => by injection e with e; rw [← e]; exact hb _ ha))
  · exact tri_bind (tri_removeAtIndex _ _)
      (fun _ _ => tri_bind (tri_drain _)
        (fun _ _ => tri_addAnimal _ _
          (fun a e => by injection e with e; rw [← e]; exact ageOK_monster _ _)))

theorem tri_applyBetter (c : Slot) (code : String) (pos : Int) :
    Tri (applyBetter c code pos) (fun _ => True) := by
  unfold applyBetter
  refine tri_bind (tri_getAnimalAt _ _) (fun animal _ => ?_)
  refine tri_ite _ ?_ (tri_pure _ trivial)
  exact tri_bind (tri_removeAtIndex _ _)
    (fun _ _ => tri_bind (tri_drain _)
      (fun _ _ => tri_addAnimal _ _
        (fun a e => by injection e with e; rw [← e]; exact ageOK_monster _ _)))

theorem tri_removeBetter (src dst : Slot) (k : Kind) (pos : Int)
    (hs : src.upgraded = true) (hd : dst.upgraded = false) :
    Tri (removeBetter src dst k pos) (fun _ => True) := by
  unfold removeBetter
  refine tri_bind (tri_getAnimalAt _ _) (fun animal ha => ?_)
  exact tri_bind (tri_removeAtIndex _ _)
    (fun _ _ => tri_addAnimal _ _
      (fun a e => by injection e with e; rw [← e]; exact ageOK_double hs hd k ha))

theorem tri_attackIn (c : Slot) (pos1 pos2 : Int) :
    Tri (attackIn c pos1 pos2) (fun _ => True) := by
  unfold attackIn
  refine tri_bind (tri_getAnimalAt _ _) (fun attacker _ => ?_)
  refine tri_bind (tri_getAnimalAt _ _) (fun defender _ => ?_)
  refine tri_bind (tri_print _) (fun _ _ => ?_)
  refine tri_bind (tri_store _ _ _ ?_) (fun _ _ => ?_)
  · have hd : (attacker.attack defender).2.daysLived = 11 := rfl
    unfold AgeOK INT_MAX
    rw [hd]
    exact ⟨by decide, by decide, fun _ => by decide⟩
  · refine tri_ite _ ?_ (tri_pure _ trivial)
    exact tri_bind (tri_removeAtIndex _ _) (fun _ _ => tri_pure _ trivial)

theorem tri_talkIn (c : Slot) (pos : Int) : Tri (talkIn c pos) (fun _ => True) := by
  unfold talkIn
  exact tri_bind (tri_getAnimalAt _ _) (fun _ _ => tri_print _)

theorem createAnimal_days {typeCode name : String} {days : Int} {a : Animal}
    (h : createAnimal typeCode name days = some a) : a.daysLived = days := by
  unfold createAnimal at h
  split_ifs at h <;> injection h with h <;> rw [← h]

theorem tri_createRoute (typeCode containerType : String) (animal : Option Animal)
    (h : ∀ a, animal = some a → 0 ≤ a.daysLived ∧ a.daysLived < INT_MAX ∧
      (containerType ≠ "Freedom" → typeCode ∈ ["BM", "BF", "BB"] →
        a.daysLived ≤ 1073741823)) :
    Tri (createRoute typeCode containerType animal) (fun _ => True) := by
  have base : ∀ c : Slot, c.upgraded = false → Tri (addAnimal c animal) (fun _ => True) :=
    fun c hc => tri_addAnimal c animal
      (fun a e => ⟨(h a e).1, (h a e).2.1, fun hu => by rw [hc] at hu; cases hu⟩)
  have up : containerType ≠ "Freedom" → typeCode ∈ ["BM", "BF", "BB"] →
      ∀ c : Slot, Tri (addAnimal c animal) (fun _ => True) :=
    fun h1 h2 c => tri_addAnimal c animal
      (fun a e => ⟨(h a e).1, (h a e).2.1, fun _ => (h a e).2.2 h1 h2⟩)
  unfold createRoute
  split_ifs with h1 h2 h3 h4 h5 h6 h7 h8 h9 h10 h11
  · exact tri_bind (base _ rfl) (fun _ _ => tri_pure _ trivial)
  · exact tri_bind (up (by rw [h1]; decide) (by rw [h3]; decide) _)
      (fun _ _ => tri_pure _ trivial)
  · exact tri_bind (base _ rfl) (fun _ _ => tri_pure _ trivial)
  · exact tri_bind (up (by rw [h1]; decide) (by rw [h5]; decide) _)
      (fun _ _ => tri_pure _ trivial)
  · exact tri_pure _ trivial
  · exact tri_bind (base _ rfl) (fun _ _ => tri_pure _ trivial)
  · exact tri_bind (up (by rw [h6]; decide) (by rw [h8]; decide) _)
      (fun _ _ => tri_pure _ trivial)
  · exact tri_bind (base _ rfl) (fun _ _ => tri_pure _ trivial)
  · exact tri_bind (up (by rw [h6]; decide) (by rw [h10]; decide) _)
      (fun _ _ => tri_pure _ trivial)
  · exact tri_pure _ trivial
  · exact tri_bind (base _ rfl) (fun _ _ => tri_pure _ trivial)
  · exact tri_pure _ trivial

theorem tri_exec (cmd : Command) (hc : cmd.daysOK) (hp : cmd ≠ .PERIOD) :
    Tri (exec cmd) (fun _ => True) := by
  cases cmd with
  | CREATE typeCode name inToken containerType days =>
    have hc1 : 0 ≤ days ∧ days < INT_MAX ∧
        (containerType ≠ "Freedom" → typeCode ∈ ["BM", "BF", "BB"] → days ≤ 1073741823) := hc
    show Tri (create typeCode name containerType days) _
    unfold create
    refine tri_bind (tri_createRoute _ _ _ ?_) (fun flag _ => ?_)
    · intro a e
      rw [createAnimal_days e]
      exact hc1
    · unfold createTalk
      split
      · split
        · exact tri_print _
        · exact tri_pure _ trivial
      · exact tri_pure _ trivial
  | APPLY_SUBSTANCE containerType typeCode pos =>
    show Tri (applySubstance containerType typeCode pos) _
    unfold applySubstance
    refine tri_ite _ (tri_print _) (tri_tryCatch ?_ (tri_print _))
    exact tri_ite _
      (tri_ite _ (tri_applyBase _ _ _ _ _ _ (fun _ ha => ageOK_ofMouse _ ha))
        (tri_ite _ (tri_applyBase _ _ _ _ _ _ (fun _ ha => ageOK_ofBird _ ha))
          (tri_ite _ (tri_applyBetter _ _ _)
            (tri_ite _ (tri_applyBetter _ _ _) (tri_pure _ trivial)))))
      (tri_ite _
        (tri_ite _ (tri_applyBase _ _ _ _ _ _ (fun _ ha => ageOK_ofFish _ ha))
          (tri_ite _ (tri_applyBase _ _ _ _ _ _ (fun _ ha => ageOK_ofMouse _ ha))
            (tri_ite _ (tri_applyBetter _ _ _)
              (tri_ite _ (tri_applyBetter _ _ _) (tri_pure _ trivial)))))
        (tri_pure _ trivial))
  | REMOVE_SUBSTANCE containerType typeCode pos =>
    show Tri (removeSubstance containerType typeCode pos) _
    unfold removeSubstance
    refine tri_ite _ (tri_print _) (tri_tryCatch ?_ (tri_print _))
    exact tri_ite _
      (tri_ite _ (tri_removeBetter _ _ _ _ rfl rfl)
        (tri_ite _ (tri_removeBetter _ _ _ _ rfl rfl) (tri_print _)))
      (tri_ite _
        (tri_ite _ (tri_removeBetter _ _ _ _ rfl rfl)
          (tri_ite _ (tri_removeBetter _ _ _ _ rfl rfl) (tri_print _)))
        (tri_pure _ trivial))
  | ATTACK containerType typeCode pos1 pos2 =>
    show Tri (attack containerType typeCode pos1 pos2) _
    unfold attack
    refine tri_ite _ (tri_print _) (tri_ite _ (tri_pure _ trivial)
      (tri_tryCatch ?_ (tri_print _)))
    split_ifs
    all_goals first
      | exact tri_pure _ trivial
      | exact tri_attackIn _ _ _
  | TALK containerType typeCode pos =>
    show Tri (talk containerType typeCode pos) _
    unfold talk
    refine tri_ite _ (tri_tryCatch (tri_talkIn _ _) (tri_print _))
      (tri_tryCatch ?_ (tri_print _))
    split_ifs
    all_goals first
      | exact tri_pure _ trivial
      | exact tri_talkIn _ _
  | PERIOD => exact absurd rfl hp
  | other cmd => exact tri_pure _ trivial

theorem ageInv_period {s : State} (h : AgeInv s) : AgeInv (periodState s) := by
  intro c b hb
  rw [periodState_get] at hb
  unfold periodClosed at hb
  have hb1 := (foldl_add_perm _ []).mem_iff.mp hb
  rw [List.nil_append, List.mem_map] at hb1
  obtain ⟨a, ha, rfl⟩ := hb1
  rw [List.mem_filter] at ha
  obtain ⟨ha1, ha2⟩ := ha
  obtain ⟨h0, h1, _⟩ := h c a ha1
  unfold INT_MAX at h1
  have e : wrapInt (a.daysLived + 1) = a.daysLived + 1 := wrapInt_eq (by omega) (by omega)
  have hle : a.daysLived + 1 ≤ 10 := by
    by_contra hgt
    have : a.expires = true := by
      unfold Animal.expires
      rw [e]
      exact decide_eq_true (Or.inr (by omega))
    rw [this] at ha2
    cases ha2
  have hd : a.aged.daysLived = a.daysLived + 1 := e
  unfold AgeOK INT_MAX
  rw [hd]
  exact ⟨by omega, by omega, fun _ => by omega⟩

theorem ageInv_step {s s1 : State} {cmd : Command} {out : List String} (hi : Inv s)
    (ha : AgeInv s) (hc : cmd.daysOK) (h : step s cmd = .ok (s1, out)) : AgeInv s1 := by
  by_cases hp : cmd = .PERIOD
  · subst hp
    rw [step_period s (fun c => inv_wellTyped hi c)] at h
    injection h with h
    injection h with h1 _
    rw [← h1]
    exact ageInv_period ha
  · have h1 := (tri_exec cmd hc hp ⟨s, []⟩ ha).1
    rw [step_world h] at h1
    exact h1

theorem reachableWith_reachable {P : Command → Prop} {s : State}
    (h : ReachableWith P s) : Reachable s := by
  induction h with
  | init => exact Reachable.init
  | step cmd _ _ hstep ih => exact Reachable.step cmd ih hstep

theorem reachableWith_ageInv {s : State} (h : ReachableWith Command.daysOK s) :
    AgeInv s := by
  induction h with
  | init =>
    intro c a ha
    cases c <;> cases ha
  | step cmd hprev hc hstep ih =>
    exact ageInv_step (reachable_inv (reachableWith_reachable hprev)) ih hc hstep

/-- C25, as stated, fails in three ways. `CREATE M a IN Cage -5` stores the
mouse with age -5. After `CREATE M a IN Cage 2147483647`, `PERIOD` stores it
with age -2147483648. After `CREATE BM a IN Cage 1073741824`,
`REMOVE_SUBSTANCE Cage BM 0` stores a mouse of age -2147483648. -/
theorem negative_age_reachable :
    (∃ s, run State.init [.CREATE "M" "a" "IN" "Cage" (-5)] =
        .ok (s, ["My name is a, days lived: -5"]) ∧
      Reachable s ∧ ∃ a ∈ s.get .cageMouse, a.daysLived < 0) ∧
    (∃ s out, run State.init [.CREATE "M" "a" "IN" "Cage" 2147483647, .PERIOD] =
        .ok (s, out) ∧
      Reachable s ∧ ∃ a ∈ s.get .cageMouse, a.daysLived < 0) ∧
    (∃ s out, run State.init
        [.CREATE "BM" "a" "IN" "Cage" 1073741824, .REMOVE_SUBSTANCE "Cage" "BM" 0] =
        .ok (s, out) ∧
      Reachable s ∧ ∃ a ∈ s.get .cageMouse, a.daysLived < 0) := by
  have p : step ⟨[], [], [], [⟨.Mouse, "a", 2147483647⟩], [], [], [], [], [], []⟩ .PERIOD =
      .ok (⟨[], [], [], [⟨.Mouse, "a", -2147483648⟩], [], [], [], [], [], []⟩, []) := by
    rw [step_period _ (by decide)]
    rfl
  have c1 : step State.init (.CREATE "M" "a" "IN" "Cage" (-5)) =
      .ok (⟨[], [], [], [⟨.Mouse, "a", -5⟩], [], [], [], [], [], []⟩,
        ["My name is a, days lived: -5"]) := rfl
  have c2 : step State.init (.CREATE "M" "a" "IN" "Cage" 2147483647) =
      .ok (⟨[], [], [], [⟨.Mouse, "a", 2147483647⟩], [], [], [], [], [], []⟩,
        ["My name is a, days lived: 2147483647"]) := rfl
  have c3 : step State.init (.CREATE "BM" "a" "IN" "Cage" 1073741824) =
      .ok (⟨[], [], [], [], [⟨.BetterMouse, "a", 1073741824⟩], [], [], [], [], []⟩,
        ["My name is a, days lived: 1073741824"]) := rfl
  have r3 : step ⟨[], [], [], [], [⟨.BetterMouse, "a", 1073741824⟩], [], [], [], [], []⟩
      (.REMOVE_SUBSTANCE "Cage" "BM" 0) =
      .ok (⟨[], [], [], [⟨.Mouse, "a", -2147483648⟩], [], [], [], [], [], []⟩, []) := rfl
  refine ⟨⟨⟨[], [], [], [⟨.Mouse, "a", -5⟩], [], [], [], [], [], []⟩, ?_,
      Reachable.step _ Reachable.init c1, ⟨.Mouse, "a", -5⟩, by decide, by decide⟩,
    ⟨⟨[], [], [], [⟨.Mouse, "a", -2147483648⟩], [], [], [], [], [], []⟩,
      ["My name is a, days lived: 2147483647"], ?_,
      Reachable.step _ (Reachable.step _ Reachable.init c2) p,
      ⟨.Mouse, "a", -2147483648⟩, by decide, by decide⟩,
    ⟨⟨[], [], [], [⟨.Mouse, "a", -2147483648⟩], [], [], [], [], [], []⟩,
      ["My name is a, days lived: 1073741824"], ?_,
      Reachable.step _ (Reachable.step _ Reachable.init c3) r3,
      ⟨.Mouse, "a", -2147483648⟩, by decide, by decide⟩⟩
  · simp only [run, c1]
    rfl
  · simp only [run, c2, p]
    rfl
  · simp only [run, c3, r3]
    rfl

/-- C25 (amended): in every state reachable from the initial state by
commands whose `CREATE` lines carry days that are non-negative, below
`INT_MAX` and, for an upgraded type code created in a Cage or an Aquarium, at
most 1073741823, the age of every stored entity is non-negative. -/
theorem reachable_ages_nonneg (s : State) (hs : ReachableWith Command.daysOK s) (c : Slot)
    (a : Animal) (ha : a ∈ s.get c) : 0 ≤ a.daysLived :=
  (reachableWith_ageInv hs c a ha).1

/-- Witness of C25 (amended): the better mouse Tom of age 2 after
`CREATE M Tom IN Cage 3` and `APPLY_SUBSTANCE Cage M 0`. -/
theorem reachable_ages_nonneg_witness :
    (⟨.BetterMouse, "Tom", 2⟩ : Animal) ∈
        (⟨[], [], [], [], [⟨.BetterMouse, "Tom", 2⟩], [], [], [], [], []⟩ : State).get
          .cageBetterMouse ∧
      (0 : Int) ≤ (⟨.BetterMouse, "Tom", 2⟩ : Animal).daysLived :=
  ⟨by decide,
    reachable_ages_nonneg ⟨[], [], [], [], [⟨.BetterMouse, "Tom", 2⟩], [], [], [], [], []⟩
      (ReachableWith.step (.APPLY_SUBSTANCE "Cage" "M" 0)
        (ReachableWith.step (.CREATE "M" "Tom" "IN" "Cage" 3) ReachableWith.init
          ⟨by decide, by decide, by decide⟩ rfl)
        trivial rfl)
      .cageBetterMouse ⟨.BetterMouse, "Tom", 2⟩ (by decide)⟩

/-! ## Claim on the rebuild that ends periodUpdate -/

theorem wellTyped_perm {T : Cls} {l1 l2 : List Animal} (hp : l1.Perm l2)
    (h : WellTyped T l2) : WellTyped T l1 :=
  fun a ha => h a (hp.mem_iff.mp ha)

theorem canonLE_aged {a b : Animal}
    (ha : INT_MIN ≤ a.daysLived ∧ a.daysLived < INT_MAX)
    (hb : INT_MIN ≤ b.daysLived ∧ b.daysLived < INT_MAX) (h : canonLE a b) :
    canonLE a.aged b.aged := by
  unfold INT_MIN INT_MAX at ha hb
  unfold canonLE at *
  have e1 : a.aged.daysLived = a.daysLived + 1 := wrapInt_eq (by omega) (by omega)
  have e2 : b.aged.daysLived = b.daysLived + 1 := wrapInt_eq (by omega) (by omega)
  have n1 : a.aged.name = a.name := rfl
  have n2 : b.aged.name = b.name := rfl
  rw [e1, e2, n1, n2]
  rcases h with h | ⟨h, hn⟩
  · exact Or.inl (by omega)
  · exact Or.inr ⟨by omega, hn⟩

theorem survivors_sorted {cont : List Animal} (hs : IsSorted cont)
    (hb : ∀ a ∈ cont, INT_MIN ≤ a.daysLived ∧ a.daysLived < INT_MAX) :
    IsSorted ((cont.filter (fun a => !a.expires)).map Animal.aged) := by
  unfold IsSorted at *
  rw [List.pairwise_map]
  have h1 : List.Pairwise canonLE (cont.filter (fun a => !a.expires)) :=
    hs.sublist (List.filter_sublist _)
  refine h1.imp_of_mem ?_
  intro a b ha hb1 hab
  exact canonLE_aged (hb a (List.mem_of_mem_filter ha)) (hb b (List.mem_of_mem_filter hb1)) hab

theorem canonLE_iff_key (a b : Animal) :
    canonLE a b ↔ toLex (a.daysLived, a.name.toList) ≤ toLex (b.daysLived, b.name.toList) := by
  unfold canonLE
  rw [Prod.Lex.le_iff]

theorem sortKey_of_sorted_perm {l1 l2 : List Animal} (hp : l1.Perm l2) (h1 : IsSorted l1)
    (h2 : IsSorted l2) : l1.map Animal.sortKey = l2.map Animal.sortKey := by
  have k : ∀ l : List Animal, IsSorted l →
      List.Sorted (· ≤ ·) (l.map (fun a => toLex (a.daysLived, a.name.toList))) := by
    intro l hl
    unfold IsSorted at hl
    unfold List.Sorted
    rw [List.pairwise_map]
    exact hl.imp (fun {a b} hab => (canonLE_iff_key a b).mp hab)
  have e := List.eq_of_perm_of_sorted (hp.map _) (k l1 h1) (k l2 h2)
  have e2 := congrArg (List.map (fun p : Lex (Int × List Char) =>
    ((ofLex p).1, String.mk (ofLex p).2))) e
  simpa [List.map_map, Function.comp_def, Animal.sortKey] using e2

theorem eq_of_map_eq {α β : Type} (f : α → β) :
    ∀ l1 l2 : List α, l1.map f = l2.map f →
      (∀ a ∈ l1, ∀ b ∈ l2, f a = f b → a = b) → l1 = l2 := by
  intro l1
  induction l1 with
  | nil =>
    intro l2 h _
    cases l2 with
    | nil => rfl
    | cons b l2 => cases h
  | cons a l1 ih =>
    intro l2 h hinj
    cases l2 with
    | nil => cases h
    | cons b l2 =>
      rw [List.map_cons, List.map_cons] at h
      injection h with h1 h2
      have e := hinj a (List.mem_cons_self _ _) b (List.mem_cons_self _ _) h1
      rw [e, ih l2 h2 (fun x hx y hy => hinj x (List.mem_cons_of_mem _ hx) y
        (List.mem_cons_of_mem _ hy))]

theorem tieFree_eq {l : List Animal} (h : TieFree l) {a b : Animal} (ha : a ∈ l)
    (hb : b ∈ l) (hk : a.sortKey = b.sortKey) : a = b := by
  unfold Animal.sortKey at hk
  injection hk with h1 h2
  have h3 := h a ha b hb h1 h2
  obtain ⟨k1, n1, d1⟩ := a
  obtain ⟨k2, n2, d2⟩ := b
  simp only at h1 h2 h3
  rw [h1, h2, h3]

theorem tieFree_perm {l1 l2 : List Animal} (hp : l1.Perm l2) (h : TieFree l2) :
    TieFree l1 :=
  fun a ha b hb => h a (hp.mem_iff.mp ha) b (hp.mem_iff.mp hb)

theorem tieFree_sublist {l1 l2 : List Animal} (hs : l1.Sublist l2) (h : TieFree l2) :
    TieFree l1 :=
  fun a ha b hb => h a (hs.subset ha) b (hs.subset hb)

theorem eq_of_perm_sorted_tieFree {l1 l2 : List Animal} (hp : l1.Perm l2)
    (h1 : IsSorted l1) (h2 : IsSorted l2) (ht : TieFree l2) : l1 = l2 :=
  eq_of_map_eq Animal.sortKey l1 l2 (sortKey_of_sorted_perm hp h1 h2)
    (fun _ ha _ hb hk => tieFree_eq ht (hp.mem_iff.mp ha) hb hk)

theorem contract_perm {sort : List Animal → List Animal} (h : SortContract sort)
    (l : List Animal) : (sort l).Perm l :=
  (h l).1

theorem contract_sorted {sort : List Animal → List Animal} (h : SortContract sort)
    (l : List Animal) : IsSorted (sort l) :=
  (isSorted_iff_sorted_notAfter _).mpr (h l).2

theorem contract_reorder : SortContract Container.reorder :=
  fun l => ⟨reorder_perm l, (isSorted_iff_sorted_notAfter _).mp (reorder_sorted l)⟩

theorem foldl_addBy_perm {sort : List Animal → List Animal} (h : SortContract sort)
    (temp : List Animal) :
    ∀ cont : List Animal, (temp.foldl (Container.addBy sort) cont).Perm (cont ++ temp) := by
  induction temp with
  | nil =>
    intro cont
    simp
  | cons a temp ih =>
    intro cont
    rw [List.foldl_cons]
    refine (ih _).trans ?_
    have h1 : (Container.addBy sort cont a).Perm (cont ++ [a]) := contract_perm h _
    have h2 := h1.append_right temp
    simpa using h2

theorem foldl_addBy_sorted {sort : List Animal → List Animal} (h : SortContract sort)
    (temp : List Animal) :
    ∀ cont : List Animal, IsSorted cont →
      IsSorted (temp.foldl (Container.addBy sort) cont) := by
  induction temp with
  | nil =>
    intro cont hc
    exact hc
  | cons a temp ih =>
    intro cont _
    rw [List.foldl_cons]
    exact ih _ (contract_sorted h _)

theorem foldl_addBy_of_sorted {sort : List Animal → List Animal} (h : SortContract sort)
    (temp : List Animal) :
    ∀ cont : List Animal, IsSorted (cont ++ temp) → TieFree (cont ++ temp) →
      temp.foldl (Container.addBy sort) cont = cont ++ temp := by
  induction temp with
  | nil =>
    intro cont _ _
    simp
  | cons a temp ih =>
    intro cont hs ht
    have happ : cont ++ a :: temp = (cont ++ [a]) ++ temp := by simp
    rw [happ] at hs ht
    have h1 : IsSorted (cont ++ [a]) := (List.pairwise_append.mp hs).1
    have h2 : TieFree (cont ++ [a]) := tieFree_sublist (List.sublist_append_left _ _) ht
    have h3 : Container.addBy sort cont a = cont ++ [a] :=
      eq_of_perm_sorted_tieFree (contract_perm h _) (contract_sorted h _) h1 h2
    rw [List.foldl_cons, h3, ih _ hs ht, happ]

theorem readdLoopBy_eq (sort : List Animal → List Animal) (T : Cls) (temp : List Animal) :
    ∀ cont : List Animal, WellTyped T temp →
      Container.readdLoopBy sort T cont temp =
        .ok (temp.foldl (Container.addBy sort) cont) := by
  induction temp with
  | nil =>
    intro cont _
    rfl
  | cons a temp ih =>
    intro cont h
    have ha : a.kind.castsTo T = true := h a (List.mem_cons_self _ _)
    have ht : WellTyped T temp := fun b hb => h b (List.mem_cons_of_mem _ hb)
    unfold Container.readdLoopBy Container.addAnimalBy
    simp only [ha, if_true]
    exact ih _ ht

theorem rebuildBy_eq (sort : List Animal → List Animal) (T : Cls) (l : List Animal)
    (hT : WellTyped T l) :
    Container.rebuildBy sort T l = .ok (l.foldl (Container.addBy sort) []) := by
  unfold Container.rebuildBy
  simp only [drainLoop_eq, List.nil_append]
  rw [readdLoopBy_eq sort T _ _ hT]

theorem readdLoopBy_reorder (T : Cls) (temp : List Animal) :
    ∀ cont : List Animal,
      Container.readdLoopBy Container.reorder T cont temp =
        Container.readdLoop T cont temp := by
  induction temp with
  | nil =>
    intro cont
    rfl
  | cons a temp ih =>
    intro cont
    unfold Container.readdLoopBy Container.readdLoop
    have e : Container.addAnimalBy Container.reorder T cont (some a) =
        Container.addAnimal T cont (some a) := rfl
    rw [e]
    cases Container.addAnimal T cont (some a) with
    | error e => rfl
    | ok cont1 => exact ih cont1

theorem periodUpdateBy_reorder (T : Cls) (cont : List Animal) :
    Container.periodUpdateBy Container.reorder T cont = Container.periodUpdate T cont := by
  unfold Container.periodUpdateBy Container.periodUpdate Container.rebuildBy
  rw [agingLoop_eq]
  simp only [drainLoop_eq, List.nil_append, readdLoopBy_reorder]

theorem tieFree_survivors {cont : List Animal} (ht : TieFree cont)
    (hb : ∀ a ∈ cont, INT_MIN ≤ a.daysLived ∧ a.daysLived < INT_MAX) :
    TieFree ((cont.filter (fun a => !a.expires)).map Animal.aged) := by
  intro x hx y hy hd hn
  rw [List.mem_map] at hx hy
  obtain ⟨a, ha, rfl⟩ := hx
  obtain ⟨b, hb1, rfl⟩ := hy
  have ha1 := List.mem_of_mem_filter ha
  have hb2 := List.mem_of_mem_filter hb1
  have ra := hb a ha1
  have rb := hb b hb2
  unfold INT_MIN INT_MAX at ra rb
  have e1 : a.aged.daysLived = a.daysLived + 1 := wrapInt_eq (by omega) (by omega)
  have e2 : b.aged.daysLived = b.daysLived + 1 := wrapInt_eq (by omega) (by omega)
  rw [e1, e2] at hd
  rw [aged_kind, aged_kind]
  exact ht a ha1 b hb2 (by omega) hn

/-- C23, as stated, fails in two ways, shown with the sort of libstdc++.
After `CREATE M a IN Cage 5` and `CREATE M b IN Cage 2147483647` the cage of
mice is sorted, the aging pass leaves `a` of age 6 before `b` of age
-2147483648, which is not sorted, and the rebuild puts `b` first. And
`CREATE F x IN Freedom 1` followed by sixteen times `CREATE M x IN Freedom 1`
leaves the fish at index 9 of a sorted vector with no age near `INT_MAX`; the
aging pass leaves it sorted, the rebuild moves the fish to index 8, and a
second rebuild moves it to index 0. -/
theorem rebuild_changes_sequence :
    (run State.init
          [.CREATE "M" "a" "IN" "Cage" 5, .CREATE "M" "b" "IN" "Cage" 2147483647] =
        .ok (⟨[], [], [], [⟨.Mouse, "a", 5⟩, ⟨.Mouse, "b", 2147483647⟩], [], [], [], [], [],
            []⟩,
          ["My name is a, days lived: 5", "My name is b, days lived: 2147483647"]) ∧
      IsSorted [⟨.Mouse, "a", 5⟩, ⟨.Mouse, "b", 2147483647⟩] ∧
      Container.agingLoop [⟨.Mouse, "a", 5⟩, ⟨.Mouse, "b", 2147483647⟩] 0 [] =
        .ok ([⟨.Mouse, "a", 6⟩, ⟨.Mouse, "b", -2147483648⟩], []) ∧
      ¬ IsSorted [⟨.Mouse, "a", 6⟩, ⟨.Mouse, "b", -2147483648⟩] ∧
      Container.rebuildBy Container.stdSort .Mouse
          [⟨.Mouse, "a", 6⟩, ⟨.Mouse, "b", -2147483648⟩] =
        .ok [⟨.Mouse, "b", -2147483648⟩, ⟨.Mouse, "a", 6⟩]) ∧
    ((List.replicate 16 (⟨.Mouse, "x", 1⟩ : Animal)).foldl
          (Container.addBy Container.stdSort) [⟨.Fish, "x", 1⟩] =
        List.replicate 9 ⟨.Mouse, "x", 1⟩ ++ ⟨.Fish, "x", 1⟩ ::
          List.replicate 7 ⟨.Mouse, "x", 1⟩ ∧
      IsSorted (List.replicate 9 ⟨.Mouse, "x", 1⟩ ++ ⟨.Fish, "x", 1⟩ ::
        List.replicate 7 ⟨.Mouse, "x", 1⟩) ∧
      Container.agingLoop (List.replicate 9 ⟨.Mouse, "x", 1⟩ ++ ⟨.Fish, "x", 1⟩ ::
          List.replicate 7 ⟨.Mouse, "x", 1⟩) 0 [] =
        .ok (List.replicate 9 ⟨.Mouse, "x", 2⟩ ++ ⟨.Fish, "x", 2⟩ ::
          List.replicate 7 ⟨.Mouse, "x", 2⟩, []) ∧
      IsSorted (List.replicate 9 ⟨.Mouse, "x", 2⟩ ++ ⟨.Fish, "x", 2⟩ ::
        List.replicate 7 ⟨.Mouse, "x", 2⟩) ∧
      Container.rebuildBy Container.stdSort .Animal
          (List.replicate 9 ⟨.Mouse, "x", 2⟩ ++ ⟨.Fish, "x", 2⟩ ::
            List.replicate 7 ⟨.Mouse, "x", 2⟩) =
        .ok (List.replicate 8 ⟨.Mouse, "x", 2⟩ ++ ⟨.Fish, "x", 2⟩ ::
          List.replicate 8 ⟨.Mouse, "x", 2⟩) ∧
      List.replicate 8 (⟨.Mouse, "x", 2⟩ : Animal) ++ ⟨.Fish, "x", 2⟩ ::
          List.replicate 8 ⟨.Mouse, "x", 2⟩ ≠
        List.replicate 9 ⟨.Mouse, "x", 2⟩ ++ ⟨.Fish, "x", 2⟩ ::
          List.replicate 7 ⟨.Mouse, "x", 2⟩ ∧
      Container.rebuildBy Container.stdSort .Animal
          (List.replicate 8 ⟨.Mouse, "x", 2⟩ ++ ⟨.Fish, "x", 2⟩ ::
            List.replicate 8 ⟨.Mouse, "x", 2⟩) =
        .ok (⟨.Fish, "x", 2⟩ :: List.replicate 16 ⟨.Mouse, "x", 2⟩)) := by
  refine ⟨⟨rfl, by decide, ?_, by decide, ?_⟩,
    ⟨?_, by decide, ?_, by decide, ?_, by decide, ?_⟩⟩
  · rw [agingLoop_eq]
    rfl
  · rw [rebuildBy_eq _ _ _ (by decide)]
    rfl
  · set_option maxRecDepth 100000 in rfl
  · rw [agingLoop_eq]
    rfl
  · rw [rebuildBy_eq _ _ _ (by decide)]
    set_option maxRecDepth 100000 in rfl
  · rw [rebuildBy_eq _ _ _ (by decide)]
    set_option maxRecDepth 100000 in rfl

/-- C23 (amended): under every sort that ISO C++ allows for `std::sort`, for
every container of element class `T` that is sorted by the canonical ordering
and holds no entity of age `INT_MAX`, the aging pass of `periodUpdate` ends
with a sorted sequence `pass`, and the rebuild, hence `periodUpdate`, leaves a
sorted permutation of `pass` that shows the same ages and names in the same
order; where no two entities of equal age and name differ in class it leaves
`pass` itself; and on every container of class `T` without such entities a
second rebuild changes nothing after a first. -/
theorem rebuild_noop (sort : List Animal → List Animal) (hsort : SortContract sort)
    (T : Cls) (cont : List Animal) (hT : WellTyped T cont) (hs : IsSorted cont)
    (hb : ∀ a ∈ cont, INT_MIN ≤ a.daysLived ∧ a.daysLived < INT_MAX) :
    ∃ pass out r, Container.agingLoop cont 0 [] = .ok (pass, out) ∧ IsSorted pass ∧
      Container.rebuildBy sort T pass = .ok r ∧
      Container.periodUpdateBy sort T cont = .ok (r, out) ∧
      r.Perm pass ∧ IsSorted r ∧ r.map Animal.sortKey = pass.map Animal.sortKey ∧
      (TieFree cont → r = pass) ∧
      (∀ l : List Animal, WellTyped T l → TieFree l →
        ∃ r1, Container.rebuildBy sort T l = .ok r1 ∧
          Container.rebuildBy sort T r1 = .ok r1) := by
  have hp := survivors_sorted hs hb
  have hw := wellTyped_survivors hT
  have hperm : (((cont.filter (fun a => !a.expires)).map Animal.aged).foldl
      (Container.addBy sort) []).Perm ((cont.filter (fun a => !a.expires)).map Animal.aged) := by
    simpa using foldl_addBy_perm hsort ((cont.filter (fun a => !a.expires)).map Animal.aged) []
  have hsorted := foldl_addBy_sorted hsort
    ((cont.filter (fun a => !a.expires)).map Animal.aged) [] isSorted_nil
  refine ⟨_, _, _, agingLoop_eq cont, hp, rebuildBy_eq sort T _ hw, ?_, hperm, hsorted,
    sortKey_of_sorted_perm hperm hsorted hp, ?_, ?_⟩
  · unfold Container.periodUpdateBy
    rw [agingLoop_eq]
    simp only [rebuildBy_eq sort T _ hw]
  · intro ht
    exact eq_of_perm_sorted_tieFree hperm hsorted hp (tieFree_survivors ht hb)
  · intro l hl ht
    have h1 : (l.foldl (Container.addBy sort) []).Perm l := by
      simpa using foldl_addBy_perm hsort l []
    have h2 : IsSorted (l.foldl (Container.addBy sort) []) :=
      foldl_addBy_sorted hsort l [] isSorted_nil
    have h3 : WellTyped T (l.foldl (Container.addBy sort) []) := wellTyped_perm h1 hl
    have h4 : TieFree (l.foldl (Container.addBy sort) []) := tieFree_perm h1 ht
    refine ⟨_, rebuildBy_eq sort T l hl, ?_⟩
    rw [rebuildBy_eq sort T _ h3,
      foldl_addBy_of_sorted hsort _ [] (by simpa using h2) (by simpa using h4),
      List.nil_append]

/-- Witness of C23 (amended): the sort of the command loop, and the cage of
mice with `a` of age 5 and `b` of age 10, where the pass removes `b`. -/
theorem rebuild_noop_witness :
    ∃ pass out r,
      Container.agingLoop [⟨.Mouse, "a", 5⟩, ⟨.Mouse, "b", 10⟩] 0 [] = .ok (pass, out) ∧
      IsSorted pass ∧ Container.rebuildBy Container.reorder .Mouse pass = .ok r ∧
      Container.periodUpdateBy Container.reorder .Mouse
        [⟨.Mouse, "a", 5⟩, ⟨.Mouse, "b", 10⟩] = .ok (r, out) ∧
      r.Perm pass ∧ IsSorted r ∧ r.map Animal.sortKey = pass.map Animal.sortKey ∧
      (TieFree [⟨.Mouse, "a", 5⟩, ⟨.Mouse, "b", 10⟩] → r = pass) ∧
      (∀ l : List Animal, WellTyped .Mouse l → TieFree l →
        ∃ r1, Container.rebuildBy Container.reorder .Mouse l = .ok r1 ∧
          Container.rebuildBy Container.reorder .Mouse r1 = .ok r1) :=
  rebuild_noop Container.reorder contract_reorder .Mouse
    [⟨.Mouse, "a", 5⟩, ⟨.Mouse, "b", 10⟩] (by decide) (by decide) (by decide)

end Assignment2
